import Mathlib

/-!
# TheoraPlay: a shallow embedding of `theoraplay.c`

The development follows the source file top to bottom:

* the two singly linked output lists of `TheoraDecoder` (video and audio) with the
  tail insertion done by `WorkerThread` and the head removal done by
  `THEORAPLAY_getVideo` / `THEORAPLAY_getAudio`;
* `FeedMoreOggData`;
* the frame copy of the video step;
* `WorkerThread` as a step machine whose steps are interleaved with consumer calls;
* the time stamps of the units along the decode results, over a model of C `double`.

Pointers are heap addresses (`Nat`), `NULL` is `none`.  Every `malloc` of an item
returns the next unused address of the item heap, so an address is also the serial
number of the allocation.  The Ogg, Theora and Vorbis libraries are external: what they
return is read from the input description (`ReadCall`, `Page`, `Packet`).
-/

namespace TheoraPlay

/-! ## Items and the two linked lists -/

/-- A heap cell holding an item: the item's own fields and its `next` pointer. -/
structure Node (α : Type) where
  val : α
  next : Option Nat

/-- Modelled from the spec: the fields of `THEORAPLAY_YuvVideoItem` other than `next`
(the header `theoraplay.h` that declares the type is not part of the sources):
presentation time in ms, frame rate, width, height and the owned pixel buffer.  A
buffer byte is `none` while it has not been written since `malloc`. -/
structure YuvVideo where
  playms : Nat
  fps : ℚ
  width : Nat
  height : Nat
  yuv : List (Option Nat)

/-- Modelled from the spec: the fields of `THEORAPLAY_PcmAudioItem` other than `next`
(declared in the absent `theoraplay.h`): presentation time in ms, channel count, sample
rate, frame count and the owned interleaved sample buffer. -/
structure PcmAudio where
  playms : Nat
  channels : Int
  freq : Int
  frames : Int
  samples : List Nat

/-- The video item as stored on the heap. -/
abbrev YuvVideoItem := Node YuvVideo

/-- The audio item as stored on the heap. -/
abbrev PcmAudioItem := Node PcmAudio

/-- Modulus of C `unsigned int`. -/
def UINT_MOD : Nat := 2 ^ 32

/-- The `TheoraDecoder` structure.  `videoHeap` and `audioHeap` hold every item that was
allocated and handed to a list; `assertFailed` records that some `assert` evaluated to
false. -/
structure TheoraDecoder where
  thread_created : Bool
  halt : Bool
  videocount : Nat
  thread_done : Bool
  decode_error : Bool
  maxframes : Nat
  videolist : Option Nat
  videolisttail : Option Nat
  audiolist : Option Nat
  audiolisttail : Option Nat
  videoHeap : List YuvVideoItem
  audioHeap : List PcmAudioItem
  assertFailed : Bool

/-- The decoder as `THEORAPLAY_startDecode` leaves it: `memset` to zero, then
`maxframes` stored and the worker created. -/
def startDecode (maxframes : Nat) : TheoraDecoder :=
  { thread_created := true, halt := false, videocount := 0, thread_done := false,
    decode_error := false, maxframes := maxframes, videolist := none,
    videolisttail := none, audiolist := none, audiolisttail := none,
    videoHeap := [], audioHeap := [], assertFailed := false }

/-- Assignment `p->next = v`. -/
def setNext {α : Type} (heap : List (Node α)) (p : Nat) (v : Option Nat) : List (Node α) :=
  match heap[p]? with
  | some c => heap.set p { c with next := v }
  | none => heap

/-- Read of `p->next`. -/
def getNext {α : Type} (heap : List (Node α)) (p : Nat) : Option Nat :=
  match heap[p]? with
  | some c => c.next
  | none => none

/-- The tail insertion of `WorkerThread` (lines 270-282 and 345-356) on a list given by
its heap, head and tail.  The item was allocated with `next = NULL`.  Result: heap,
head, tail and whether the `assert` of the branch taken held. -/
def linkTail {α : Type} (heap : List (Node α)) (head tail : Option Nat) (item : α) :
    List (Node α) × Option Nat × Option Nat × Bool :=
  let p := heap.length
  let heap1 := heap ++ [{ val := item, next := none }]
  match tail with
  | some t => (setNext heap1 t (some p), head, some p, head.isSome)
  | none => (heap1, some p, some p, head.isNone)

/-- The head removal of `THEORAPLAY_getAudio` / `THEORAPLAY_getVideo` (lines 516-523 and
545-551).  Result: `retval`, heap, head and tail. -/
def unlinkHead {α : Type} (heap : List (Node α)) (head tail : Option Nat) :
    Option Nat × List (Node α) × Option Nat × Option Nat :=
  match head with
  | none => (none, heap, head, tail)
  | some r =>
    let nxt := getNext heap r
    (some r, setNext heap r none, nxt, if nxt.isNone then none else tail)

/-- Lines 345-358 of `WorkerThread`: append the video item and count it. -/
def appendVideo (ctx : TheoraDecoder) (item : YuvVideo) : TheoraDecoder :=
  let r := linkTail ctx.videoHeap ctx.videolist ctx.videolisttail item
  { ctx with
    videoHeap := r.1, videolist := r.2.1, videolisttail := r.2.2.1,
    assertFailed := ctx.assertFailed || !r.2.2.2,
    videocount := (ctx.videocount + 1) % UINT_MOD }

/-- Lines 270-282 of `WorkerThread`: append the audio item. -/
def appendAudio (ctx : TheoraDecoder) (item : PcmAudio) : TheoraDecoder :=
  let r := linkTail ctx.audioHeap ctx.audiolist ctx.audiolisttail item
  { ctx with
    audioHeap := r.1, audiolist := r.2.1, audiolisttail := r.2.2.1,
    assertFailed := ctx.assertFailed || !r.2.2.2 }

/-- `THEORAPLAY_getAudio`: the returned pointer and the decoder afterwards. -/
def THEORAPLAY_getAudio (ctx : TheoraDecoder) : Option Nat × TheoraDecoder :=
  let r := unlinkHead ctx.audioHeap ctx.audiolist ctx.audiolisttail
  (r.1, { ctx with audioHeap := r.2.1, audiolist := r.2.2.1, audiolisttail := r.2.2.2 })

/-- `THEORAPLAY_getVideo`: the returned pointer and the decoder afterwards.  When an item
is returned, `assert(ctx->videocount > 0)` is checked and the unsigned counter is
decremented (`0 - 1` wraps to `UINT_MOD - 1`). -/
def THEORAPLAY_getVideo (ctx : TheoraDecoder) : Option Nat × TheoraDecoder :=
  let r := unlinkHead ctx.videoHeap ctx.videolist ctx.videolisttail
  match r.1 with
  | none => (none, ctx)
  | some p =>
    (some p, { ctx with
      videoHeap := r.2.1, videolist := r.2.2.1, videolisttail := r.2.2.2,
      assertFailed := ctx.assertFailed || decide (ctx.videocount = 0),
      videocount := if ctx.videocount = 0 then UINT_MOD - 1 else ctx.videocount - 1 })

/-- The addresses reached from `p` by following `next`, at most `fuel` of them. -/
def chain {α : Type} (heap : List (Node α)) : Nat → Option Nat → List Nat
  | 0, _ => []
  | _, none => []
  | fuel + 1, some p => p :: chain heap fuel (getNext heap p)

/-- The units linked in the video list, head first. -/
def videoLinked (ctx : TheoraDecoder) : List Nat :=
  chain ctx.videoHeap (ctx.videoHeap.length + 1) ctx.videolist

/-- The units linked in the audio list, head first. -/
def audioLinked (ctx : TheoraDecoder) : List Nat :=
  chain ctx.audioHeap (ctx.audioHeap.length + 1) ctx.audiolist

/-! ## Producer appends interleaved with consumer dequeues -/

/-- One operation on the two lists. -/
inductive QueueOp where
  | pushVideo (item : YuvVideo)
  | pushAudio (item : PcmAudio)
  | getVideo
  | getAudio

/-- What a run of operations has produced so far: the decoder, the video units returned
by successful `THEORAPLAY_getVideo` calls, the audio units returned by successful
`THEORAPLAY_getAudio` calls (each read at the moment it is returned), oldest first. -/
structure QueueRun where
  ctx : TheoraDecoder
  videoOut : List YuvVideoItem
  audioOut : List PcmAudioItem

/-- Apply one operation. -/
def QueueRun.step (r : QueueRun) : QueueOp → QueueRun
  | .pushVideo item => { r with ctx := appendVideo r.ctx item }
  | .pushAudio item => { r with ctx := appendAudio r.ctx item }
  | .getVideo =>
    let g := THEORAPLAY_getVideo r.ctx
    match g.1 with
    | none => { r with ctx := g.2 }
    | some p => { r with ctx := g.2, videoOut := r.videoOut ++ (g.2.videoHeap[p]?).toList }
  | .getAudio =>
    let g := THEORAPLAY_getAudio r.ctx
    match g.1 with
    | none => { r with ctx := g.2 }
    | some p => { r with ctx := g.2, audioOut := r.audioOut ++ (g.2.audioHeap[p]?).toList }

/-- Run a sequence of operations on a freshly created session. -/
def runOps (maxframes : Nat) (ops : List QueueOp) : QueueRun :=
  ops.foldl QueueRun.step { ctx := startDecode maxframes, videoOut := [], audioOut := [] }

/-- The video items appended by a sequence of operations, as allocated (`next = NULL`). -/
def pushedVideo (ops : List QueueOp) : List YuvVideoItem :=
  ops.filterMap fun op =>
    match op with
    | .pushVideo item => some { val := item, next := none }
    | _ => none

/-- The audio items appended by a sequence of operations, as allocated (`next = NULL`). -/
def pushedAudio (ops : List QueueOp) : List PcmAudioItem :=
  ops.filterMap fun op =>
    match op with
    | .pushAudio item => some { val := item, next := none }
    | _ => none

/-- The list invariant: `k` units were removed so far, the units still linked are the
addresses `k .. n-1` in order, and a removed unit has no successor. -/
structure Linked {α : Type} (heap : List (Node α)) (head tail : Option Nat) (k : Nat) : Prop where
  le : k ≤ heap.length
  head_eq : head = if k < heap.length then some k else none
  tail_eq : tail = if k < heap.length then some (heap.length - 1) else none
  next_eq : ∀ i, i < heap.length →
    getNext heap i = if k ≤ i ∧ i + 1 < heap.length then some (i + 1) else none

/-- The invariant of a run of list operations: both lists are well linked, the heaps
hold exactly the appended items in order, and what was returned so far is the
beginning of what was appended. -/
structure RunInv (r : QueueRun) (ops : List QueueOp) : Prop where
  video : Linked r.ctx.videoHeap r.ctx.videolist r.ctx.videolisttail r.videoOut.length
  audio : Linked r.ctx.audioHeap r.ctx.audiolist r.ctx.audiolisttail r.audioOut.length
  videoVals : pushedVideo ops = r.ctx.videoHeap.map fun c => { val := c.val, next := none }
  audioVals : pushedAudio ops = r.ctx.audioHeap.map fun c => { val := c.val, next := none }
  videoOut_eq : r.videoOut = (pushedVideo ops).take r.videoOut.length
  audioOut_eq : r.audioOut = (pushedAudio ops).take r.audioOut.length

/-! ## Arithmetic of C `double` -/

/-- Nearest integer to a rational, ties going to the even neighbour. -/
def roundHalfEven (t : ℚ) : ℤ :=
  if t - ⌊t⌋ < 1 / 2 then ⌊t⌋
  else if 1 / 2 < t - ⌊t⌋ then ⌊t⌋ + 1
  else if ⌊t⌋ % 2 = 0 then ⌊t⌋ else ⌊t⌋ + 1

/-- The binary64 value nearest to a positive rational `q`: `q` is scaled by the power of
two that brings it into `[2^52, 2^53)`, rounded to an integer (ties to even) and scaled
back.  Exponent limits are not modelled: every value computed below lies far inside the
normal range of the format. -/
def roundPos (q : ℚ) : ℚ :=
  (roundHalfEven (q / (2 : ℚ) ^ (Int.log 2 q - 52)) : ℚ) * (2 : ℚ) ^ (Int.log 2 q - 52)

/-- Rounding of an exact result to `double` (round to nearest, ties to even). -/
def toDouble (q : ℚ) : ℚ :=
  if q = 0 then 0 else if q < 0 then -roundPos (-q) else roundPos q

/-- Line 195: `fps = ((double) fps_numerator) / ((double) fps_denominator)` when the
denominator is not zero; `fps` keeps its initial `0.0` otherwise. -/
def fpsOf (fps_numerator fps_denominator : Nat) : ℚ :=
  if fps_denominator ≠ 0 then
    toDouble (toDouble fps_numerator / toDouble fps_denominator)
  else 0

/-- The `double` expression `(((double) frames) / rate) * 1000.0` of lines 245 and 323. -/
def msOf (frames : Nat) (rate : ℚ) : ℚ :=
  toDouble (toDouble (toDouble frames / rate) * 1000)

/-- Line 323: `(fps == 0) ? 0 : (unsigned int) ((((double) videoframes) / fps) * 1000.0)`.
The conversion truncates; a value that does not fit `unsigned int` is reduced modulo
`UINT_MOD` (C leaves that case undefined). -/
def videoPlayms (fps : ℚ) (videoframes : Nat) : Nat :=
  if fps = 0 then 0 else ⌊msOf videoframes fps⌋.toNat % UINT_MOD

/-- Line 245: `(unsigned long) ((((double) audioframes) / ((double) vinfo.rate)) * 1000.0)`,
with `ulong` the modulus of `unsigned long`. -/
def audioPlayms (ulong : Nat) (rate : Int) (audioframes : Nat) : Nat :=
  ⌊msOf audioframes (toDouble rate)⌋.toNat % ulong

/-! ## The frame copy of the video step -/

/-- The fields of libtheora's `th_info` that `WorkerThread` reads. -/
structure th_info where
  frame_width : Nat
  frame_height : Nat
  pic_width : Nat
  pic_height : Nat
  pic_x : Nat
  pic_y : Nat
  pixel_fmt : Nat
  fps_numerator : Nat
  fps_denominator : Nat

/-- The fields of libtheora's `th_img_plane` that are read: `stride`, and `data` as the
byte found at a signed offset from the `data` pointer. -/
structure th_img_plane where
  stride : Int
  data : Int → Nat

/-- The three planes of a `th_ycbcr_buffer`. -/
abbrev th_ycbcr_buffer := Fin 3 → th_img_plane

/-- The value `TH_PF_420` of libtheora's `th_pixel_fmt`. -/
def TH_PF_420 : Nat := 0

/-- The value `TH_DUPFRAME` of libtheora. -/
def TH_DUPFRAME : Int := 1

/-- The expression `x & ~1` on a 32-bit unsigned `x`. -/
def clearBit0 (x : Nat) : Nat := x &&& 0xFFFFFFFE

/-- The call `memcpy(dst + pos, src, n)`: byte `k` of the source goes to `dst[pos + k]`. -/
def memcpy (dst : List (Option Nat)) (pos : Nat) (src : Nat → Nat) : Nat → List (Option Nat)
  | 0 => dst
  | n + 1 => (memcpy dst pos src n).set (pos + n) (some (src n))

/-- One of the three copy loops of lines 337-342, run for `rows` iterations from the
state (buffer, position of `yuv` in the buffer): iteration `i` copies `len` bytes from
`data + off + stride * i` and advances `yuv` by `len`. -/
def copyRows (pl : th_img_plane) (off : Int) (len : Nat) :
    Nat → List (Option Nat) × Nat → List (Option Nat) × Nat
  | 0, st => st
  | i + 1, st =>
    let st1 := copyRows pl off len i st
    (memcpy st1.1 st1.2 (fun k => pl.data (off + pl.stride * i + k)) len, st1.2 + len)

/-- Line 318: `yoff`. -/
def yoff (tinfo : th_info) (ycbcr : th_ycbcr_buffer) : Int :=
  (clearBit0 tinfo.pic_x : Int) + (ycbcr 0).stride * (clearBit0 tinfo.pic_y : Int)

/-- Line 319: `uvoff`. -/
def uvoff (tinfo : th_info) (ycbcr : th_ycbcr_buffer) : Int :=
  ((tinfo.pic_x / 2 : Nat) : Int) + (ycbcr 1).stride * ((tinfo.pic_y / 2 : Nat) : Int)

/-- Lines 327 and 336-342: the buffer obtained from `malloc(w * h * 2)` after the three
copy loops. -/
def fillYuv (tinfo : th_info) (ycbcr : th_ycbcr_buffer) : List (Option Nat) :=
  let w := tinfo.pic_width
  let h := tinfo.pic_height
  let s0 := copyRows (ycbcr 0) (yoff tinfo ycbcr) w h (List.replicate (w * h * 2) none, 0)
  let s1 := copyRows (ycbcr 2) (uvoff tinfo ycbcr) (w / 2) (h / 2) s0
  let s2 := copyRows (ycbcr 1) (uvoff tinfo ycbcr) (w / 2) (h / 2) s1
  s2.1

/-- Lines 316-342: the video item built from a new frame. -/
def newVideoItem (tinfo : th_info) (fps : ℚ) (videoframes : Nat) (ycbcr : th_ycbcr_buffer) :
    YuvVideo :=
  { playms := videoPlayms fps videoframes
    fps := fps
    width := tinfo.pic_width
    height := tinfo.pic_height
    yuv := fillYuv tinfo ycbcr }

/-- Lines 259-264: the samples of `frames` frames of `channels` channels, frame by frame. -/
def interleave (pcm : Nat → Nat → Nat) (frames channels : Nat) : List Nat :=
  (List.range frames).flatMap fun frameidx =>
    (List.range channels).map fun chanidx => pcm chanidx frameidx

/-- Lines 240-264: the audio item built from `frames` decoded frames. -/
def newAudioItem (ulong : Nat) (channels rate : Int) (audioframes : Nat) (frames : Int)
    (pcm : Nat → Nat → Nat) : PcmAudio :=
  { playms := audioPlayms ulong rate audioframes
    channels := channels
    freq := rate
    frames := frames
    samples := interleave pcm frames.toNat channels.toNat }

/-- A picture of 2 x 2 pixels at the origin of a 16 x 16 frame, 30 frames per second. -/
def tinfo2x2 : th_info :=
  { frame_width := 16, frame_height := 16, pic_width := 2, pic_height := 2, pic_x := 0,
    pic_y := 0, pixel_fmt := TH_PF_420, fps_numerator := 30, fps_denominator := 1 }

/-- Three planes of stride 16 whose byte at offset `o` is `o`. -/
def rampFrame : th_ycbcr_buffer := fun _ => { stride := 16, data := fun o => o.toNat }

/-- An Ogg packet, described by what the codec libraries answer when it is handed to
them: the results of `th_decode_headerin`, `vorbis_synthesis_headerin`,
`th_decode_packetin`, `th_decode_ycbcr_out` (with the planes it exposes) and
`vorbis_synthesis`, and the frames (count and channel-major samples) that
`vorbis_synthesis_pcmout` reports once the packet's block has been added. -/
structure Packet where
  th_headerin : Int
  vorbis_headerin : Int
  th_packetin : Int
  th_ycbcr_out : Int
  ycbcr : th_ycbcr_buffer
  vorbis_synthesis : Int
  pcm_frames : Int
  pcm : Nat → Nat → Nat

/-- An Ogg page: begin-of-stream flag, serial number and the packets it completes for
its stream; `none` stands for a gap, which `ogg_stream_packetout` reports as `-1`. -/
structure Page where
  bos : Bool
  serialno : Int
  packets : List (Option Packet)

/-- The part of `ogg_stream_state` that matters: serial number and the packets not yet
taken out. -/
structure ogg_stream_state where
  serialno : Int
  packets : List (Option Packet)

/-- The part of `ogg_sync_state` that matters: the pages framed and not yet taken out;
`none` stands for skipped bytes, which `ogg_sync_pageout` reports as `-1`. -/
abbrev ogg_sync_state := List (Option Page)

/-- Library call `ogg_stream_init`. -/
def ogg_stream_init (serialno : Int) : ogg_stream_state :=
  { serialno := serialno, packets := [] }

/-- Library call `ogg_stream_pagein`: a stream ignores pages that are not meant for it. -/
def ogg_stream_pagein (os : ogg_stream_state) (page : Page) : ogg_stream_state :=
  if page.serialno = os.serialno then { os with packets := os.packets ++ page.packets } else os

/-- Library call `ogg_stream_packetout`: result (`1` packet, `0` nothing, `-1` gap), the
packet written on result `1`, and the stream afterwards. -/
def ogg_stream_packetout (os : ogg_stream_state) : Int × Option Packet × ogg_stream_state :=
  match os.packets with
  | [] => (0, none, os)
  | none :: rest => (-1, none, { os with packets := rest })
  | some p :: rest => (1, some p, { os with packets := rest })

/-- Library call `ogg_sync_pageout`: result (`1` page, `0` needs more data, `-1` skipped
bytes), the page written on result `1`, and the synchronizer afterwards. -/
def ogg_sync_pageout (sync : ogg_sync_state) : Int × Option Page × ogg_sync_state :=
  match sync with
  | [] => (0, none, [])
  | none :: rest => (-1, none, rest)
  | some page :: rest => (1, some page, rest)

/-- What one call of `FeedMoreOggData` meets: whether `ogg_sync_buffer` returns a buffer,
the successive `read` results as (return value, `errno == EINTR`), the result of
`ogg_sync_wrote`, and the pages that the bytes read complete. -/
structure ReadCall where
  buffer_ok : Bool
  reads : List (Int × Bool)
  wrote : Int
  pages : List (Option Page)

/-- A call on an exhausted source: `read` returns 0. -/
def eofCall : ReadCall :=
  { buffer_ok := true, reads := [(0, false)], wrote := 0, pages := [] }

/-- Line 62: `while ((buflen = read(...)) < 0 && errno == EINTR) {}`; the value of
`buflen` after the loop (0 once nothing more is to be read). -/
def readLoop : List (Int × Bool) → Int
  | [] => 0
  | (r, eintr) :: rest => if r < 0 ∧ eintr = true then readLoop rest else r

/-- `FeedMoreOggData`: the returned `int` and the synchronizer afterwards. -/
def FeedMoreOggData (call : ReadCall) (sync : ogg_sync_state) : Int × ogg_sync_state :=
  if call.buffer_ok = false then (-1, sync)
  else if readLoop call.reads ≤ 0 then (0, sync)
  else if call.wrote = 0 then (1, sync ++ call.pages)
  else (-1, sync)

/-- What the libraries answer independently of the packet at hand: the stream
parameters left in `tinfo` and `vinfo` by the headers, whether `th_decode_alloc`
returns a decoder, the results of `vorbis_synthesis_init` and `vorbis_block_init`, the
modulus of `unsigned long`, and the indeterminate initial content of `packet`. -/
structure Env where
  tinfo : th_info
  channels : Int
  rate : Int
  th_decode_alloc : Bool
  vorbis_synthesis_init : Int
  vorbis_block_init : Int
  ULONG_MOD : Nat
  packet0 : Packet

/-! ## `WorkerThread` as a step machine -/

/-- The control points of `WorkerThread`.  Between two control points the thread reads
`ctx->halt` at most once and enters at most one critical section. -/
inductive PC where
  | discover
  | discoverPages
  | discoverDone
  | headers
  | headersTheora
  | headersVorbis
  | headersPage
  | setupVideo
  | setupAudio
  | decodeTop
  | audioDrain
  | videoStep
  | refill
  | refillPages
  | throttle
  | throttleWait
  | cleanup
  | done
deriving DecidableEq

/-- The local variables of `WorkerThread`, the unread remainder of the file (`fd`) and the
frames pending in the Vorbis DSP state (`pcm_frames`, `pcm`). -/
structure Worker where
  pc : PC
  fd : List ReadCall
  audioframes : Nat
  videoframes : Nat
  fps : ℚ
  was_error : Bool
  eos : Bool
  packet : Packet
  sync : ogg_sync_state
  vpackets : Nat
  vstream : ogg_stream_state
  vdsp_init : Bool
  tpackets : Nat
  tstream : ogg_stream_state
  vblock_init : Bool
  tdec : Bool
  pcm_frames : Int
  pcm : Nat → Nat → Nat
  bos : Bool
  need_pages : Bool
  saw_video_frame : Bool

/-- The decoder, the worker, and two history counters: the number of successful
`THEORAPLAY_getVideo` and `THEORAPLAY_getAudio` calls so far. -/
structure Sys where
  ctx : TheoraDecoder
  w : Worker
  videoTaken : Nat
  audioTaken : Nat

/-- The state right after `THEORAPLAY_startDecode`: lines 81-112 of `WorkerThread`. -/
def initSys (env : Env) (maxframes : Nat) (fd : List ReadCall) : Sys :=
  { ctx := startDecode maxframes
    w := { pc := PC.discover, fd := fd, audioframes := 0, videoframes := 0, fps := 0,
           was_error := true, eos := false, packet := env.packet0, sync := [],
           vpackets := 0, vstream := ogg_stream_init 0, vdsp_init := false,
           tpackets := 0, tstream := ogg_stream_init 0, vblock_init := false,
           tdec := false, pcm_frames := 0, pcm := fun _ _ => 0,
           bos := true, need_pages := false, saw_video_frame := false }
    videoTaken := 0
    audioTaken := 0 }

/-- The macro `queue_ogg_page` (lines 76-79). -/
def queue_ogg_page (w : Worker) (page : Page) : Worker :=
  { w with
    tstream := if w.tpackets ≠ 0 then ogg_stream_pagein w.tstream page else w.tstream
    vstream := if w.vpackets ≠ 0 then ogg_stream_pagein w.vstream page else w.vstream }

/-- The call `FeedMoreOggData(ctx->fd, &sync)`: the next read call is consumed. -/
def feed (w : Worker) : Int × Worker :=
  let r := FeedMoreOggData (w.fd.headD eofCall) w.sync
  (r.1, { w with fd := w.fd.tail, sync := r.2 })

/-- Lines 113-116: the test of the outer discovery loop and the call of
`FeedMoreOggData` that opens its body. -/
def stepDiscover (halt : Bool) (w : Worker) : Worker :=
  if halt = false ∧ w.bos = true then
    if (feed w).1 ≤ 0 then { (feed w).2 with pc := PC.cleanup }
    else { (feed w).2 with pc := PC.discoverPages }
  else { w with pc := PC.discoverDone }

/-- Lines 119-149: one round of the inner discovery loop.  A page that is not a
begin-of-stream page is queued and ends discovery; a begin-of-stream page is put into
a probe stream whose first packet is offered to the Theora header parser, then to the
Vorbis header parser. -/
def stepDiscoverPages (halt : Bool) (w : Worker) : Worker :=
  if halt = true then { w with pc := PC.discover }
  else
    match (ogg_sync_pageout w.sync).2.1 with
    | none => { w with sync := (ogg_sync_pageout w.sync).2.2, pc := PC.discover }
    | some page =>
      if page.bos = false then
        { queue_ogg_page { w with sync := (ogg_sync_pageout w.sync).2.2 } page with
          bos := false, pc := PC.discover }
      else
        let test := ogg_stream_packetout (ogg_stream_pagein (ogg_stream_init page.serialno) page)
        let packet := test.2.1.getD w.packet
        if w.tpackets = 0 ∧ 0 ≤ packet.th_headerin then
          { w with sync := (ogg_sync_pageout w.sync).2.2, packet := packet,
                   tstream := test.2.2, tpackets := 1 }
        else if w.vpackets = 0 ∧ 0 ≤ packet.vorbis_headerin then
          { w with sync := (ogg_sync_pageout w.sync).2.2, packet := packet,
                   vstream := test.2.2, vpackets := 1 }
        else
          { w with sync := (ogg_sync_pageout w.sync).2.2, packet := packet }

/-- Lines 153-154: no audio or video, or halted. -/
def stepDiscoverDone (halt : Bool) (w : Worker) : Worker :=
  if halt = true ∨ (w.vpackets = 0 ∧ w.tpackets = 0) then { w with pc := PC.cleanup }
  else { w with pc := PC.headers }

/-- Line 157: the test of the outer header loop. -/
def stepHeaders (halt : Bool) (w : Worker) : Worker :=
  if halt = false ∧ ((w.tpackets ≠ 0 ∧ w.tpackets < 3) ∨ (w.vpackets ≠ 0 ∧ w.vpackets < 3)) then
    { w with pc := PC.headersTheora }
  else { w with pc := PC.setupVideo }

/-- Lines 159-166: one round of the Theora header loop.  The packet is fatal exactly when
`th_decode_headerin` returns 0 (`if (!th_decode_headerin(...)) goto cleanup`). -/
def stepHeadersTheora (halt : Bool) (w : Worker) : Worker :=
  if halt = false ∧ w.tpackets ≠ 0 ∧ w.tpackets < 3 then
    let out := ogg_stream_packetout w.tstream
    if out.1 ≠ 1 then { w with tstream := out.2.2, pc := PC.headersVorbis }
    else if (out.2.1.getD w.packet).th_headerin = 0 then
      { w with tstream := out.2.2, packet := out.2.1.getD w.packet, pc := PC.cleanup }
    else
      { w with tstream := out.2.2, packet := out.2.1.getD w.packet, tpackets := w.tpackets + 1 }
  else { w with pc := PC.headersVorbis }

/-- Lines 168-175: one round of the Vorbis header loop.  The packet is fatal exactly when
`vorbis_synthesis_headerin` returns non-zero. -/
def stepHeadersVorbis (halt : Bool) (w : Worker) : Worker :=
  if halt = false ∧ w.vpackets ≠ 0 ∧ w.vpackets < 3 then
    let out := ogg_stream_packetout w.vstream
    if out.1 ≠ 1 then { w with vstream := out.2.2, pc := PC.headersPage }
    else if (out.2.1.getD w.packet).vorbis_headerin ≠ 0 then
      { w with vstream := out.2.2, packet := out.2.1.getD w.packet, pc := PC.cleanup }
    else
      { w with vstream := out.2.2, packet := out.2.1.getD w.packet, vpackets := w.vpackets + 1 }
  else { w with pc := PC.headersPage }

/-- Lines 178-181: get another page, or more data. -/
def stepHeadersPage (w : Worker) : Worker :=
  match (ogg_sync_pageout w.sync).2.1 with
  | some page =>
    { queue_ogg_page { w with sync := (ogg_sync_pageout w.sync).2.2 } page with
      pc := PC.headers }
  | none =>
    if (feed { w with sync := (ogg_sync_pageout w.sync).2.2 }).1 ≤ 0 then
      { (feed { w with sync := (ogg_sync_pageout w.sync).2.2 }).2 with pc := PC.cleanup }
    else
      { (feed { w with sync := (ogg_sync_pageout w.sync).2.2 }).2 with pc := PC.headers }

/-- Lines 185-205: video decoder setup.  The `assert(0)` of line 192 precedes a
`goto cleanup`; only the jump is modelled. -/
def stepSetupVideo (env : Env) (halt : Bool) (w : Worker) : Worker :=
  if halt = false ∧ w.tpackets ≠ 0 then
    if 99999 < env.tinfo.frame_width ∨ 99999 < env.tinfo.frame_height then
      { w with pc := PC.cleanup }
    else if env.tinfo.pixel_fmt ≠ TH_PF_420 then { w with pc := PC.cleanup }
    else if env.th_decode_alloc = false then
      { w with fps := if env.tinfo.fps_denominator ≠ 0 then
                        fpsOf env.tinfo.fps_numerator env.tinfo.fps_denominator else w.fps,
               pc := PC.cleanup }
    else
      { w with fps := if env.tinfo.fps_denominator ≠ 0 then
                        fpsOf env.tinfo.fps_numerator env.tinfo.fps_denominator else w.fps,
               tdec := true, pc := PC.setupAudio }
  else { w with pc := PC.setupAudio }

/-- Lines 214-222: audio decoder setup. -/
def stepSetupAudio (env : Env) (halt : Bool) (w : Worker) : Worker :=
  if halt = false ∧ w.vpackets ≠ 0 then
    if env.vorbis_synthesis_init ≠ 0 then { w with pc := PC.cleanup }
    else if env.vorbis_block_init ≠ 0 then { w with vdsp_init := true, pc := PC.cleanup }
    else { w with vdsp_init := true, vblock_init := true, pc := PC.decodeTop }
  else { w with pc := PC.decodeTop }

/-- Lines 227-230 and 399: the test of the decode loop; leaving the loop here clears
`was_error`. -/
def stepDecodeTop (halt : Bool) (w : Worker) : Worker :=
  if halt = false ∧ w.eos = false then
    { w with need_pages := false, saw_video_frame := false, pc := PC.audioDrain }
  else { w with was_error := false, pc := PC.cleanup }

/-- Lines 234-296: one round of the audio loop.  `itemOk` and `bufOk` say whether the
two `malloc` calls succeed. -/
def stepAudioDrain (env : Env) (itemOk bufOk : Bool) (s : Sys) : Sys :=
  if s.ctx.halt = false ∧ s.w.vpackets ≠ 0 then
    if 0 < s.w.pcm_frames then
      if itemOk = false ∨ bufOk = false then { s with w := { s.w with pc := PC.cleanup } }
      else
        { s with
          ctx := appendAudio s.ctx
            (newAudioItem env.ULONG_MOD env.channels env.rate s.w.audioframes s.w.pcm_frames
              s.w.pcm)
          w := { s.w with
            pcm_frames := 0
            audioframes := (s.w.audioframes + s.w.pcm_frames.toNat) % env.ULONG_MOD } }
    else
      let out := ogg_stream_packetout s.w.vstream
      if out.1 ≤ 0 then { s with w := { s.w with vstream := out.2.2, pc := PC.videoStep } }
      else if (out.2.1.getD s.w.packet).vorbis_synthesis = 0 then
        { s with w := { s.w with
            vstream := out.2.2, packet := out.2.1.getD s.w.packet,
            pcm_frames := (out.2.1.getD s.w.packet).pcm_frames,
            pcm := (out.2.1.getD s.w.packet).pcm } }
      else
        { s with w := { s.w with vstream := out.2.2, packet := out.2.1.getD s.w.packet } }
  else { s with w := { s.w with pc := PC.videoStep } }

/-- Lines 298-365: the video step.  `itemOk` and `bufOk` say whether the two `malloc`
calls succeed. -/
def stepVideo (env : Env) (itemOk bufOk : Bool) (s : Sys) : Sys :=
  if s.ctx.halt = false ∧ s.w.tpackets ≠ 0 then
    let out := ogg_stream_packetout s.w.tstream
    if out.1 ≤ 0 then
      { s with w := { s.w with tstream := out.2.2, need_pages := true, pc := PC.refill } }
    else if (out.2.1.getD s.w.packet).th_packetin = TH_DUPFRAME then
      { s with w := { s.w with
          tstream := out.2.2, packet := out.2.1.getD s.w.packet,
          videoframes := (s.w.videoframes + 1) % env.ULONG_MOD, pc := PC.refill } }
    else if (out.2.1.getD s.w.packet).th_packetin = 0 then
      if (out.2.1.getD s.w.packet).th_ycbcr_out = 0 then
        if itemOk = false ∨ bufOk = false then
          { s with w := { s.w with
              tstream := out.2.2, packet := out.2.1.getD s.w.packet, pc := PC.cleanup } }
        else
          { s with
            ctx := appendVideo s.ctx
              (newVideoItem env.tinfo s.w.fps s.w.videoframes (out.2.1.getD s.w.packet).ycbcr)
            w := { s.w with
              tstream := out.2.2, packet := out.2.1.getD s.w.packet,
              saw_video_frame := true,
              videoframes := (s.w.videoframes + 1) % env.ULONG_MOD, pc := PC.refill } }
      else
        { s with w := { s.w with
            tstream := out.2.2, packet := out.2.1.getD s.w.packet,
            videoframes := (s.w.videoframes + 1) % env.ULONG_MOD, pc := PC.refill } }
    else
      { s with w := { s.w with
          tstream := out.2.2, packet := out.2.1.getD s.w.packet, pc := PC.refill } }
  else { s with w := { s.w with pc := PC.refill } }

/-- Lines 367-375: the refill step up to the page loop. -/
def stepRefill (halt : Bool) (w : Worker) : Worker :=
  if halt = false ∧ w.need_pages = true then
    if (feed w).1 = 0 then { (feed w).2 with eos := true, pc := PC.throttle }
    else if (feed w).1 < 0 then { (feed w).2 with pc := PC.cleanup }
    else { (feed w).2 with pc := PC.refillPages }
  else { w with pc := PC.throttle }

/-- Lines 376-377: one round of the page loop of the refill step. -/
def stepRefillPages (halt : Bool) (w : Worker) : Worker :=
  if halt = true then { w with pc := PC.throttle }
  else
    match (ogg_sync_pageout w.sync).2.1 with
    | some page => queue_ogg_page { w with sync := (ogg_sync_pageout w.sync).2.2 } page
    | none => { w with sync := (ogg_sync_pageout w.sync).2.2, pc := PC.throttle }

/-- Lines 382-386: `go_on = !ctx->halt` when a video frame was seen. -/
def stepThrottle (halt : Bool) (w : Worker) : Worker :=
  if w.saw_video_frame = true ∧ halt = false then { w with pc := PC.throttleWait }
  else { w with pc := PC.decodeTop }

/-- Lines 386-394: one round of the wait loop: under the lock,
`go_on = !ctx->halt && (ctx->videocount >= ctx->maxframes)`; sleep and stay when it
holds. -/
def stepThrottleWait (ctx : TheoraDecoder) (w : Worker) : Worker :=
  if ctx.halt = false ∧ ctx.maxframes ≤ ctx.videocount then w
  else { w with pc := PC.decodeTop }

/-- Lines 401-415: the unwind path. -/
def stepCleanup (s : Sys) : Sys :=
  { s with
    ctx := { s.ctx with
      decode_error := (!s.ctx.halt) && s.w.was_error
      thread_done := true }
    w := { s.w with tdec := false, vblock_init := false, vdsp_init := false, pc := PC.done } }

/-- One step of `WorkerThread` from its current control point. -/
def workerStep (env : Env) (itemOk bufOk : Bool) (s : Sys) : Sys :=
  match s.w.pc with
  | PC.discover => { s with w := stepDiscover s.ctx.halt s.w }
  | PC.discoverPages => { s with w := stepDiscoverPages s.ctx.halt s.w }
  | PC.discoverDone => { s with w := stepDiscoverDone s.ctx.halt s.w }
  | PC.headers => { s with w := stepHeaders s.ctx.halt s.w }
  | PC.headersTheora => { s with w := stepHeadersTheora s.ctx.halt s.w }
  | PC.headersVorbis => { s with w := stepHeadersVorbis s.ctx.halt s.w }
  | PC.headersPage => { s with w := stepHeadersPage s.w }
  | PC.setupVideo => { s with w := stepSetupVideo env s.ctx.halt s.w }
  | PC.setupAudio => { s with w := stepSetupAudio env s.ctx.halt s.w }
  | PC.decodeTop => { s with w := stepDecodeTop s.ctx.halt s.w }
  | PC.audioDrain => stepAudioDrain env itemOk bufOk s
  | PC.videoStep => stepVideo env itemOk bufOk s
  | PC.refill => { s with w := stepRefill s.ctx.halt s.w }
  | PC.refillPages => { s with w := stepRefillPages s.ctx.halt s.w }
  | PC.throttle => { s with w := stepThrottle s.ctx.halt s.w }
  | PC.throttleWait => { s with w := stepThrottleWait s.ctx s.w }
  | PC.cleanup => stepCleanup s
  | PC.done => s

/-- What can happen next: a step of the worker thread (with the outcome of its `malloc`
calls), a consumer call, or `THEORAPLAY_stopDecode` setting `halt`. -/
inductive Event where
  | worker (itemOk bufOk : Bool)
  | getVideo
  | getAudio
  | stop

/-- The effect of one event. -/
def sysStep (env : Env) (s : Sys) : Event → Sys
  | Event.worker itemOk bufOk => workerStep env itemOk bufOk s
  | Event.getVideo =>
    { s with ctx := (THEORAPLAY_getVideo s.ctx).2
             videoTaken := s.videoTaken + if (THEORAPLAY_getVideo s.ctx).1.isSome then 1 else 0 }
  | Event.getAudio =>
    { s with ctx := (THEORAPLAY_getAudio s.ctx).2
             audioTaken := s.audioTaken + if (THEORAPLAY_getAudio s.ctx).1.isSome then 1 else 0 }
  | Event.stop => { s with ctx := { s.ctx with halt := true } }

/-- The state after a sequence of events. -/
def runSys (env : Env) (s : Sys) (evs : List Event) : Sys :=
  evs.foldl (sysStep env) s

/-- The number of worker steps in a sequence of events. -/
def workerSteps : List Event → Nat
  | [] => 0
  | Event.worker _ _ :: evs => workerSteps evs + 1
  | _ :: evs => workerSteps evs

/-- There is room for one more video frame, or nothing was buffered, or halt was asked. -/
def Room (ctx : TheoraDecoder) : Prop :=
  ctx.halt = true ∨ ctx.videocount < ctx.maxframes ∨ ctx.videocount = 0

/-- The counter after a frame was appended while there was room. -/
def Filled (ctx : TheoraDecoder) : Prop :=
  ctx.videocount ≤ ctx.maxframes ∨ ctx.videocount ≤ 1

/-- What the control point says about the video counter. -/
def bpInv (s : Sys) : Prop :=
  match s.w.pc with
  | PC.refill => if s.w.saw_video_frame = true then Filled s.ctx else Room s.ctx
  | PC.refillPages => if s.w.saw_video_frame = true then Filled s.ctx else Room s.ctx
  | PC.throttle => if s.w.saw_video_frame = true then Filled s.ctx else Room s.ctx
  | PC.throttleWait => Filled s.ctx
  | PC.cleanup => True
  | PC.done => True
  | PC.audioDrain => s.w.saw_video_frame = false ∧ Room s.ctx
  | PC.videoStep => s.w.saw_video_frame = false ∧ Room s.ctx
  | _ => Room s.ctx

/-- The invariant of the interleaved system: both lists are well linked with the units
`videoTaken ..` and `audioTaken ..` still queued, the video counter is the number of
queued video units, no list assertion has failed, and the counter respects the
control point. -/
structure SysInv (s : Sys) : Prop where
  video : Linked s.ctx.videoHeap s.ctx.videolist s.ctx.videolisttail s.videoTaken
  audio : Linked s.ctx.audioHeap s.ctx.audiolist s.ctx.audiolisttail s.audioTaken
  count : s.ctx.videocount = s.ctx.videoHeap.length - s.videoTaken
  noAssert : s.ctx.assertFailed = false
  maxfr : s.ctx.maxframes < UINT_MOD
  bp : bpInv s
  filled : Filled s.ctx

/-- The control points outside the body of the decode loop. -/
def PC.outside : PC → Bool
  | PC.audioDrain => false
  | PC.videoStep => false
  | PC.refill => false
  | PC.refillPages => false
  | PC.throttle => false
  | PC.throttleWait => false
  | _ => true

/-! ## Concrete inputs -/

/-- A packet for which `th_decode_headerin` answers `th`, `vorbis_synthesis_headerin`
answers `vb`, video decoding yields a new frame and audio decoding yields 4 frames. -/
def mkPacket (th vb : Int) : Packet :=
  { th_headerin := th, vorbis_headerin := vb, th_packetin := 0, th_ycbcr_out := 0,
    ycbcr := rampFrame, vorbis_synthesis := 0, pcm_frames := 4, pcm := fun c f => c + f }

/-- Library answers for a 2 x 2 picture at 30 fps and stereo audio at 44100 Hz; every
allocation and initialisation succeeds. -/
def demoEnv : Env :=
  { tinfo := tinfo2x2, channels := 2, rate := 44100, th_decode_alloc := true,
    vorbis_synthesis_init := 0, vorbis_block_init := 0, ULONG_MOD := 2 ^ 64,
    packet0 := mkPacket (-1) (-1) }

/-- A file with one Theora stream (serial number 1) and one Vorbis stream (serial
number 2): the two begin-of-stream pages, a page with two more Theora headers and a
frame, a page with two more Vorbis headers and an audio packet, and, in a second read,
a page with two more frames.  The first `read` is interrupted once. -/
def demoFile : List ReadCall :=
  [ { buffer_ok := true, reads := [(-1, true), (100, false)], wrote := 0,
      pages := [some ⟨true, 1, [some (mkPacket 1 (-1))]⟩,
                some ⟨true, 2, [some (mkPacket (-1) 0)]⟩,
                some ⟨false, 1, [some (mkPacket 1 (-1)), some (mkPacket 1 (-1)),
                                 some (mkPacket 0 (-1))]⟩,
                some ⟨false, 2, [some (mkPacket (-1) 0), some (mkPacket (-1) 0),
                                 some (mkPacket 0 0)]⟩] },
    { buffer_ok := true, reads := [(100, false)], wrote := 0,
      pages := [some ⟨false, 1, [some (mkPacket 0 (-1)), some (mkPacket 0 (-1))]⟩] } ]

/-- A run of `n` worker steps in which every `malloc` succeeds. -/
def workerRun (n : Nat) : List Event := List.replicate n (Event.worker true true)

/-! ## A source without recognisable headers -/

/-- Both header parsers reject the packet. -/
def Rejected (p : Packet) : Prop :=
  p.th_headerin < 0 ∧ p.vorbis_headerin < 0

/-- No begin-of-stream page of the list starts with a packet that a header parser
accepts. -/
def PagesRejected (pages : List (Option Page)) : Prop :=
  ∀ page, some page ∈ pages → page.bos = true →
    ∀ p, page.packets.head? = some (some p) → Rejected p

/-- The value `TH_EBADHEADER` of libtheora. -/
def TH_EBADHEADER : Int := -20

/-- A file with one Theora stream whose second and third header packets are answered with
`TH_EBADHEADER` by `th_decode_headerin`; one frame follows them, and a second read
brings one more frame. -/
def badHeaderFile : List ReadCall :=
  [ { buffer_ok := true, reads := [(100, false)], wrote := 0,
      pages := [some ⟨true, 1, [some (mkPacket 1 (-1))]⟩,
                some ⟨false, 1, [some (mkPacket TH_EBADHEADER (-1)),
                                 some (mkPacket TH_EBADHEADER (-1)),
                                 some (mkPacket 0 (-1))]⟩] },
    { buffer_ok := true, reads := [(100, false)], wrote := 0,
      pages := [some ⟨false, 1, [some (mkPacket 0 (-1))]⟩] } ]

/-- The library answers met by `badHeaderFile`: as no setup header was accepted,
`th_decode_alloc` returns `NULL`; everything else is as in `demoEnv`. -/
def noSetupEnv : Env := { demoEnv with th_decode_alloc := false }

/-- A file with one Theora stream (three headers and a frame in the first read, one more
frame in the second) whose third `read` fails with an error other than `EINTR`. -/
def readErrorFile : List ReadCall :=
  [ { buffer_ok := true, reads := [(100, false)], wrote := 0,
      pages := [some ⟨true, 1, [some (mkPacket 1 (-1))]⟩,
                some ⟨false, 1, [some (mkPacket 1 (-1)), some (mkPacket 1 (-1)),
                                 some (mkPacket 0 (-1))]⟩] },
    { buffer_ok := true, reads := [(100, false)], wrote := 0,
      pages := [some ⟨false, 1, [some (mkPacket 0 (-1))]⟩] },
    { buffer_ok := true, reads := [(-1, false)], wrote := 0, pages := [] } ]

/-- A file with a Vorbis stream only: the begin-of-stream page, a page with the two
other headers and one audio packet, and two more reads with one audio page each. -/
def audioOnlyFile : List ReadCall :=
  [ { buffer_ok := true, reads := [(100, false)], wrote := 0,
      pages := [some ⟨true, 2, [some (mkPacket (-1) 0)]⟩,
                some ⟨false, 2, [some (mkPacket (-1) 0), some (mkPacket (-1) 0),
                                 some (mkPacket 0 0)]⟩] },
    { buffer_ok := true, reads := [(100, false)], wrote := 0,
      pages := [some ⟨false, 2, [some (mkPacket 0 0), some (mkPacket 0 0)]⟩] },
    { buffer_ok := true, reads := [(100, false)], wrote := 0,
      pages := [some ⟨false, 2, [some (mkPacket 0 0), some (mkPacket 0 0)]⟩] } ]

/-- The decode loop with only an audio stream bound, no decoded audio pending, no audio
packet available, halt not requested and end of stream not reached. -/
structure Spinning (s : Sys) : Prop where
  halt : s.ctx.halt = false
  eos : s.w.eos = false
  tp : s.w.tpackets = 0
  vp : s.w.vpackets ≠ 0
  pcm : s.w.pcm_frames ≤ 0
  vs : s.w.vstream.packets = []
  running : s.ctx.thread_done = false
  pcs : s.w.pc = PC.decodeTop ∨
    ((s.w.pc = PC.audioDrain ∨ s.w.pc = PC.videoStep ∨ s.w.pc = PC.refill ∨
        s.w.pc = PC.throttle) ∧ s.w.need_pages = false ∧ s.w.saw_video_frame = false)

/-! ## Time stamps along the decode results -/

/-- Lines 306-363 along the packets handed to `th_decode_packetin`, started with frame
index `videoframes`: the video units built, in the order in which they are appended.  A
duplicate frame and a failed `th_decode_ycbcr_out` advance the frame index without
building a unit; any other result of `th_decode_packetin` leaves the index alone. -/
def videoUnits (env : Env) (fps : ℚ) : Nat → List Packet → List YuvVideo
  | _, [] => []
  | videoframes, p :: rest =>
    if p.th_packetin = TH_DUPFRAME then
      videoUnits env fps ((videoframes + 1) % env.ULONG_MOD) rest
    else if p.th_packetin = 0 then
      if p.th_ycbcr_out = 0 then
        newVideoItem env.tinfo fps videoframes p.ycbcr ::
          videoUnits env fps ((videoframes + 1) % env.ULONG_MOD) rest
      else videoUnits env fps ((videoframes + 1) % env.ULONG_MOD) rest
    else videoUnits env fps videoframes rest

/-- The value of `videoframes` after the packets (lines 309 and 362). -/
def videoframesAfter (env : Env) : Nat → List Packet → Nat
  | videoframes, [] => videoframes
  | videoframes, p :: rest =>
    if p.th_packetin = TH_DUPFRAME then
      videoframesAfter env ((videoframes + 1) % env.ULONG_MOD) rest
    else if p.th_packetin = 0 then
      videoframesAfter env ((videoframes + 1) % env.ULONG_MOD) rest
    else videoframesAfter env videoframes rest

/-- The number of packets before the first video unit that advance the frame index:
duplicate frames and new frames whose planes could not be extracted. -/
def skipped : List Packet → Nat
  | [] => 0
  | p :: rest =>
    if p.th_packetin = TH_DUPFRAME then skipped rest + 1
    else if p.th_packetin = 0 then (if p.th_ycbcr_out = 0 then 0 else skipped rest + 1)
    else skipped rest

/-- Lines 237-267 along the results of `vorbis_synthesis_pcmout` (frame count and
samples), started with `audioframes` frames emitted: the audio units built, in the order
in which they are appended. -/
def audioUnits (env : Env) : Nat → List (Int × (Nat → Nat → Nat)) → List PcmAudio
  | _, [] => []
  | audioframes, b :: rest =>
    if 0 < b.1 then
      newAudioItem env.ULONG_MOD env.channels env.rate audioframes b.1 b.2 ::
        audioUnits env ((audioframes + b.1.toNat) % env.ULONG_MOD) rest
    else audioUnits env audioframes rest

/-- The value of `audioframes` after the results (line 267). -/
def audioframesAfter (env : Env) : Nat → List (Int × (Nat → Nat → Nat)) → Nat
  | audioframes, [] => audioframes
  | audioframes, b :: rest =>
    if 0 < b.1 then audioframesAfter env ((audioframes + b.1.toNat) % env.ULONG_MOD) rest
    else audioframesAfter env audioframes rest

/-- The number of frames in the results. -/
def totalFrames : List (Int × (Nat → Nat → Nat)) → Nat
  | [] => 0
  | b :: rest => (if 0 < b.1 then b.1.toNat else 0) + totalFrames rest

/-- The control points at which the video decoder is not set up yet, so that `fps` is
still to be computed. -/
def PC.early : PC → Bool
  | PC.discover => true
  | PC.discoverPages => true
  | PC.discoverDone => true
  | PC.headers => true
  | PC.headersTheora => true
  | PC.headersVorbis => true
  | PC.headersPage => true
  | PC.setupVideo => true
  | _ => false

/-- What the state of the system owes to the decode results so far: the video units on
the heap (all the units ever appended, in that order) and `videoframes` are those of a
sequence of at most `n` packets, the audio units and `audioframes` are those of a
sequence of results of `vorbis_synthesis_pcmout`, nothing was decoded before the video
decoder is set up, and `fps` is `0.0` or the quotient of line 195. -/
structure StampInv (env : Env) (n : Nat) (s : Sys) : Prop where
  video : ∃ packets : List Packet, packets.length ≤ n ∧
    s.ctx.videoHeap.map Node.val = videoUnits env s.w.fps 0 packets ∧
    s.w.videoframes = videoframesAfter env 0 packets
  audio : ∃ blocks : List (Int × (Nat → Nat → Nat)),
    s.ctx.audioHeap.map Node.val = audioUnits env 0 blocks ∧
    s.w.audioframes = audioframesAfter env 0 blocks
  early : s.w.pc.early = true → s.ctx.videoHeap = [] ∧ s.w.videoframes = 0
  fps : s.w.fps = 0 ∨ s.w.fps = fpsOf env.tinfo.fps_numerator env.tinfo.fps_denominator

/-- The library answers of `demoEnv` for a stream of one frame per second. -/
def slowEnv : Env := { demoEnv with tinfo := { tinfo2x2 with fps_numerator := 1 } }

/-- A packet for which `th_decode_packetin` answers `TH_DUPFRAME`: an empty packet, which
stands for a frame that repeats the one before. -/
def dupPacket : Packet := { mkPacket 0 (-1) with th_packetin := TH_DUPFRAME }

/-- A file with one Theora stream whose first packet after the three headers is a
duplicate frame, followed by a new frame; a second read brings one more frame. -/
def dupFirstFile : List ReadCall :=
  [ { buffer_ok := true, reads := [(100, false)], wrote := 0,
      pages := [some ⟨true, 1, [some (mkPacket 1 (-1))]⟩,
                some ⟨false, 1, [some (mkPacket 1 (-1)), some (mkPacket 1 (-1)),
                                 some dupPacket, some (mkPacket 0 (-1))]⟩] },
    { buffer_ok := true, reads := [(100, false)], wrote := 0,
      pages := [some ⟨false, 1, [some (mkPacket 0 (-1))]⟩] } ]

/-! ## Theorems -/

theorem getNext_setNext {α : Type} (heap : List (Node α)) (p i : Nat) (v : Option Nat)
    (hp : p < heap.length) :
    getNext (setNext heap p v) i = if i = p then v else getNext heap i := by
  unfold setNext
  rw [List.getElem?_eq_getElem hp]
  simp only [getNext, List.getElem?_set]
  by_cases h : p = i
  · subst h
    simp [hp]
  · have h2 : ¬ i = p := fun e => h e.symm
    simp [h, h2]

theorem length_setNext {α : Type} (heap : List (Node α)) (p : Nat) (v : Option Nat) :
    (setNext heap p v).length = heap.length := by
  unfold setNext
  split <;> simp

theorem getNext_append_lt {α : Type} (heap : List (Node α)) (c : Node α) (i : Nat)
    (hi : i < heap.length) : getNext (heap ++ [c]) i = getNext heap i := by
  simp [getNext, List.getElem?_append_left hi]

theorem getNext_append_last {α : Type} (heap : List (Node α)) (c : Node α) :
    getNext (heap ++ [c]) heap.length = c.next := by
  simp [getNext]

theorem map_val_setNext {α : Type} (heap : List (Node α)) (p : Nat) (v : Option Nat) :
    (setNext heap p v).map Node.val = heap.map Node.val := by
  unfold setNext
  split
  · next c hc =>
    apply List.ext_getElem?
    intro i
    simp only [List.getElem?_map, List.getElem?_set]
    by_cases h : p = i
    · subst h
      have hp : p < heap.length := (List.getElem?_eq_some_iff.mp hc).1
      simp [hp, hc]
    · simp [h]
  · rfl

theorem getElem?_setNext_self {α : Type} (heap : List (Node α)) (p : Nat) (v : Option Nat)
    (c : Node α) (hc : heap[p]? = some c) :
    (setNext heap p v)[p]? = some { val := c.val, next := v } := by
  have hp : p < heap.length := (List.getElem?_eq_some_iff.mp hc).1
  simp [setNext, hc, hp]

/-- The tail insertion keeps the list invariant and its `assert` holds. -/
theorem Linked.linkTail {α : Type} {heap : List (Node α)} {head tail : Option Nat} {k : Nat}
    (h : Linked heap head tail k) (item : α) :
    Linked (linkTail heap head tail item).1 (linkTail heap head tail item).2.1
        (linkTail heap head tail item).2.2.1 k ∧
      (linkTail heap head tail item).2.2.2 = true ∧
      (linkTail heap head tail item).1.length = heap.length + 1 ∧
      (linkTail heap head tail item).1.map Node.val = heap.map Node.val ++ [item] := by
  obtain ⟨hle, hhead, htail, hnext⟩ := h
  by_cases hk : k < heap.length
  · rw [if_pos hk] at hhead htail
    subst hhead htail
    have hlen : (heap ++ [({ val := item, next := none } : Node α)]).length
        = heap.length + 1 := by simp
    have hp : heap.length - 1 < (heap ++ [({ val := item, next := none } : Node α)]).length := by
      rw [hlen]; omega
    refine ⟨⟨?_, ?_, ?_, ?_⟩, ?_, ?_, ?_⟩
    · simp only [TheoraPlay.linkTail, length_setNext, hlen]; omega
    · simp only [TheoraPlay.linkTail, length_setNext, hlen]
      rw [if_pos (by omega)]
    · simp only [TheoraPlay.linkTail, length_setNext, hlen]
      rw [if_pos (by omega)]; simp
    · intro i hi
      simp only [TheoraPlay.linkTail, length_setNext, hlen] at hi ⊢
      rw [getNext_setNext _ _ _ _ hp]
      by_cases hi1 : i = heap.length - 1
      · rw [if_pos hi1, if_pos (by omega)]
        congr 1; omega
      · rw [if_neg hi1]
        by_cases hi2 : i < heap.length
        · rw [getNext_append_lt _ _ _ hi2, hnext i hi2]
          by_cases hki : k ≤ i
          · rw [if_pos (by omega), if_pos (by omega)]
          · rw [if_neg (by omega), if_neg (by omega)]
        · have hi3 : i = heap.length := by omega
          subst hi3
          rw [getNext_append_last, if_neg (by omega)]
    · simp [TheoraPlay.linkTail]
    · simp [TheoraPlay.linkTail, length_setNext]
    · simp [TheoraPlay.linkTail, map_val_setNext]
  · rw [if_neg hk] at hhead htail
    subst hhead htail
    have hkn : k = heap.length := by omega
    refine ⟨⟨?_, ?_, ?_, ?_⟩, ?_, ?_, ?_⟩
    · simp [TheoraPlay.linkTail]; omega
    · simp [TheoraPlay.linkTail]; omega
    · simp [TheoraPlay.linkTail]; omega
    · intro i hi
      simp only [TheoraPlay.linkTail, List.length_append, List.length_singleton] at hi ⊢
      by_cases hi2 : i < heap.length
      · rw [getNext_append_lt _ _ _ hi2, hnext i hi2, if_neg (by omega), if_neg (by omega)]
      · have hi3 : i = heap.length := by omega
        subst hi3
        rw [getNext_append_last, if_neg (by omega)]
    · simp [TheoraPlay.linkTail]
    · simp [TheoraPlay.linkTail]
    · simp [TheoraPlay.linkTail]

/-- The head removal keeps the list invariant: it returns unit `k` when one is linked
and `NULL` otherwise, and clears the returned unit's `next`. -/
theorem Linked.unlinkHead {α : Type} {heap : List (Node α)} {head tail : Option Nat} {k : Nat}
    (h : Linked heap head tail k) :
    (k < heap.length ∧ ∃ heap1 head1 tail1,
        unlinkHead heap head tail = (some k, heap1, head1, tail1) ∧
        heap1.length = heap.length ∧ heap1.map Node.val = heap.map Node.val ∧
        (∀ c, heap[k]? = some c → heap1[k]? = some { val := c.val, next := none }) ∧
        Linked heap1 head1 tail1 (k + 1)) ∨
      (k = heap.length ∧ head = none ∧ unlinkHead heap head tail = (none, heap, head, tail)) := by
  obtain ⟨hle, hhead, htail, hnext⟩ := h
  by_cases hk : k < heap.length
  · rw [if_pos hk] at hhead htail
    subst hhead htail
    refine Or.inl ⟨hk, _, _, _, rfl, length_setNext _ _ _, map_val_setNext _ _ _, ?_, ?_⟩
    · intro c hc
      exact getElem?_setNext_self _ _ _ _ hc
    · have hnk : getNext heap k = if k + 1 < heap.length then some (k + 1) else none := by
        rw [hnext k hk]; simp
      refine ⟨?_, ?_, ?_, ?_⟩
      · simp only [length_setNext]; omega
      · by_cases h1 : k + 1 < heap.length
        · rw [if_pos h1] at hnk
          simp [length_setNext, hnk, h1]
        · rw [if_neg h1] at hnk
          simp [length_setNext, hnk, h1]
      · by_cases h1 : k + 1 < heap.length
        · rw [if_pos h1] at hnk
          simp [length_setNext, hnk, h1]
        · rw [if_neg h1] at hnk
          simp [length_setNext, hnk, h1]
      · intro i hi
        simp only [length_setNext] at hi ⊢
        rw [getNext_setNext _ _ _ _ hk]
        by_cases hik : i = k
        · rw [if_pos hik, if_neg (by omega)]
        · rw [if_neg hik, hnext i hi]
          by_cases h1 : k ≤ i ∧ i + 1 < heap.length
          · rw [if_pos h1, if_pos (by omega)]
          · rw [if_neg h1, if_neg (by omega)]
  · rw [if_neg hk] at hhead htail
    subst hhead htail
    exact Or.inr ⟨by omega, rfl, rfl⟩

theorem clear_map {α : Type} (l : List (Node α)) :
    (l.map fun c => ({ val := c.val, next := none } : Node α)) =
      (l.map Node.val).map fun v => ({ val := v, next := none } : Node α) := by
  simp

theorem take_succ_of_getElem? {α : Type} (l : List α) (k : Nat) (x : α) (h : l[k]? = some x) :
    l.take (k + 1) = l.take k ++ [x] := by
  rw [List.take_succ, h]; rfl

theorem RunInv.step_op {r : QueueRun} {ops : List QueueOp} (h : RunInv r ops) (op : QueueOp) :
    RunInv (r.step op) (ops ++ [op]) := by
  obtain ⟨hv, ha, hvv, hav, hvo, hao⟩ := h
  cases op with
  | pushVideo item =>
    obtain ⟨h1, -, h3, h4⟩ := hv.linkTail item
    have e : pushedVideo (ops ++ [QueueOp.pushVideo item])
        = pushedVideo ops ++ [{ val := item, next := none }] := by
      simp [pushedVideo, List.filterMap_append]
    have e2 : pushedAudio (ops ++ [QueueOp.pushVideo item]) = pushedAudio ops := by
      simp [pushedAudio, List.filterMap_append]
    refine ⟨h1, ha, ?_, ?_, ?_, ?_⟩
    · rw [e, hvv]
      simp only [QueueRun.step, appendVideo]
      rw [clear_map, clear_map, h4]; simp
    · rw [e2]; exact hav
    · rw [e]
      simp only [QueueRun.step]
      have hlen : r.videoOut.length ≤ (pushedVideo ops).length := by
        rw [hvv, List.length_map]; exact hv.le
      rw [List.take_append_of_le_length hlen]
      exact hvo
    · rw [e2]; exact hao
  | pushAudio item =>
    obtain ⟨h1, -, h3, h4⟩ := ha.linkTail item
    have e : pushedAudio (ops ++ [QueueOp.pushAudio item])
        = pushedAudio ops ++ [{ val := item, next := none }] := by
      simp [pushedAudio, List.filterMap_append]
    have e2 : pushedVideo (ops ++ [QueueOp.pushAudio item]) = pushedVideo ops := by
      simp [pushedVideo, List.filterMap_append]
    refine ⟨hv, h1, ?_, ?_, ?_, ?_⟩
    · rw [e2]; exact hvv
    · rw [e, hav]
      simp only [QueueRun.step, appendAudio]
      rw [clear_map, clear_map, h4]; simp
    · rw [e2]; exact hvo
    · rw [e]
      simp only [QueueRun.step]
      have hlen : r.audioOut.length ≤ (pushedAudio ops).length := by
        rw [hav, List.length_map]; exact ha.le
      rw [List.take_append_of_le_length hlen]
      exact hao
  | getVideo =>
    have e : pushedVideo (ops ++ [QueueOp.getVideo]) = pushedVideo ops := by
      simp [pushedVideo, List.filterMap_append]
    have e2 : pushedAudio (ops ++ [QueueOp.getVideo]) = pushedAudio ops := by
      simp [pushedAudio, List.filterMap_append]
    rcases hv.unlinkHead with ⟨hk, heap1, head1, tail1, hu, h1, h2, hcell, hlink⟩ | ⟨hk, -, hsame⟩
    · obtain ⟨c, hc⟩ : ∃ c, r.ctx.videoHeap[r.videoOut.length]? = some c :=
        ⟨_, List.getElem?_eq_getElem hk⟩
      have hcell2 := hcell c hc
      have hstep : r.step QueueOp.getVideo =
          { ctx := { r.ctx with
                videoHeap := heap1, videolist := head1, videolisttail := tail1,
                assertFailed := r.ctx.assertFailed || decide (r.ctx.videocount = 0),
                videocount := if r.ctx.videocount = 0 then UINT_MOD - 1 else r.ctx.videocount - 1 },
            videoOut := r.videoOut ++ [{ val := c.val, next := none }],
            audioOut := r.audioOut } := by
        simp only [QueueRun.step, THEORAPLAY_getVideo, hu, hcell2, Option.toList]
      rw [hstep]
      refine ⟨?_, ?_, ?_, ?_, ?_, ?_⟩
      · simpa using hlink
      · simpa using ha
      · rw [e, hvv]
        show _ = List.map _ heap1
        rw [clear_map, clear_map, h2]
      · rw [e2]; simpa using hav
      · rw [e]
        have hp : (pushedVideo ops)[r.videoOut.length]? = some { val := c.val, next := none } := by
          rw [hvv, List.getElem?_map, hc]; rfl
        simp only [List.length_append, List.length_singleton]
        rw [take_succ_of_getElem? _ _ _ hp, ← hvo]
      · rw [e2]; simpa using hao
    · have hstep : r.step QueueOp.getVideo = r := by
        simp only [QueueRun.step, THEORAPLAY_getVideo, hsame]
      rw [hstep]
      exact ⟨hv, ha, by rw [e]; exact hvv, by rw [e2]; exact hav, by rw [e]; exact hvo,
        by rw [e2]; exact hao⟩
  | getAudio =>
    have e : pushedVideo (ops ++ [QueueOp.getAudio]) = pushedVideo ops := by
      simp [pushedVideo, List.filterMap_append]
    have e2 : pushedAudio (ops ++ [QueueOp.getAudio]) = pushedAudio ops := by
      simp [pushedAudio, List.filterMap_append]
    rcases ha.unlinkHead with ⟨hk, heap1, head1, tail1, hu, h1, h2, hcell, hlink⟩ | ⟨hk, -, hsame⟩
    · obtain ⟨c, hc⟩ : ∃ c, r.ctx.audioHeap[r.audioOut.length]? = some c :=
        ⟨_, List.getElem?_eq_getElem hk⟩
      have hcell2 := hcell c hc
      have hstep : r.step QueueOp.getAudio =
          { ctx := { r.ctx with
                audioHeap := heap1, audiolist := head1, audiolisttail := tail1 },
            videoOut := r.videoOut,
            audioOut := r.audioOut ++ [{ val := c.val, next := none }] } := by
        simp only [QueueRun.step, THEORAPLAY_getAudio, hu, hcell2, Option.toList]
      rw [hstep]
      refine ⟨?_, ?_, ?_, ?_, ?_, ?_⟩
      · simpa using hv
      · simpa using hlink
      · rw [e]; simpa using hvv
      · rw [e2, hav]
        show _ = List.map _ heap1
        rw [clear_map, clear_map, h2]
      · rw [e]; simpa using hvo
      · rw [e2]
        have hp : (pushedAudio ops)[r.audioOut.length]? = some { val := c.val, next := none } := by
          rw [hav, List.getElem?_map, hc]; rfl
        simp only [List.length_append, List.length_singleton]
        rw [take_succ_of_getElem? _ _ _ hp, ← hao]
    · have hstep : r.step QueueOp.getAudio = r := by
        simp only [QueueRun.step, THEORAPLAY_getAudio, hsame]
      rw [hstep]
      exact ⟨hv, ha, by rw [e]; exact hvv, by rw [e2]; exact hav, by rw [e]; exact hvo,
        by rw [e2]; exact hao⟩

theorem runOps_snoc (maxframes : Nat) (ops : List QueueOp) (op : QueueOp) :
    runOps maxframes (ops ++ [op]) = (runOps maxframes ops).step op := by
  simp [runOps, List.foldl_append]

theorem runInv (maxframes : Nat) (ops : List QueueOp) : RunInv (runOps maxframes ops) ops := by
  induction ops using List.reverseRecOn with
  | nil =>
    refine ⟨⟨?_, ?_, ?_, ?_⟩, ⟨?_, ?_, ?_, ?_⟩, ?_, ?_, ?_, ?_⟩ <;>
      simp [runOps, startDecode, pushedVideo, pushedAudio]
  | append_singleton ops op ih =>
    rw [runOps_snoc]
    exact ih.step_op op

theorem step_getVideo_out {r : QueueRun} {ops : List QueueOp} (h : RunInv r ops) :
    (r.step QueueOp.getVideo).videoOut = (pushedVideo ops).take (r.videoOut.length + 1) := by
  obtain ⟨hv, ha, hvv, hav, hvo, hao⟩ := h
  rcases hv.unlinkHead with ⟨hk, heap1, head1, tail1, hu, h1, h2, hcell, hlink⟩ | ⟨hk, -, hsame⟩
  · obtain ⟨c, hc⟩ : ∃ c, r.ctx.videoHeap[r.videoOut.length]? = some c :=
      ⟨_, List.getElem?_eq_getElem hk⟩
    have hcell2 := hcell c hc
    have hp : (pushedVideo ops)[r.videoOut.length]? = some { val := c.val, next := none } := by
      rw [hvv, List.getElem?_map, hc]; rfl
    rw [take_succ_of_getElem? _ _ _ hp, ← hvo]
    simp only [QueueRun.step, THEORAPLAY_getVideo, hu, hcell2, Option.toList]
  · have hstep : r.step QueueOp.getVideo = r := by
      simp only [QueueRun.step, THEORAPLAY_getVideo, hsame]
    rw [hstep, List.take_of_length_le (by rw [hvv, List.length_map]; omega)]
    rw [hvo]
    apply List.take_of_length_le
    rw [hvv, List.length_map]; omega

theorem step_getAudio_out {r : QueueRun} {ops : List QueueOp} (h : RunInv r ops) :
    (r.step QueueOp.getAudio).audioOut = (pushedAudio ops).take (r.audioOut.length + 1) := by
  obtain ⟨hv, ha, hvv, hav, hvo, hao⟩ := h
  rcases ha.unlinkHead with ⟨hk, heap1, head1, tail1, hu, h1, h2, hcell, hlink⟩ | ⟨hk, -, hsame⟩
  · obtain ⟨c, hc⟩ : ∃ c, r.ctx.audioHeap[r.audioOut.length]? = some c :=
      ⟨_, List.getElem?_eq_getElem hk⟩
    have hcell2 := hcell c hc
    have hp : (pushedAudio ops)[r.audioOut.length]? = some { val := c.val, next := none } := by
      rw [hav, List.getElem?_map, hc]; rfl
    rw [take_succ_of_getElem? _ _ _ hp, ← hao]
    simp only [QueueRun.step, THEORAPLAY_getAudio, hu, hcell2, Option.toList]
  · have hstep : r.step QueueOp.getAudio = r := by
      simp only [QueueRun.step, THEORAPLAY_getAudio, hsame]
    rw [hstep, List.take_of_length_le (by rw [hav, List.length_map]; omega)]
    rw [hao]
    apply List.take_of_length_le
    rw [hav, List.length_map]; omega

/-- C1 (FIFO per queue).  For every interleaving of tail insertions and dequeues applied
to a freshly created session, and for each of the two lists: the units returned by the
successful dequeues are a beginning segment of the units appended, in the same order;
every returned unit has `next = NULL`; the list head is `NULL` exactly when everything
appended has been returned, and then a dequeue returns `NULL` and changes nothing;
otherwise the next dequeue returns the oldest unit not yet returned. -/
theorem fifo_per_queue (maxframes : Nat) (ops : List QueueOp) :
    ((runOps maxframes ops).videoOut <+: pushedVideo ops) ∧
    ((runOps maxframes ops).audioOut <+: pushedAudio ops) ∧
    (∀ u ∈ (runOps maxframes ops).videoOut, u.next = none) ∧
    (∀ u ∈ (runOps maxframes ops).audioOut, u.next = none) ∧
    ((runOps maxframes ops).ctx.videolist = none ↔
      (runOps maxframes ops).videoOut = pushedVideo ops) ∧
    ((runOps maxframes ops).ctx.audiolist = none ↔
      (runOps maxframes ops).audioOut = pushedAudio ops) ∧
    ((runOps maxframes ops).ctx.videolist = none →
      THEORAPLAY_getVideo (runOps maxframes ops).ctx = (none, (runOps maxframes ops).ctx)) ∧
    ((runOps maxframes ops).ctx.audiolist = none →
      THEORAPLAY_getAudio (runOps maxframes ops).ctx = (none, (runOps maxframes ops).ctx)) ∧
    ((runOps maxframes (ops ++ [QueueOp.getVideo])).videoOut =
      (pushedVideo ops).take ((runOps maxframes ops).videoOut.length + 1)) ∧
    ((runOps maxframes (ops ++ [QueueOp.getAudio])).audioOut =
      (pushedAudio ops).take ((runOps maxframes ops).audioOut.length + 1)) := by
  have hinv := runInv maxframes ops
  obtain ⟨hv, ha, hvv, hav, hvo, hao⟩ := hinv
  have hvlen : (pushedVideo ops).length = (runOps maxframes ops).ctx.videoHeap.length := by
    rw [hvv, List.length_map]
  have halen : (pushedAudio ops).length = (runOps maxframes ops).ctx.audioHeap.length := by
    rw [hav, List.length_map]
  refine ⟨?_, ?_, ?_, ?_, ?_, ?_, ?_, ?_, ?_, ?_⟩
  · rw [hvo]; exact List.take_prefix _ _
  · rw [hao]; exact List.take_prefix _ _
  · intro u hu
    rw [hvo] at hu
    have hu2 := List.mem_of_mem_take hu
    rw [hvv] at hu2
    obtain ⟨c, -, hc⟩ := List.mem_map.mp hu2
    rw [← hc]
  · intro u hu
    rw [hao] at hu
    have hu2 := List.mem_of_mem_take hu
    rw [hav] at hu2
    obtain ⟨c, -, hc⟩ := List.mem_map.mp hu2
    rw [← hc]
  · rw [hv.head_eq]
    constructor
    · intro h
      have hk : ¬ (runOps maxframes ops).videoOut.length
          < (runOps maxframes ops).ctx.videoHeap.length := by
        intro hlt; rw [if_pos hlt] at h; cases h
      have hle := hv.le
      rw [hvo]
      apply List.take_of_length_le
      rw [hvlen]
      have : (List.take (runOps maxframes ops).videoOut.length (pushedVideo ops)).length
          = (runOps maxframes ops).videoOut.length := by rw [← hvo]
      omega
    · intro h
      have : (runOps maxframes ops).videoOut.length
          = (runOps maxframes ops).ctx.videoHeap.length := by rw [← hvlen, ← h]
      rw [if_neg (by omega)]
  · rw [ha.head_eq]
    constructor
    · intro h
      have hk : ¬ (runOps maxframes ops).audioOut.length
          < (runOps maxframes ops).ctx.audioHeap.length := by
        intro hlt; rw [if_pos hlt] at h; cases h
      have hle := ha.le
      rw [hao]
      apply List.take_of_length_le
      rw [halen]
      have : (List.take (runOps maxframes ops).audioOut.length (pushedAudio ops)).length
          = (runOps maxframes ops).audioOut.length := by rw [← hao]
      omega
    · intro h
      have : (runOps maxframes ops).audioOut.length
          = (runOps maxframes ops).ctx.audioHeap.length := by rw [← halen, ← h]
      rw [if_neg (by omega)]
  · intro h
    simp only [THEORAPLAY_getVideo, unlinkHead, h]
  · intro h
    have hu : unlinkHead (runOps maxframes ops).ctx.audioHeap (runOps maxframes ops).ctx.audiolist
        (runOps maxframes ops).ctx.audiolisttail = (none, (runOps maxframes ops).ctx.audioHeap,
          (runOps maxframes ops).ctx.audiolist, (runOps maxframes ops).ctx.audiolisttail) := by
      rw [h]; rfl
    simp only [THEORAPLAY_getAudio, hu]
  · rw [runOps_snoc]
    exact step_getVideo_out (runInv maxframes ops)
  · rw [runOps_snoc]
    exact step_getAudio_out (runInv maxframes ops)

theorem memcpy_length (dst : List (Option Nat)) (pos : Nat) (src : Nat → Nat) (n : Nat) :
    (memcpy dst pos src n).length = dst.length := by
  induction n with
  | zero => rfl
  | succ n ih => simp [memcpy, ih]

theorem memcpy_getElem? (dst : List (Option Nat)) (pos : Nat) (src : Nat → Nat) (n i : Nat) :
    (memcpy dst pos src n)[i]? =
      if pos ≤ i ∧ i < pos + n ∧ i < dst.length then some (some (src (i - pos))) else dst[i]? := by
  induction n with
  | zero =>
    have : ¬ (pos ≤ i ∧ i < pos + 0 ∧ i < dst.length) := by omega
    rw [if_neg this]; rfl
  | succ n ih =>
    simp only [memcpy, List.getElem?_set, memcpy_length, ih]
    by_cases h1 : pos + n = i
    · subst h1
      by_cases h2 : pos + n < dst.length
      · have h3 : pos ≤ pos + n ∧ pos + n < pos + (n + 1) ∧ pos + n < dst.length := by omega
        simp [h2, h3]
      · have h3 : ¬ (pos ≤ pos + n ∧ pos + n < pos + (n + 1) ∧ pos + n < dst.length) := by omega
        have h4 : dst[pos + n]? = none := List.getElem?_eq_none (by omega)
        simp [h2, h3, h4]
    · rw [if_neg h1]
      by_cases h2 : pos ≤ i ∧ i < pos + n ∧ i < dst.length
      · have h3 : pos ≤ i ∧ i < pos + (n + 1) ∧ i < dst.length := by omega
        rw [if_pos h2, if_pos h3]
      · have h3 : ¬ (pos ≤ i ∧ i < pos + (n + 1) ∧ i < dst.length) := by omega
        rw [if_neg h2, if_neg h3]

theorem copyRows_snd (pl : th_img_plane) (off : Int) (len rows : Nat)
    (st : List (Option Nat) × Nat) :
    (copyRows pl off len rows st).2 = st.2 + rows * len := by
  induction rows with
  | zero => simp [copyRows]
  | succ r ih => simp only [copyRows, ih]; ring

theorem copyRows_length (pl : th_img_plane) (off : Int) (len rows : Nat)
    (st : List (Option Nat) × Nat) :
    (copyRows pl off len rows st).1.length = st.1.length := by
  induction rows with
  | zero => simp [copyRows]
  | succ r ih => simp only [copyRows, memcpy_length, ih]

theorem copyRows_outside (pl : th_img_plane) (off : Int) (len rows : Nat)
    (st : List (Option Nat) × Nat) (i : Nat) (h : i < st.2 ∨ st.2 + rows * len ≤ i) :
    (copyRows pl off len rows st).1[i]? = st.1[i]? := by
  induction rows with
  | zero => simp [copyRows]
  | succ r ih =>
    have e : (r + 1) * len = r * len + len := by ring
    rw [e] at h
    simp only [copyRows, memcpy_getElem?, copyRows_snd]
    rw [if_neg (by omega)]
    exact ih (by omega)

theorem copyRows_inside (pl : th_img_plane) (off : Int) (len rows : Nat)
    (st : List (Option Nat) × Nat) (r x : Nat) (hr : r < rows) (hx : x < len)
    (hb : st.2 + r * len + x < st.1.length) :
    (copyRows pl off len rows st).1[st.2 + r * len + x]? =
      some (some (pl.data (off + pl.stride * r + x))) := by
  induction rows with
  | zero => omega
  | succ n ih =>
    simp only [copyRows, memcpy_getElem?, copyRows_snd, copyRows_length]
    by_cases hrn : r = n
    · subst hrn
      rw [if_pos (by omega)]
      have : st.2 + r * len + x - (st.2 + r * len) = x := by omega
      rw [this]
    · have hlt : r < n := by omega
      have h1 : (r + 1) * len ≤ n * len := Nat.mul_le_mul_right len hlt
      have e : (r + 1) * len = r * len + len := by ring
      rw [e] at h1
      rw [if_neg (by omega)]
      exact ih hlt

theorem half_mul_half_le (w h : Nat) : (h / 2) * (w / 2) + (h / 2) * (w / 2) ≤ w * h := by
  have h1 : 2 * (h / 2) ≤ h := Nat.mul_div_le h 2
  have h2 : w / 2 ≤ w := Nat.div_le_self w 2
  calc (h / 2) * (w / 2) + (h / 2) * (w / 2) = (2 * (h / 2)) * (w / 2) := by ring
    _ ≤ h * w := Nat.mul_le_mul h1 h2
    _ = w * h := Nat.mul_comm h w

theorem row_index_lt (y x rows len : Nat) (hy : y < rows) (hx : x < len) :
    y * len + x < rows * len := by
  have h1 : (y + 1) * len ≤ rows * len := Nat.mul_le_mul_right len hy
  have e : (y + 1) * len = y * len + len := by ring
  omega

/-- What the three copy loops leave in the buffer: its length is `w * h * 2`; the luma
rows come first, then the rows of plane 2, then the rows of plane 1; the bytes after
them stay unwritten.  Both chroma planes are read from `uvoff`, which is computed with
the stride of plane 1. -/
theorem fillYuv_layout (tinfo : th_info) (ycbcr : th_ycbcr_buffer) :
    (fillYuv tinfo ycbcr).length = tinfo.pic_width * tinfo.pic_height * 2 ∧
    (∀ y x, y < tinfo.pic_height → x < tinfo.pic_width →
      (fillYuv tinfo ycbcr)[y * tinfo.pic_width + x]? =
        some (some ((ycbcr 0).data (yoff tinfo ycbcr + (ycbcr 0).stride * y + x)))) ∧
    (∀ y x, y < tinfo.pic_height / 2 → x < tinfo.pic_width / 2 →
      (fillYuv tinfo ycbcr)[tinfo.pic_width * tinfo.pic_height
          + y * (tinfo.pic_width / 2) + x]? =
        some (some ((ycbcr 2).data (uvoff tinfo ycbcr + (ycbcr 2).stride * y + x)))) ∧
    (∀ y x, y < tinfo.pic_height / 2 → x < tinfo.pic_width / 2 →
      (fillYuv tinfo ycbcr)[tinfo.pic_width * tinfo.pic_height
          + (tinfo.pic_width / 2) * (tinfo.pic_height / 2) + y * (tinfo.pic_width / 2) + x]? =
        some (some ((ycbcr 1).data (uvoff tinfo ycbcr + (ycbcr 1).stride * y + x)))) ∧
    (∀ i, tinfo.pic_width * tinfo.pic_height
          + 2 * ((tinfo.pic_width / 2) * (tinfo.pic_height / 2)) ≤ i →
      i < tinfo.pic_width * tinfo.pic_height * 2 → (fillYuv tinfo ycbcr)[i]? = some none) := by
  obtain ⟨fw, fh, w, h, px, py, pf, fn, fd⟩ := tinfo
  simp only [fillYuv]
  generalize hB : (List.replicate (w * h * 2) (none : Option Nat), 0) = B0
  generalize hS0 : copyRows (ycbcr 0) (yoff _ ycbcr) w h B0 = S0
  generalize hS1 : copyRows (ycbcr 2) (uvoff _ ycbcr) (w / 2) (h / 2) S0 = S1
  have hB1 : B0.1.length = w * h * 2 := by rw [← hB]; simp
  have hB2 : B0.2 = 0 := by rw [← hB]
  have hBget : ∀ i, i < w * h * 2 → B0.1[i]? = some none := by
    intro i hi; rw [← hB]; simp [List.getElem?_replicate, hi]
  have l0 : S0.1.length = w * h * 2 := by rw [← hS0, copyRows_length, hB1]
  have p0 : S0.2 = w * h := by rw [← hS0, copyRows_snd, hB2, Nat.mul_comm]; omega
  have l1 : S1.1.length = w * h * 2 := by rw [← hS1, copyRows_length, l0]
  have p1 : S1.2 = w * h + (h / 2) * (w / 2) := by rw [← hS1, copyRows_snd, p0]
  have hc := half_mul_half_le w h
  have hcm : (w / 2) * (h / 2) = (h / 2) * (w / 2) := Nat.mul_comm _ _
  refine ⟨?_, ?_, ?_, ?_, ?_⟩
  · rw [copyRows_length, l1]
  · intro y x hy hx
    have hi := row_index_lt y x h w hy hx
    have hhw : h * w = w * h := Nat.mul_comm h w
    rw [copyRows_outside _ _ _ _ _ _ (Or.inl (by omega)),
      ← hS1, copyRows_outside _ _ _ _ _ _ (Or.inl (by omega)), ← hS0]
    have e : y * w + x = B0.2 + y * w + x := by omega
    rw [e]
    exact copyRows_inside _ _ _ _ _ _ _ hy hx (by omega)
  · intro y x hy hx
    have hi := row_index_lt y x (h / 2) (w / 2) hy hx
    rw [copyRows_outside _ _ _ _ _ _ (Or.inl (by omega)), ← hS1]
    have e : w * h + y * (w / 2) + x = S0.2 + y * (w / 2) + x := by omega
    rw [e]
    exact copyRows_inside _ _ _ _ _ _ _ hy hx (by omega)
  · intro y x hy hx
    have hi := row_index_lt y x (h / 2) (w / 2) hy hx
    have e : w * h + (w / 2) * (h / 2) + y * (w / 2) + x = S1.2 + y * (w / 2) + x := by omega
    rw [e]
    exact copyRows_inside _ _ _ _ _ _ _ hy hx (by omega)
  · intro i hi1 hi2
    rw [copyRows_outside _ _ _ _ _ _ (Or.inr (by omega)),
      ← hS1, copyRows_outside _ _ _ _ _ _ (Or.inr (by omega)),
      ← hS0, copyRows_outside _ _ _ _ _ _ (Or.inr (by rw [hB2, Nat.mul_comm h w]; omega))]
    exact hBget i hi2

/-- C3, as stated, fails: for a 2 x 2 picture the unit's owned buffer has 8 bytes, while
`width*height + 2*(width/2)*(height/2)` is 6. -/
theorem video_buffer_length_counterexample :
    (newVideoItem tinfo2x2 (fpsOf 30 1) 0 rampFrame).yuv.length = 8 ∧
    (newVideoItem tinfo2x2 (fpsOf 30 1) 0 rampFrame).width *
        (newVideoItem tinfo2x2 (fpsOf 30 1) 0 rampFrame).height +
      2 * ((newVideoItem tinfo2x2 (fpsOf 30 1) 0 rampFrame).width / 2) *
        ((newVideoItem tinfo2x2 (fpsOf 30 1) 0 rampFrame).height / 2) = 6 ∧
    ¬ ((newVideoItem tinfo2x2 (fpsOf 30 1) 0 rampFrame).yuv.length =
      (newVideoItem tinfo2x2 (fpsOf 30 1) 0 rampFrame).width *
        (newVideoItem tinfo2x2 (fpsOf 30 1) 0 rampFrame).height +
      2 * ((newVideoItem tinfo2x2 (fpsOf 30 1) 0 rampFrame).width / 2) *
        ((newVideoItem tinfo2x2 (fpsOf 30 1) 0 rampFrame).height / 2)) := by
  have h := (fillYuv_layout tinfo2x2 rampFrame).1
  refine ⟨h, rfl, ?_⟩
  show ¬ ((fillYuv tinfo2x2 rampFrame).length = _)
  rw [h]
  decide

theorem exists_row_col (i rows len : Nat) (h : i < rows * len) :
    ∃ y x, y < rows ∧ x < len ∧ i = y * len + x := by
  have hlen : 0 < len := by
    rcases Nat.eq_zero_or_pos len with h0 | h0
    · rw [h0] at h; simp at h
    · exact h0
  refine ⟨i / len, i % len, (Nat.div_lt_iff_lt_mul hlen).mpr h, Nat.mod_lt _ hlen, ?_⟩
  have := Nat.div_add_mod i len
  rw [Nat.mul_comm] at this
  omega

/-- C3 (amended).  For every video unit built from a new frame whose buffer size
`w * h * 2` fits C `int`: `width` and `height` are `tinfo.pic_width` and
`tinfo.pic_height`, the owned buffer is `width * height * 2` bytes long, the copy loops
write exactly its first `width*height + 2*(width/2)*(height/2)` bytes, and the bytes
after them are left as `malloc` returned them. -/
theorem video_buffer_length (tinfo : th_info) (fps : ℚ) (videoframes : Nat)
    (ycbcr : th_ycbcr_buffer) (hint : tinfo.pic_width * tinfo.pic_height * 2 < 2 ^ 31) :
    (newVideoItem tinfo fps videoframes ycbcr).width = tinfo.pic_width ∧
    (newVideoItem tinfo fps videoframes ycbcr).height = tinfo.pic_height ∧
    (newVideoItem tinfo fps videoframes ycbcr).yuv.length =
      (newVideoItem tinfo fps videoframes ycbcr).width *
        (newVideoItem tinfo fps videoframes ycbcr).height * 2 ∧
    (newVideoItem tinfo fps videoframes ycbcr).yuv.length < 2 ^ 31 ∧
    (∀ i, i < tinfo.pic_width * tinfo.pic_height
          + 2 * ((tinfo.pic_width / 2) * (tinfo.pic_height / 2)) →
      ∃ b, (newVideoItem tinfo fps videoframes ycbcr).yuv[i]? = some (some b)) ∧
    (∀ i, tinfo.pic_width * tinfo.pic_height
          + 2 * ((tinfo.pic_width / 2) * (tinfo.pic_height / 2)) ≤ i →
      i < tinfo.pic_width * tinfo.pic_height * 2 →
      (newVideoItem tinfo fps videoframes ycbcr).yuv[i]? = some none) := by
  obtain ⟨hlen, hy, hu, hv, hrest⟩ := fillYuv_layout tinfo ycbcr
  refine ⟨rfl, rfl, hlen, ?_, ?_, hrest⟩
  · show (fillYuv tinfo ycbcr).length < 2 ^ 31
    rw [hlen]; exact hint
  · intro i hi
    show ∃ b, (fillYuv tinfo ycbcr)[i]? = some (some b)
    have hcm : (tinfo.pic_width / 2) * (tinfo.pic_height / 2)
        = (tinfo.pic_height / 2) * (tinfo.pic_width / 2) := Nat.mul_comm _ _
    by_cases h1 : i < tinfo.pic_width * tinfo.pic_height
    · rw [Nat.mul_comm] at h1
      obtain ⟨y, x, hy1, hx1, e⟩ := exists_row_col i _ _ h1
      exact ⟨_, e ▸ hy y x hy1 hx1⟩
    · by_cases h2 : i < tinfo.pic_width * tinfo.pic_height
          + (tinfo.pic_width / 2) * (tinfo.pic_height / 2)
      · have h3 : i - tinfo.pic_width * tinfo.pic_height
            < (tinfo.pic_height / 2) * (tinfo.pic_width / 2) := by omega
        obtain ⟨y, x, hy1, hx1, e⟩ := exists_row_col _ _ _ h3
        have e2 : i = tinfo.pic_width * tinfo.pic_height + y * (tinfo.pic_width / 2) + x := by
          omega
        exact ⟨_, e2 ▸ hu y x hy1 hx1⟩
      · have h3 : i - tinfo.pic_width * tinfo.pic_height
            - (tinfo.pic_width / 2) * (tinfo.pic_height / 2)
            < (tinfo.pic_height / 2) * (tinfo.pic_width / 2) := by omega
        obtain ⟨y, x, hy1, hx1, e⟩ := exists_row_col _ _ _ h3
        have e2 : i = tinfo.pic_width * tinfo.pic_height
            + (tinfo.pic_width / 2) * (tinfo.pic_height / 2)
            + y * (tinfo.pic_width / 2) + x := by omega
        exact ⟨_, e2 ▸ hv y x hy1 hx1⟩

/-- C3 (amended) on a 2 x 2 picture. -/
theorem video_buffer_length_witness :
    (newVideoItem tinfo2x2 (fpsOf 30 1) 0 rampFrame).yuv.length = 8 ∧
    (newVideoItem tinfo2x2 (fpsOf 30 1) 0 rampFrame).yuv[6]? = some none :=
  ⟨(video_buffer_length tinfo2x2 (fpsOf 30 1) 0 rampFrame (by decide)).2.2.1,
   (video_buffer_length tinfo2x2 (fpsOf 30 1) 0 rampFrame (by decide)).2.2.2.2.2 6
      (by decide) (by decide)⟩

theorem Room.filled_or {ctx : TheoraDecoder} (h : Room ctx) (hh : ctx.halt = false) :
    ctx.videocount < ctx.maxframes ∨ ctx.videocount = 0 := by
  rcases h with h | h
  · rw [hh] at h; cases h
  · exact h

theorem bpInv_outside (s : Sys) (w : Worker) (h : Room s.ctx) (hw : w.pc.outside = true) :
    bpInv { s with w := w } := by
  unfold bpInv
  cases hpc : w.pc <;> simp only [hpc, PC.outside] at hw ⊢ <;> first | exact h | trivial

theorem stepDiscover_outside (halt : Bool) (w : Worker) :
    (stepDiscover halt w).pc.outside = true := by
  unfold stepDiscover
  split_ifs <;> rfl

theorem stepDiscoverPages_outside (halt : Bool) (w : Worker) (hw : w.pc = PC.discoverPages) :
    (stepDiscoverPages halt w).pc.outside = true := by
  unfold stepDiscoverPages
  split_ifs
  · rfl
  · split
    · rfl
    · simp only []
      split_ifs <;> simp [queue_ogg_page, hw, PC.outside]

theorem stepDiscoverDone_outside (halt : Bool) (w : Worker) :
    (stepDiscoverDone halt w).pc.outside = true := by
  unfold stepDiscoverDone
  split_ifs <;> rfl

theorem stepHeaders_outside (halt : Bool) (w : Worker) :
    (stepHeaders halt w).pc.outside = true := by
  unfold stepHeaders
  split_ifs <;> rfl

theorem stepHeadersTheora_outside (halt : Bool) (w : Worker) (hw : w.pc = PC.headersTheora) :
    (stepHeadersTheora halt w).pc.outside = true := by
  unfold stepHeadersTheora
  simp only []
  split_ifs <;> simp [hw, PC.outside]

theorem stepHeadersVorbis_outside (halt : Bool) (w : Worker) (hw : w.pc = PC.headersVorbis) :
    (stepHeadersVorbis halt w).pc.outside = true := by
  unfold stepHeadersVorbis
  simp only []
  split_ifs <;> simp [hw, PC.outside]

theorem stepHeadersPage_outside (w : Worker) : (stepHeadersPage w).pc.outside = true := by
  unfold stepHeadersPage
  split
  · rfl
  · split_ifs <;> rfl

theorem stepSetupVideo_outside (env : Env) (halt : Bool) (w : Worker) :
    (stepSetupVideo env halt w).pc.outside = true := by
  unfold stepSetupVideo
  split_ifs <;> rfl

theorem stepSetupAudio_outside (env : Env) (halt : Bool) (w : Worker) :
    (stepSetupAudio env halt w).pc.outside = true := by
  unfold stepSetupAudio
  split_ifs <;> rfl

theorem bpInv_loop (s : Sys) (w : Worker) (hs : w.saw_video_frame = s.w.saw_video_frame)
    (h : if s.w.saw_video_frame = true then Filled s.ctx else Room s.ctx)
    (hw : w.pc = PC.refill ∨ w.pc = PC.refillPages ∨ w.pc = PC.throttle ∨ w.pc = PC.cleanup) :
    bpInv { s with w := w } := by
  unfold bpInv
  rcases hw with e | e | e | e <;> simp only [e, hs] <;> exact h

theorem stepRefill_pc (halt : Bool) (w : Worker) :
    (stepRefill halt w).saw_video_frame = w.saw_video_frame ∧
    ((stepRefill halt w).pc = PC.refill ∨ (stepRefill halt w).pc = PC.refillPages ∨
      (stepRefill halt w).pc = PC.throttle ∨ (stepRefill halt w).pc = PC.cleanup) := by
  unfold stepRefill
  split_ifs <;> simp [feed]

theorem stepRefillPages_pc (halt : Bool) (w : Worker) (hw : w.pc = PC.refillPages) :
    (stepRefillPages halt w).saw_video_frame = w.saw_video_frame ∧
    ((stepRefillPages halt w).pc = PC.refill ∨ (stepRefillPages halt w).pc = PC.refillPages ∨
      (stepRefillPages halt w).pc = PC.throttle ∨ (stepRefillPages halt w).pc = PC.cleanup) := by
  unfold stepRefillPages
  split_ifs
  · simp
  · split <;> simp [queue_ogg_page, hw]

theorem SysInv.update_w {s : Sys} (h : SysInv s) (w : Worker) (hbp : bpInv { s with w := w }) :
    SysInv { s with w := w } :=
  ⟨h.video, h.audio, h.count, h.noAssert, h.maxfr, hbp, h.filled⟩

theorem SysInv.room {s : Sys} (h : SysInv s) (hpc : s.w.pc.outside = true)
    (h1 : s.w.pc ≠ PC.cleanup) (h2 : s.w.pc ≠ PC.done) : Room s.ctx := by
  have hbp := h.bp
  unfold bpInv at hbp
  cases hpc2 : s.w.pc <;> simp only [hpc2, PC.outside] at hbp hpc h1 h2 <;>
    first | exact hbp | exact absurd rfl h1 | exact absurd rfl h2 | exact absurd hpc (by decide)

/-- Worker steps that do not touch the decoder keep the invariant. -/
theorem SysInv.worker_plain (env : Env) (itemOk bufOk : Bool) {s : Sys} (h : SysInv s)
    (h1 : s.w.pc ≠ PC.audioDrain) (h2 : s.w.pc ≠ PC.videoStep) (h3 : s.w.pc ≠ PC.cleanup) :
    SysInv (workerStep env itemOk bufOk s) := by
  have hbp := h.bp
  unfold workerStep
  cases hpc : s.w.pc <;> simp only [hpc] at h1 h2 h3 ⊢
  case discover =>
    exact h.update_w _ (bpInv_outside _ _ (h.room (by rw [hpc]; rfl) (by simp [hpc]) (by simp [hpc]))
      (stepDiscover_outside _ _))
  case discoverPages =>
    exact h.update_w _ (bpInv_outside _ _ (h.room (by rw [hpc]; rfl) (by simp [hpc]) (by simp [hpc]))
      (stepDiscoverPages_outside _ _ hpc))
  case discoverDone =>
    exact h.update_w _ (bpInv_outside _ _ (h.room (by rw [hpc]; rfl) (by simp [hpc]) (by simp [hpc]))
      (stepDiscoverDone_outside _ _))
  case headers =>
    exact h.update_w _ (bpInv_outside _ _ (h.room (by rw [hpc]; rfl) (by simp [hpc]) (by simp [hpc]))
      (stepHeaders_outside _ _))
  case headersTheora =>
    exact h.update_w _ (bpInv_outside _ _ (h.room (by rw [hpc]; rfl) (by simp [hpc]) (by simp [hpc]))
      (stepHeadersTheora_outside _ _ hpc))
  case headersVorbis =>
    exact h.update_w _ (bpInv_outside _ _ (h.room (by rw [hpc]; rfl) (by simp [hpc]) (by simp [hpc]))
      (stepHeadersVorbis_outside _ _ hpc))
  case headersPage =>
    exact h.update_w _ (bpInv_outside _ _ (h.room (by rw [hpc]; rfl) (by simp [hpc]) (by simp [hpc]))
      (stepHeadersPage_outside _))
  case setupVideo =>
    exact h.update_w _ (bpInv_outside _ _ (h.room (by rw [hpc]; rfl) (by simp [hpc]) (by simp [hpc]))
      (stepSetupVideo_outside _ _ _))
  case setupAudio =>
    exact h.update_w _ (bpInv_outside _ _ (h.room (by rw [hpc]; rfl) (by simp [hpc]) (by simp [hpc]))
      (stepSetupAudio_outside _ _ _))
  case decodeTop =>
    have hr := h.room (by rw [hpc]; rfl) (by simp [hpc]) (by simp [hpc])
    apply h.update_w
    unfold stepDecodeTop
    split_ifs
    · exact ⟨rfl, hr⟩
    · trivial
  case refill =>
    have hl : if s.w.saw_video_frame = true then Filled s.ctx else Room s.ctx := by
      unfold bpInv at hbp; simpa only [hpc] using hbp
    exact h.update_w _ (bpInv_loop _ _ (stepRefill_pc _ _).1 hl (stepRefill_pc _ _).2)
  case refillPages =>
    have hl : if s.w.saw_video_frame = true then Filled s.ctx else Room s.ctx := by
      unfold bpInv at hbp; simpa only [hpc] using hbp
    exact h.update_w _ (bpInv_loop _ _ (stepRefillPages_pc _ _ hpc).1 hl
      (stepRefillPages_pc _ _ hpc).2)
  case throttle =>
    have hl : if s.w.saw_video_frame = true then Filled s.ctx else Room s.ctx := by
      unfold bpInv at hbp; simpa only [hpc] using hbp
    apply h.update_w
    unfold stepThrottle
    split_ifs with hc
    · show Filled s.ctx
      simpa [hc.1] using hl
    · show Room s.ctx
      by_cases hs : s.w.saw_video_frame = true
      · have hh : s.ctx.halt = true := by
          cases hq : s.ctx.halt
          · exact absurd ⟨hs, hq⟩ hc
          · rfl
        exact Or.inl hh
      · simpa [hs] using hl
  case throttleWait =>
    have hl : Filled s.ctx := by
      unfold bpInv at hbp; simpa only [hpc] using hbp
    apply h.update_w
    unfold stepThrottleWait
    split_ifs with hc
    · unfold bpInv; simp only [hpc]; exact hl
    · show Room s.ctx
      by_cases hq : s.ctx.halt = true
      · exact Or.inl hq
      · right; left
        have hq2 : s.ctx.halt = false := by simpa using hq
        have h4 : ¬ s.ctx.maxframes ≤ s.ctx.videocount := fun hle => hc ⟨hq2, hle⟩
        omega
  case done => exact h
  case audioDrain => exact absurd rfl h1
  case videoStep => exact absurd rfl h2
  case cleanup => exact absurd rfl h3

theorem appendVideo_linked {ctx : TheoraDecoder} {k : Nat} (item : YuvVideo)
    (h : Linked ctx.videoHeap ctx.videolist ctx.videolisttail k)
    (hna : ctx.assertFailed = false) :
    Linked (appendVideo ctx item).videoHeap (appendVideo ctx item).videolist
        (appendVideo ctx item).videolisttail k ∧
      (appendVideo ctx item).videoHeap.length = ctx.videoHeap.length + 1 ∧
      (appendVideo ctx item).assertFailed = false := by
  obtain ⟨h1, h2, h3, -⟩ := h.linkTail item
  refine ⟨h1, h3, ?_⟩
  simp only [appendVideo, h2, hna]
  rfl

theorem appendAudio_linked {ctx : TheoraDecoder} {k : Nat} (item : PcmAudio)
    (h : Linked ctx.audioHeap ctx.audiolist ctx.audiolisttail k)
    (hna : ctx.assertFailed = false) :
    Linked (appendAudio ctx item).audioHeap (appendAudio ctx item).audiolist
        (appendAudio ctx item).audiolisttail k ∧
      (appendAudio ctx item).audioHeap.length = ctx.audioHeap.length + 1 ∧
      (appendAudio ctx item).assertFailed = false := by
  obtain ⟨h1, h2, h3, -⟩ := h.linkTail item
  refine ⟨h1, h3, ?_⟩
  simp only [appendAudio, h2, hna]
  rfl

/-- The audio step keeps the invariant. -/
theorem SysInv.worker_audio (env : Env) (itemOk bufOk : Bool) {s : Sys} (h : SysInv s)
    (hpc : s.w.pc = PC.audioDrain) : SysInv (stepAudioDrain env itemOk bufOk s) := by
  have hbp := h.bp
  unfold bpInv at hbp
  simp only [hpc] at hbp
  unfold stepAudioDrain
  simp only []
  split_ifs
  · exact h.update_w _ trivial
  · obtain ⟨l1, -, l3⟩ := appendAudio_linked
      (newAudioItem env.ULONG_MOD env.channels env.rate s.w.audioframes s.w.pcm_frames s.w.pcm)
      h.audio h.noAssert
    refine ⟨h.video, l1, h.count, l3, h.maxfr, ?_, h.filled⟩
    unfold bpInv
    simp only [hpc]
    exact hbp
  · exact h.update_w _ hbp
  · apply h.update_w
    unfold bpInv
    simp only [hpc]
    exact hbp
  · apply h.update_w
    unfold bpInv
    simp only [hpc]
    exact hbp
  · exact h.update_w _ hbp

theorem mod_of_room {ctx : TheoraDecoder} (hr : Room ctx) (hh : ctx.halt = false)
    (hm : ctx.maxframes < UINT_MOD) :
    (ctx.videocount + 1) % UINT_MOD = ctx.videocount + 1 ∧
      (ctx.videocount + 1 ≤ ctx.maxframes ∨ ctx.videocount + 1 ≤ 1) := by
  have h2 : 1 < UINT_MOD := by unfold UINT_MOD; norm_num
  rcases hr.filled_or hh with h1 | h1
  · exact ⟨Nat.mod_eq_of_lt (by omega), Or.inl (by omega)⟩
  · exact ⟨Nat.mod_eq_of_lt (by omega), Or.inr (by omega)⟩

/-- The video step keeps the invariant. -/
theorem SysInv.worker_video (env : Env) (itemOk bufOk : Bool) {s : Sys} (h : SysInv s)
    (hpc : s.w.pc = PC.videoStep) : SysInv (stepVideo env itemOk bufOk s) := by
  have hbp := h.bp
  unfold bpInv at hbp
  simp only [hpc] at hbp
  have hl : ∀ w : Worker, w.pc = PC.refill → w.saw_video_frame = s.w.saw_video_frame →
      bpInv { s with w := w } := by
    intro w e1 e2
    unfold bpInv
    simp only [e1, e2, hbp.1]
    exact hbp.2
  unfold stepVideo
  simp only []
  split_ifs with c1 c2 c3 c4 c5 c6
  · exact h.update_w _ (hl _ rfl rfl)
  · exact h.update_w _ (hl _ rfl rfl)
  · exact h.update_w _ trivial
  · obtain ⟨l1, l2, l3⟩ := appendVideo_linked
      (newVideoItem env.tinfo s.w.fps s.w.videoframes
        ((ogg_stream_packetout s.w.tstream).2.1.getD s.w.packet).ycbcr)
      h.video h.noAssert
    obtain ⟨m1, m2⟩ := mod_of_room hbp.2 c1.1 h.maxfr
    have hle := h.video.le
    have hcount := h.count
    have hf : Filled (appendVideo s.ctx (newVideoItem env.tinfo s.w.fps s.w.videoframes
        ((ogg_stream_packetout s.w.tstream).2.1.getD s.w.packet).ycbcr)) := by
      show (s.ctx.videocount + 1) % UINT_MOD ≤ s.ctx.maxframes ∨
        (s.ctx.videocount + 1) % UINT_MOD ≤ 1
      rw [m1]
      exact m2
    refine ⟨l1, h.audio, ?_, l3, h.maxfr, hf, hf⟩
    show (s.ctx.videocount + 1) % UINT_MOD = _
    rw [m1, l2]
    show s.ctx.videocount + 1 = s.ctx.videoHeap.length + 1 - s.videoTaken
    omega
  · exact h.update_w _ (hl _ rfl rfl)
  · exact h.update_w _ (hl _ rfl rfl)
  · exact h.update_w _ (hl _ rfl rfl)

/-- The unwind path keeps the invariant. -/
theorem SysInv.worker_cleanup {s : Sys} (h : SysInv s) : SysInv (stepCleanup s) :=
  ⟨h.video, h.audio, h.count, h.noAssert, h.maxfr, trivial, h.filled⟩

/-- Every worker step keeps the invariant. -/
theorem SysInv.worker_step (env : Env) (itemOk bufOk : Bool) {s : Sys} (h : SysInv s) :
    SysInv (workerStep env itemOk bufOk s) := by
  by_cases h1 : s.w.pc = PC.audioDrain
  · have e : workerStep env itemOk bufOk s = stepAudioDrain env itemOk bufOk s := by
      unfold workerStep; rw [h1]
    rw [e]; exact h.worker_audio env itemOk bufOk h1
  · by_cases h2 : s.w.pc = PC.videoStep
    · have e : workerStep env itemOk bufOk s = stepVideo env itemOk bufOk s := by
        unfold workerStep; rw [h2]
      rw [e]; exact h.worker_video env itemOk bufOk h2
    · by_cases h3 : s.w.pc = PC.cleanup
      · have e : workerStep env itemOk bufOk s = stepCleanup s := by
          unfold workerStep; rw [h3]
        rw [e]; exact h.worker_cleanup
      · exact h.worker_plain env itemOk bufOk h1 h2 h3

theorem Room.mono_room {c d : TheoraDecoder} (h : Room c) (hh : d.halt = true ∨ d.halt = c.halt)
    (hm : d.maxframes = c.maxframes) (hc : d.videocount ≤ c.videocount) : Room d := by
  unfold Room at h ⊢
  rcases hh with hh | hh
  · exact Or.inl hh
  · rw [hh, hm]
    rcases h with h | h | h
    · exact Or.inl h
    · exact Or.inr (Or.inl (by omega))
    · exact Or.inr (Or.inr (by omega))

theorem Filled.mono_filled {c d : TheoraDecoder} (h : Filled c)
    (hm : d.maxframes = c.maxframes) (hc : d.videocount ≤ c.videocount) : Filled d := by
  unfold Filled at h ⊢
  rw [hm]
  rcases h with h | h
  · exact Or.inl (by omega)
  · exact Or.inr (by omega)

/-- The counter relation survives a consumer call or a halt request. -/
theorem bpInv_mono {s t : Sys} (h : bpInv s) (hw : t.w = s.w)
    (hh : t.ctx.halt = true ∨ t.ctx.halt = s.ctx.halt)
    (hm : t.ctx.maxframes = s.ctx.maxframes)
    (hc : t.ctx.videocount ≤ s.ctx.videocount) : bpInv t := by
  unfold bpInv at h ⊢
  rw [hw]
  cases hpc : s.w.pc <;> simp only [hpc] at h ⊢ <;>
    first
    | trivial
    | exact h.mono_room hh hm hc
    | exact Filled.mono_filled h hm hc
    | exact ⟨h.1, h.2.mono_room hh hm hc⟩
    | (split_ifs at h ⊢
       · exact Filled.mono_filled h hm hc
       · exact h.mono_room hh hm hc)

/-- A `THEORAPLAY_getVideo` call keeps the invariant. -/
theorem SysInv.getVideo (env : Env) {s : Sys} (h : SysInv s) :
    SysInv (sysStep env s Event.getVideo) := by
  have hcount := h.count
  rcases h.video.unlinkHead with ⟨hk, heap1, head1, tail1, hu, l1, -, -, hlink⟩ | ⟨hk, -, hsame⟩
  · have hg : THEORAPLAY_getVideo s.ctx = (some s.videoTaken,
        { s.ctx with
          videoHeap := heap1, videolist := head1, videolisttail := tail1,
          assertFailed := s.ctx.assertFailed || decide (s.ctx.videocount = 0),
          videocount := if s.ctx.videocount = 0 then UINT_MOD - 1 else s.ctx.videocount - 1 }) := by
      simp only [THEORAPLAY_getVideo, hu]
    have hpos : s.ctx.videocount ≠ 0 := by omega
    simp only [sysStep, hg, Option.isSome, if_true]
    have hdec : (if s.ctx.videocount = 0 then UINT_MOD - 1 else s.ctx.videocount - 1)
        ≤ s.ctx.videocount := by
      rw [if_neg hpos]; omega
    refine ⟨hlink, h.audio, ?_, ?_, h.maxfr, ?_, ?_⟩
    · show (if s.ctx.videocount = 0 then UINT_MOD - 1 else s.ctx.videocount - 1)
        = heap1.length - (s.videoTaken + 1)
      rw [if_neg hpos, l1]; omega
    · show (s.ctx.assertFailed || decide (s.ctx.videocount = 0)) = false
      simp [h.noAssert, hpos]
    · exact bpInv_mono h.bp rfl (Or.inr rfl) rfl hdec
    · exact Filled.mono_filled h.filled rfl hdec
  · have hg : THEORAPLAY_getVideo s.ctx = (none, s.ctx) := by
      simp only [THEORAPLAY_getVideo, hsame]
    simp only [sysStep, hg, Option.isSome]
    exact ⟨h.video, h.audio, h.count, h.noAssert, h.maxfr, bpInv_mono h.bp rfl (Or.inr rfl) rfl
      (le_refl _), h.filled⟩

/-- A `THEORAPLAY_getAudio` call keeps the invariant. -/
theorem SysInv.getAudio (env : Env) {s : Sys} (h : SysInv s) :
    SysInv (sysStep env s Event.getAudio) := by
  rcases h.audio.unlinkHead with ⟨hk, heap1, head1, tail1, hu, l1, -, -, hlink⟩ | ⟨hk, -, hsame⟩
  · have hg : THEORAPLAY_getAudio s.ctx = (some s.audioTaken,
        { s.ctx with audioHeap := heap1, audiolist := head1, audiolisttail := tail1 }) := by
      simp only [THEORAPLAY_getAudio, hu]
    simp only [sysStep, hg, Option.isSome, if_true]
    exact ⟨h.video, hlink, h.count, h.noAssert, h.maxfr,
      bpInv_mono h.bp rfl (Or.inr rfl) rfl (le_refl _), h.filled⟩
  · have hg : THEORAPLAY_getAudio s.ctx = (none, s.ctx) := by
      simp only [THEORAPLAY_getAudio, hsame]
    simp only [sysStep, hg, Option.isSome]
    exact ⟨h.video, h.audio, h.count, h.noAssert, h.maxfr,
      bpInv_mono h.bp rfl (Or.inr rfl) rfl (le_refl _), h.filled⟩

/-- A halt request keeps the invariant. -/
theorem SysInv.stop (env : Env) {s : Sys} (h : SysInv s) :
    SysInv (sysStep env s Event.stop) :=
  ⟨h.video, h.audio, h.count, h.noAssert, h.maxfr,
    bpInv_mono h.bp rfl (Or.inl rfl) rfl (le_refl _), h.filled⟩

theorem SysInv.step_event (env : Env) {s : Sys} (h : SysInv s) (ev : Event) :
    SysInv (sysStep env s ev) := by
  cases ev with
  | worker itemOk bufOk => exact h.worker_step env itemOk bufOk
  | getVideo => exact h.getVideo env
  | getAudio => exact h.getAudio env
  | stop => exact h.stop env

theorem SysInv.at_start (env : Env) (maxframes : Nat) (fd : List ReadCall)
    (hm : maxframes < UINT_MOD) : SysInv (initSys env maxframes fd) := by
  refine ⟨⟨?_, ?_, ?_, ?_⟩, ⟨?_, ?_, ?_, ?_⟩, rfl, rfl, hm, Or.inr (Or.inr rfl),
    Or.inr (Nat.zero_le 1)⟩ <;>
    simp [initSys, startDecode]

theorem runSys_snoc (env : Env) (s : Sys) (evs : List Event) (ev : Event) :
    runSys env s (evs ++ [ev]) = sysStep env (runSys env s evs) ev := by
  simp [runSys, List.foldl_append]

/-- The invariant holds in every state reached by interleaving worker steps, consumer
calls and a halt request. -/
theorem SysInv.along_run (env : Env) {s : Sys} (h : SysInv s) (evs : List Event) :
    SysInv (runSys env s evs) := by
  induction evs using List.reverseRecOn with
  | nil => exact h
  | append_singleton evs ev ih =>
    rw [runSys_snoc]
    exact ih.step_event env ev

theorem chain_of_linked {α : Type} {heap : List (Node α)} {head tail : Option Nat} {k0 : Nat}
    (h : Linked heap head tail k0) (m : Nat) :
    ∀ k fuel, k0 ≤ k → k + m = heap.length → m < fuel →
      chain heap fuel (if k < heap.length then some k else none) = List.range' k m := by
  induction m with
  | zero =>
    intro k fuel _ hk hf
    rw [if_neg (by omega)]
    cases fuel <;> rfl
  | succ m ih =>
    intro k fuel hk0 hk hf
    obtain ⟨fuel, rfl⟩ : ∃ f, fuel = f + 1 := ⟨fuel - 1, by omega⟩
    rw [if_pos (by omega)]
    simp only [chain, List.range'_succ]
    rw [h.next_eq k (by omega)]
    have e : (if k0 ≤ k ∧ k + 1 < heap.length then some (k + 1) else none)
        = if k + 1 < heap.length then some (k + 1) else none := by
      by_cases h1 : k + 1 < heap.length
      · rw [if_pos ⟨hk0, h1⟩, if_pos h1]
      · rw [if_neg (fun c => h1 c.2), if_neg h1]
    rw [e, ih (k + 1) fuel (by omega) (by omega) (by omega)]

/-- The units linked in a well linked list are the addresses `k`, ..., `n - 1`. -/
theorem chain_eq_range {α : Type} {heap : List (Node α)} {head tail : Option Nat} {k : Nat}
    (h : Linked heap head tail k) :
    chain heap (heap.length + 1) head = List.range' k (heap.length - k) := by
  have hle := h.le
  rw [h.head_eq]
  exact chain_of_linked h (heap.length - k) k (heap.length + 1) (le_refl _) (by omega) (by omega)

theorem workerStep_maxframes (env : Env) (itemOk bufOk : Bool) (s : Sys) :
    (workerStep env itemOk bufOk s).ctx.maxframes = s.ctx.maxframes := by
  unfold workerStep
  cases hpc : s.w.pc <;> simp only [] <;> try rfl
  · unfold stepAudioDrain
    simp only []
    split_ifs <;> rfl
  · unfold stepVideo
    simp only []
    split_ifs <;> rfl

theorem sysStep_maxframes (env : Env) (s : Sys) (ev : Event) :
    (sysStep env s ev).ctx.maxframes = s.ctx.maxframes := by
  cases ev with
  | worker itemOk bufOk => exact workerStep_maxframes env itemOk bufOk s
  | getVideo =>
    simp only [sysStep, THEORAPLAY_getVideo]
    split <;> rfl
  | getAudio => rfl
  | stop => rfl

theorem runSys_maxframes (env : Env) (s : Sys) (evs : List Event) :
    (runSys env s evs).ctx.maxframes = s.ctx.maxframes := by
  induction evs using List.reverseRecOn with
  | nil => rfl
  | append_singleton evs ev ih => rw [runSys_snoc, sysStep_maxframes, ih]

/-- C8 (backpressure).  In every state reached from `THEORAPLAY_startDecode(.., K)` by
interleaving worker steps with consumer calls and halt requests: when the worker stands
at the video step of a decode-loop iteration and halt is not requested, the video
counter does not exceed `K`. -/
theorem backpressure (env : Env) (K : Nat) (fd : List ReadCall) (evs : List Event)
    (hK : K < UINT_MOD)
    (hpc : (runSys env (initSys env K fd) evs).w.pc = PC.videoStep)
    (hh : (runSys env (initSys env K fd) evs).ctx.halt = false) :
    (runSys env (initSys env K fd) evs).ctx.videocount ≤ K := by
  have hinv := (SysInv.at_start env K fd hK).along_run env evs
  have hm : (runSys env (initSys env K fd) evs).ctx.maxframes = K :=
    runSys_maxframes env _ evs
  have hbp := hinv.bp
  unfold bpInv at hbp
  simp only [hpc] at hbp
  rcases hbp.2.filled_or hh with h1 | h1
  · omega
  · omega

/-- C8 on the demo file: after 25 worker steps the worker stands at the video step. -/
theorem backpressure_witness :
    (runSys demoEnv (initSys demoEnv 2 demoFile) (workerRun 25)).w.pc = PC.videoStep ∧
    (runSys demoEnv (initSys demoEnv 2 demoFile) (workerRun 25)).ctx.videocount ≤ 2 :=
  ⟨by decide, backpressure demoEnv 2 demoFile (workerRun 25) (by decide) (by decide) (by decide)⟩

theorem pushedVideo_snoc (ops : List QueueOp) (op : QueueOp) :
    (pushedVideo (ops ++ [op])).length =
      (pushedVideo ops).length + (match op with | QueueOp.pushVideo _ => 1 | _ => 0) := by
  cases op <;> simp [pushedVideo, List.filterMap_append]

/-- In a run of list operations with fewer than `UINT_MOD` video appends the counter is
the number of appends minus the number of successful dequeues, and no assertion of the
list code fails. -/
theorem runOps_count (maxframes : Nat) (ops : List QueueOp) :
    (pushedVideo ops).length < UINT_MOD →
      (runOps maxframes ops).ctx.videocount =
          (pushedVideo ops).length - (runOps maxframes ops).videoOut.length ∧
        (runOps maxframes ops).ctx.assertFailed = false := by
  induction ops using List.reverseRecOn with
  | nil => intro _; exact ⟨rfl, rfl⟩
  | append_singleton ops op ih =>
    intro hN
    have hsn := pushedVideo_snoc ops op
    obtain ⟨hv, ha, hvv, hav, hvo, hao⟩ := runInv maxframes ops
    have hlen : (pushedVideo ops).length = (runOps maxframes ops).ctx.videoHeap.length := by
      rw [hvv, List.length_map]
    have hle := hv.le
    rw [runOps_snoc]
    cases op with
    | pushVideo item =>
      simp only [] at hsn
      obtain ⟨hc, hna⟩ := ih (by omega)
      obtain ⟨-, -, l3⟩ := appendVideo_linked item hv hna
      refine ⟨?_, l3⟩
      show ((runOps maxframes ops).ctx.videocount + 1) % UINT_MOD = _
      rw [Nat.mod_eq_of_lt (by omega), hsn]
      show _ = _ - (runOps maxframes ops).videoOut.length
      omega
    | pushAudio item =>
      simp only [] at hsn
      obtain ⟨hc, hna⟩ := ih (by omega)
      obtain ⟨-, -, l3⟩ := appendAudio_linked item ha hna
      refine ⟨?_, l3⟩
      rw [hsn]
      exact hc
    | getVideo =>
      simp only [] at hsn
      obtain ⟨hc, hna⟩ := ih (by omega)
      rcases hv.unlinkHead with ⟨hk, heap1, head1, tail1, hu, l1, -, hcell, hlink⟩ | ⟨hk, -, hsame⟩
      · obtain ⟨c, hcc⟩ : ∃ c, (runOps maxframes ops).ctx.videoHeap[
            (runOps maxframes ops).videoOut.length]? = some c :=
          ⟨_, List.getElem?_eq_getElem hk⟩
        have hpos : (runOps maxframes ops).ctx.videocount ≠ 0 := by omega
        simp only [QueueRun.step, THEORAPLAY_getVideo, hu, hcell c hcc, Option.toList,
          List.length_append, List.length_singleton, hna, if_neg hpos, hsn]
        refine ⟨by omega, ?_⟩
        simp [hpos]
      · simp only [QueueRun.step, THEORAPLAY_getVideo, hsame, hsn]
        exact ⟨hc, hna⟩
    | getAudio =>
      simp only [] at hsn
      obtain ⟨hc, hna⟩ := ih (by omega)
      rcases ha.unlinkHead with ⟨hk, heap1, head1, tail1, hu, l1, -, hcell, hlink⟩ | ⟨hk, -, hsame⟩
      · obtain ⟨c, hcc⟩ : ∃ c, (runOps maxframes ops).ctx.audioHeap[
            (runOps maxframes ops).audioOut.length]? = some c :=
          ⟨_, List.getElem?_eq_getElem hk⟩
        simp only [QueueRun.step, THEORAPLAY_getAudio, hu, hcell c hcc, Option.toList, hsn]
        exact ⟨hc, hna⟩
      · simp only [QueueRun.step, THEORAPLAY_getAudio, hsame, hsn]
        exact ⟨hc, hna⟩

theorem getVideo_count {ctx : TheoraDecoder} {k : Nat}
    (h : Linked ctx.videoHeap ctx.videolist ctx.videolisttail k)
    (hc : ctx.videocount = ctx.videoHeap.length - k) :
    (videoLinked ctx).length = ctx.videocount ∧
    (ctx.videolist = none → THEORAPLAY_getVideo ctx = (none, ctx)) ∧
    (ctx.videolist ≠ none → 0 < ctx.videocount ∧
      (THEORAPLAY_getVideo ctx).2.videocount = ctx.videocount - 1) := by
  refine ⟨?_, ?_, ?_⟩
  · unfold videoLinked
    rw [chain_eq_range h, List.length_range', hc]
  · intro hn
    simp only [THEORAPLAY_getVideo, unlinkHead, hn]
  · intro hn
    rcases h.unlinkHead with ⟨hk, heap1, head1, tail1, hu, -, -, -, -⟩ | ⟨-, hnone, -⟩
    · have hpos : ctx.videocount ≠ 0 := by omega
      refine ⟨by omega, ?_⟩
      simp only [THEORAPLAY_getVideo, hu, if_neg hpos]
    · exact absurd hnone hn

/-- C2 (video counter invariant).  First part: for every order of tail insertions and
dequeues on a fresh session with fewer than `UINT_MOD` video appends (`N` appends, `M`
successful `THEORAPLAY_getVideo` calls): `M ≤ N`, `videocount = N - M`, which is the
number of units linked in the video list, no assertion has failed, a call on the empty
list returns `NULL` and changes nothing, and a call on a non-empty list finds
`videocount > 0` and decrements it.  Second part: the same in every state that the
interleaving of `WorkerThread` steps, consumer calls and halt requests can reach, with
`N` the number of video units allocated; there the counter also stays below
`UINT_MOD`, so neither the increment nor the decrement ever wraps. -/
theorem video_counter_invariant :
    (∀ (maxframes : Nat) (ops : List QueueOp), (pushedVideo ops).length < UINT_MOD →
      (runOps maxframes ops).videoOut.length ≤ (pushedVideo ops).length ∧
      (runOps maxframes ops).ctx.videocount =
        (pushedVideo ops).length - (runOps maxframes ops).videoOut.length ∧
      (videoLinked (runOps maxframes ops).ctx).length = (runOps maxframes ops).ctx.videocount ∧
      (runOps maxframes ops).ctx.assertFailed = false ∧
      ((runOps maxframes ops).ctx.videolist = none →
        THEORAPLAY_getVideo (runOps maxframes ops).ctx = (none, (runOps maxframes ops).ctx)) ∧
      ((runOps maxframes ops).ctx.videolist ≠ none →
        0 < (runOps maxframes ops).ctx.videocount ∧
        (THEORAPLAY_getVideo (runOps maxframes ops).ctx).2.videocount =
          (runOps maxframes ops).ctx.videocount - 1)) ∧
    (∀ (env : Env) (K : Nat) (fd : List ReadCall) (evs : List Event), K < UINT_MOD →
      (runSys env (initSys env K fd) evs).videoTaken ≤
        (runSys env (initSys env K fd) evs).ctx.videoHeap.length ∧
      (runSys env (initSys env K fd) evs).ctx.videocount =
        (runSys env (initSys env K fd) evs).ctx.videoHeap.length -
          (runSys env (initSys env K fd) evs).videoTaken ∧
      (videoLinked (runSys env (initSys env K fd) evs).ctx).length =
        (runSys env (initSys env K fd) evs).ctx.videocount ∧
      (runSys env (initSys env K fd) evs).ctx.videocount < UINT_MOD ∧
      (runSys env (initSys env K fd) evs).ctx.assertFailed = false ∧
      ((runSys env (initSys env K fd) evs).ctx.videolist = none →
        THEORAPLAY_getVideo (runSys env (initSys env K fd) evs).ctx =
          (none, (runSys env (initSys env K fd) evs).ctx)) ∧
      ((runSys env (initSys env K fd) evs).ctx.videolist ≠ none →
        0 < (runSys env (initSys env K fd) evs).ctx.videocount ∧
        (THEORAPLAY_getVideo (runSys env (initSys env K fd) evs).ctx).2.videocount =
          (runSys env (initSys env K fd) evs).ctx.videocount - 1)) := by
  constructor
  · intro maxframes ops hN
    obtain ⟨hc, hna⟩ := runOps_count maxframes ops hN
    obtain ⟨hv, -, hvv, -, -, -⟩ := runInv maxframes ops
    have hlen : (pushedVideo ops).length = (runOps maxframes ops).ctx.videoHeap.length := by
      rw [hvv, List.length_map]
    have hle := hv.le
    obtain ⟨g1, g2, g3⟩ := getVideo_count hv (by rw [hc, hlen])
    exact ⟨by omega, hc, g1, hna, g2, g3⟩
  · intro env K fd evs hK
    have hinv := (SysInv.at_start env K fd hK).along_run env evs
    have hm : (runSys env (initSys env K fd) evs).ctx.maxframes = K :=
      runSys_maxframes env _ evs
    obtain ⟨g1, g2, g3⟩ := getVideo_count hinv.video hinv.count
    refine ⟨hinv.video.le, hinv.count, g1, ?_, hinv.noAssert, g2, g3⟩
    have h2 : 1 < UINT_MOD := by unfold UINT_MOD; norm_num
    rcases hinv.filled with h1 | h1
    · rw [hm] at h1; omega
    · omega

/-- C2 on concrete inputs: two appends and one dequeue leave the counter at 1; in the
demo run the counter is 1 after 27 worker steps. -/
theorem video_counter_invariant_witness :
    (runOps 2 [QueueOp.pushVideo (newVideoItem tinfo2x2 0 0 rampFrame),
        QueueOp.pushVideo (newVideoItem tinfo2x2 0 1 rampFrame),
        QueueOp.getVideo]).ctx.videocount = 2 - 1 ∧
    (runSys demoEnv (initSys demoEnv 2 demoFile) (workerRun 27)).ctx.videocount = 1 - 0 :=
  ⟨(video_counter_invariant.1 2 _ (by decide)).2.1,
   (video_counter_invariant.2 demoEnv 2 demoFile (workerRun 27) (by decide)).2.1⟩

theorem PagesRejected.tail {x : Option Page} {l : List (Option Page)}
    (h : PagesRejected (x :: l)) : PagesRejected l :=
  fun page hm => h page (List.mem_cons_of_mem _ hm)

theorem readLoop_eof : readLoop eofCall.reads = 0 := by decide

theorem workerSteps_snoc (evs : List Event) (ev : Event) :
    workerSteps (evs ++ [ev]) =
      workerSteps evs + (match ev with | Event.worker _ _ => 1 | _ => 0) := by
  induction evs with
  | nil => cases ev <;> rfl
  | cons e evs ih =>
    cases e with
    | worker a b =>
      show workerSteps (evs ++ [ev]) + 1 = workerSteps evs + 1 + _
      rw [ih]; omega
    | getVideo => exact ih
    | getAudio => exact ih
    | stop => exact ih

/-- C6 at a failing input: `th_decode_headerin` answers `TH_EBADHEADER` for the second
and the third Theora header packet.  Line 163 tests `!th_decode_headerin(...)`, which
holds for the result 0 only: each of the two rejected packets is counted (`tpackets`
goes from 1 to 3) and the header loop goes on instead of jumping to `cleanup`, so that
the thread reaches the decoder setup of line 185 with a header count of 3 after a single
accepted header.  There `th_decode_alloc` fails for want of a setup header, and the
thread ends with `decode_error` true and no unit. -/
theorem rejected_theora_header_is_counted :
    (runSys noSetupEnv (initSys noSetupEnv 2 badHeaderFile) (workerRun 6)).w.pc
      = PC.headersTheora ∧
    (runSys noSetupEnv (initSys noSetupEnv 2 badHeaderFile) (workerRun 6)).w.tpackets = 1 ∧
    ((ogg_stream_packetout
      (runSys noSetupEnv (initSys noSetupEnv 2 badHeaderFile) (workerRun 6)).w.tstream).2.1.map
        fun p => p.th_headerin) = some TH_EBADHEADER ∧
    (runSys noSetupEnv (initSys noSetupEnv 2 badHeaderFile) (workerRun 7)).w.pc
      = PC.headersTheora ∧
    (runSys noSetupEnv (initSys noSetupEnv 2 badHeaderFile) (workerRun 7)).w.tpackets = 2 ∧
    ((ogg_stream_packetout
      (runSys noSetupEnv (initSys noSetupEnv 2 badHeaderFile) (workerRun 7)).w.tstream).2.1.map
        fun p => p.th_headerin) = some TH_EBADHEADER ∧
    (runSys noSetupEnv (initSys noSetupEnv 2 badHeaderFile) (workerRun 8)).w.pc
      = PC.headersTheora ∧
    (runSys noSetupEnv (initSys noSetupEnv 2 badHeaderFile) (workerRun 8)).w.tpackets = 3 ∧
    (runSys noSetupEnv (initSys noSetupEnv 2 badHeaderFile) (workerRun 12)).w.pc
      = PC.setupVideo ∧
    (runSys noSetupEnv (initSys noSetupEnv 2 badHeaderFile) (workerRun 12)).w.tpackets = 3 ∧
    (runSys noSetupEnv (initSys noSetupEnv 2 badHeaderFile) (workerRun 12)).ctx.halt = false ∧
    (runSys noSetupEnv (initSys noSetupEnv 2 badHeaderFile) (workerRun 14)).w.pc = PC.done ∧
    (runSys noSetupEnv (initSys noSetupEnv 2 badHeaderFile) (workerRun 14)).ctx.videoHeap.length
      = 0 ∧
    (runSys noSetupEnv (initSys noSetupEnv 2 badHeaderFile) (workerRun 14)).ctx.decode_error
      = true := by
  refine ⟨?_, ?_, ?_, ?_, ?_, ?_, ?_, ?_, ?_, ?_, ?_, ?_, ?_, ?_⟩ <;> decide

/-- C5 at a failing input: the `read` of `FeedMoreOggData` fails with an error other
than `EINTR`.  The function returns 0, the refill step of the decode loop takes it for
the end of the stream, and the thread ends with `decode_error` false. -/
theorem read_failure_ends_stream_cleanly :
    (FeedMoreOggData { buffer_ok := true, reads := [(-1, false)], wrote := 0, pages := [] }
      []).1 = 0 ∧
    (runSys demoEnv (initSys demoEnv 2 readErrorFile) (workerRun 23)).w.pc = PC.refill ∧
    (runSys demoEnv (initSys demoEnv 2 readErrorFile) (workerRun 23)).w.need_pages = true ∧
    (runSys demoEnv (initSys demoEnv 2 readErrorFile) (workerRun 23)).ctx.halt = false ∧
    ((runSys demoEnv (initSys demoEnv 2 readErrorFile) (workerRun 23)).w.fd.map
      fun call => call.reads) = [[(-1, false)]] ∧
    (runSys demoEnv (initSys demoEnv 2 readErrorFile) (workerRun 24)).w.eos = true ∧
    (runSys demoEnv (initSys demoEnv 2 readErrorFile) (workerRun 24)).w.pc = PC.throttle ∧
    (runSys demoEnv (initSys demoEnv 2 readErrorFile) (workerRun 27)).w.pc = PC.done ∧
    (runSys demoEnv (initSys demoEnv 2 readErrorFile) (workerRun 27)).ctx.thread_done = true ∧
    (runSys demoEnv (initSys demoEnv 2 readErrorFile) (workerRun 27)).ctx.decode_error = false := by
  refine ⟨?_, ?_, ?_, ?_, ?_, ?_, ?_, ?_, ?_, ?_⟩ <;> decide

/-- The result of `FeedMoreOggData` by cases: 0 exactly when a buffer was obtained and the
read returned nothing or failed; positive exactly when bytes were read and
`ogg_sync_wrote` accepted them; negative otherwise. -/
theorem FeedMoreOggData_result (call : ReadCall) (sync : ogg_sync_state) :
    ((FeedMoreOggData call sync).1 = 0 ↔
      (call.buffer_ok = true ∧ readLoop call.reads ≤ 0)) ∧
    (0 < (FeedMoreOggData call sync).1 ↔
      (call.buffer_ok = true ∧ 0 < readLoop call.reads ∧ call.wrote = 0)) ∧
    ((FeedMoreOggData call sync).1 < 0 ↔
      (call.buffer_ok = false ∨ (0 < readLoop call.reads ∧ call.wrote ≠ 0))) := by
  unfold FeedMoreOggData
  cases hb : call.buffer_ok <;> simp only [if_true, Bool.true_eq_false, if_false]
  · simp
  · split_ifs with c1 c2
    · simp [c1]
    · simp at c1; simp [c1, c2]
    · simp at c1; simp [c1, c2]

theorem getVideo_halt (ctx : TheoraDecoder) : (THEORAPLAY_getVideo ctx).2.halt = ctx.halt := by
  unfold THEORAPLAY_getVideo
  simp only []
  split <;> rfl

theorem getVideo_thread_done (ctx : TheoraDecoder) :
    (THEORAPLAY_getVideo ctx).2.thread_done = ctx.thread_done := by
  unfold THEORAPLAY_getVideo
  simp only []
  split <;> rfl

/-- A worker step of the spinning decode loop: no read call is consumed and the loop goes
on as before. -/
theorem Spinning.worker_spin (env : Env) (itemOk bufOk : Bool) {s : Sys} (h : Spinning s) :
    Spinning (workerStep env itemOk bufOk s) ∧
      (workerStep env itemOk bufOk s).w.fd = s.w.fd ∧
      (workerStep env itemOk bufOk s).w.sync = s.w.sync ∧
      (workerStep env itemOk bufOk s).ctx = s.ctx := by
  obtain ⟨hh, he, htp, hvp, hpcm, hvs, hrun, hpcs⟩ := h
  rcases hpcs with hpc | ⟨hpc | hpc | hpc | hpc, hn, hsaw⟩
  · have e : workerStep env itemOk bufOk s = { s with w := stepDecodeTop s.ctx.halt s.w } := by
      unfold workerStep; rw [hpc]
    rw [e]
    unfold stepDecodeTop
    rw [if_pos ⟨hh, he⟩]
    exact ⟨⟨hh, he, htp, hvp, hpcm, hvs, hrun, Or.inr ⟨Or.inl rfl, rfl, rfl⟩⟩, rfl, rfl, rfl⟩
  · have e : workerStep env itemOk bufOk s = stepAudioDrain env itemOk bufOk s := by
      unfold workerStep; rw [hpc]
    rw [e]
    unfold stepAudioDrain
    have hout : ogg_stream_packetout s.w.vstream = (0, none, s.w.vstream) := by
      unfold ogg_stream_packetout; rw [hvs]
    simp only [hout]
    rw [if_pos ⟨hh, hvp⟩, if_neg (by omega), if_pos (le_refl _)]
    exact ⟨⟨hh, he, htp, hvp, hpcm, hvs, hrun, Or.inr ⟨Or.inr (Or.inl rfl), hn, hsaw⟩⟩, rfl, rfl, rfl⟩
  · have e : workerStep env itemOk bufOk s = stepVideo env itemOk bufOk s := by
      unfold workerStep; rw [hpc]
    rw [e]
    unfold stepVideo
    rw [if_neg (fun c => c.2 htp)]
    exact ⟨⟨hh, he, htp, hvp, hpcm, hvs, hrun, Or.inr ⟨Or.inr (Or.inr (Or.inl rfl)), hn, hsaw⟩⟩,
      rfl, rfl, rfl⟩
  · have e : workerStep env itemOk bufOk s = { s with w := stepRefill s.ctx.halt s.w } := by
      unfold workerStep; rw [hpc]
    rw [e]
    unfold stepRefill
    rw [if_neg (fun c => by rw [hn] at c; exact Bool.noConfusion c.2)]
    exact ⟨⟨hh, he, htp, hvp, hpcm, hvs, hrun, Or.inr ⟨Or.inr (Or.inr (Or.inr rfl)), hn, hsaw⟩⟩,
      rfl, rfl, rfl⟩
  · have e : workerStep env itemOk bufOk s = { s with w := stepThrottle s.ctx.halt s.w } := by
      unfold workerStep; rw [hpc]
    rw [e]
    unfold stepThrottle
    rw [if_neg (fun c => by rw [hsaw] at c; exact Bool.noConfusion c.1)]
    exact ⟨⟨hh, he, htp, hvp, hpcm, hvs, hrun, Or.inl rfl⟩, rfl, rfl, rfl⟩

/-- The spinning decode loop spins for ever: whatever the worker and the consumers do
(short of a halt request), the worker stays in the loop and reads nothing more. -/
theorem Spinning.along_spin (env : Env) {s : Sys} (h : Spinning s) (evs : List Event)
    (hstop : Event.stop ∉ evs) :
    Spinning (runSys env s evs) ∧ (runSys env s evs).w.fd = s.w.fd ∧
      (runSys env s evs).w.sync = s.w.sync := by
  induction evs using List.reverseRecOn with
  | nil => exact ⟨h, rfl, rfl⟩
  | append_singleton evs ev ih =>
    have hstop1 : Event.stop ∉ evs := fun hm => hstop (List.mem_append_left _ hm)
    obtain ⟨i1, i2, i3⟩ := ih hstop1
    rw [runSys_snoc]
    cases ev with
    | worker itemOk bufOk =>
      obtain ⟨w1, w2, w3, -⟩ := i1.worker_spin env itemOk bufOk
      exact ⟨w1, w2.trans i2, w3.trans i3⟩
    | getVideo =>
      exact ⟨⟨(getVideo_halt _).trans i1.halt, i1.eos, i1.tp, i1.vp, i1.pcm, i1.vs,
        (getVideo_thread_done _).trans i1.running, i1.pcs⟩, i2, i3⟩
    | getAudio =>
      exact ⟨⟨i1.halt, i1.eos, i1.tp, i1.vp, i1.pcm, i1.vs, i1.running, i1.pcs⟩, i2, i3⟩
    | stop => exact absurd (List.mem_append_right _ (List.mem_singleton_self _)) hstop

theorem Spinning.not_done {s : Sys} (h : Spinning s) : s.w.pc ≠ PC.done := by
  intro hd
  rcases h.pcs with e | ⟨e | e | e | e, -, -⟩ <;> rw [hd] at e <;> cases e

theorem runSys_append (env : Env) (s : Sys) (e1 e2 : List Event) :
    runSys env s (e1 ++ e2) = runSys env (runSys env s e1) e2 := by
  simp [runSys, List.foldl_append]

theorem audioOnly_spinning :
    Spinning (runSys demoEnv (initSys demoEnv 2 audioOnlyFile) (workerRun 21)) :=
  ⟨by decide, by decide, by decide, by decide, by decide, by rfl, by decide,
    Or.inl (by decide)⟩

/-- C10 at a failing input: a file with a Vorbis stream only, halt never requested.
After 21 worker steps the decode loop has produced one audio unit and finds no audio
packet; from then on, for every continuation by worker steps and consumer calls, the
worker is still inside the decode loop, the next read call of the file is still
unread, and the audio page already handed to the synchronizer is still there: the
refill step never calls `FeedMoreOggData` and the thread never terminates. -/
theorem audio_only_never_refills (evs : List Event) (hstop : Event.stop ∉ evs) :
    (runSys demoEnv (initSys demoEnv 2 audioOnlyFile) (workerRun 21 ++ evs)).w.pc ≠ PC.done ∧
    (runSys demoEnv (initSys demoEnv 2 audioOnlyFile) (workerRun 21 ++ evs)).ctx.thread_done
      = false ∧
    (runSys demoEnv (initSys demoEnv 2 audioOnlyFile) (workerRun 21 ++ evs)).w.eos = false ∧
    (runSys demoEnv (initSys demoEnv 2 audioOnlyFile) (workerRun 21 ++ evs)).w.fd.length = 1 ∧
    (runSys demoEnv (initSys demoEnv 2 audioOnlyFile) (workerRun 21 ++ evs)).w.sync.length = 1
    := by
  rw [runSys_append]
  obtain ⟨h1, h2, h3⟩ := audioOnly_spinning.along_spin demoEnv evs hstop
  refine ⟨h1.not_done, ?_, h1.eos, ?_, ?_⟩
  · exact h1.running
  · rw [h2]; decide
  · rw [h3]; decide

/-- C10 at the failing input, continued by 100 more worker steps. -/
theorem audio_only_never_refills_witness :
    (runSys demoEnv (initSys demoEnv 2 audioOnlyFile) (workerRun 21 ++ workerRun 100)).w.pc
      ≠ PC.done ∧
    (runSys demoEnv (initSys demoEnv 2 audioOnlyFile)
      (workerRun 21 ++ workerRun 100)).w.fd.length = 1 :=
  ⟨(audio_only_never_refills (workerRun 100) (by simp [workerRun])).1,
   (audio_only_never_refills (workerRun 100) (by simp [workerRun])).2.2.2.1⟩

theorem roundHalfEven_bounds (t : ℚ) : ⌊t⌋ ≤ roundHalfEven t ∧ roundHalfEven t ≤ ⌊t⌋ + 1 := by
  unfold roundHalfEven
  split_ifs <;> constructor <;> omega

theorem roundHalfEven_intCast (k : ℤ) : roundHalfEven (k : ℚ) = k := by
  unfold roundHalfEven
  simp

/-- Rounding to the nearest integer with ties to even is monotone. -/
theorem roundHalfEven_mono {x y : ℚ} (h : x ≤ y) : roundHalfEven x ≤ roundHalfEven y := by
  have hf : ⌊x⌋ ≤ ⌊y⌋ := Int.floor_mono h
  rcases hf.lt_or_eq with hlt | heq
  · have h1 := (roundHalfEven_bounds x).2
    have h2 := (roundHalfEven_bounds y).1
    omega
  · unfold roundHalfEven
    rw [← heq]
    split_ifs <;> first | omega | (exfalso; linarith)

theorem two_zpow_pos (z : ℤ) : (0 : ℚ) < (2 : ℚ) ^ z := zpow_pos (by norm_num) z

theorem log_spec {q : ℚ} (hq : 0 < q) :
    (2 : ℚ) ^ Int.log 2 q ≤ q ∧ q < (2 : ℚ) ^ (Int.log 2 q + 1) := by
  have h1 := Int.zpow_log_le_self (b := 2) (by norm_num) hq
  have h2 := Int.lt_zpow_succ_log_self (b := 2) (by norm_num) q
  exact ⟨by exact_mod_cast h1, by exact_mod_cast h2⟩

/-- The rounded value stays within the binade of the argument. -/
theorem roundPos_bounds {q : ℚ} (hq : 0 < q) :
    (2 : ℚ) ^ Int.log 2 q ≤ roundPos q ∧ roundPos q ≤ (2 : ℚ) ^ (Int.log 2 q + 1) := by
  obtain ⟨h1, h2⟩ := log_spec hq
  have hu := two_zpow_pos (Int.log 2 q - 52)
  have e1 : (2 : ℚ) ^ Int.log 2 q = (2 : ℚ) ^ (52 : ℤ) * (2 : ℚ) ^ (Int.log 2 q - 52) := by
    rw [← zpow_add₀ (by norm_num : (2 : ℚ) ≠ 0)]; congr 1; ring
  have e2 : (2 : ℚ) ^ (Int.log 2 q + 1)
      = (2 : ℚ) ^ (53 : ℤ) * (2 : ℚ) ^ (Int.log 2 q - 52) := by
    rw [← zpow_add₀ (by norm_num : (2 : ℚ) ≠ 0)]; congr 1; ring
  have l1 : ((2 ^ 52 : ℤ) : ℚ) ≤ q / (2 : ℚ) ^ (Int.log 2 q - 52) := by
    rw [le_div_iff₀ hu]
    have : (((2 ^ 52 : ℤ)) : ℚ) = (2 : ℚ) ^ (52 : ℤ) := by norm_num
    rw [this, ← e1]; exact h1
  have l2 : q / (2 : ℚ) ^ (Int.log 2 q - 52) < ((2 ^ 53 : ℤ) : ℚ) := by
    rw [div_lt_iff₀ hu]
    have : (((2 ^ 53 : ℤ)) : ℚ) = (2 : ℚ) ^ (53 : ℤ) := by norm_num
    rw [this, ← e2]; exact h2
  have f1 : (2 ^ 52 : ℤ) ≤ ⌊q / (2 : ℚ) ^ (Int.log 2 q - 52)⌋ := Int.le_floor.mpr l1
  have f2 : ⌊q / (2 : ℚ) ^ (Int.log 2 q - 52)⌋ < (2 ^ 53 : ℤ) := Int.floor_lt.mpr l2
  obtain ⟨b1, b2⟩ := roundHalfEven_bounds (q / (2 : ℚ) ^ (Int.log 2 q - 52))
  have r1 : ((2 ^ 52 : ℤ) : ℚ) ≤ (roundHalfEven (q / (2 : ℚ) ^ (Int.log 2 q - 52)) : ℚ) := by
    exact_mod_cast le_trans f1 b1
  have r2 : (roundHalfEven (q / (2 : ℚ) ^ (Int.log 2 q - 52)) : ℚ) ≤ ((2 ^ 53 : ℤ) : ℚ) := by
    have : roundHalfEven (q / (2 : ℚ) ^ (Int.log 2 q - 52)) ≤ (2 ^ 53 : ℤ) := by omega
    exact_mod_cast this
  unfold roundPos
  constructor
  · rw [e1]
    have : (((2 ^ 52 : ℤ)) : ℚ) = (2 : ℚ) ^ (52 : ℤ) := by norm_num
    rw [← this]
    exact mul_le_mul_of_nonneg_right r1 hu.le
  · rw [e2]
    have : (((2 ^ 53 : ℤ)) : ℚ) = (2 : ℚ) ^ (53 : ℤ) := by norm_num
    rw [← this]
    exact mul_le_mul_of_nonneg_right r2 hu.le

/-- Rounding of positive values to `double` is monotone. -/
theorem roundPos_mono {x y : ℚ} (hx : 0 < x) (h : x ≤ y) : roundPos x ≤ roundPos y := by
  have hy : 0 < y := lt_of_lt_of_le hx h
  have hl : Int.log 2 x ≤ Int.log 2 y := Int.log_mono_right hx h
  rcases hl.lt_or_eq with hlt | heq
  · have h1 := (roundPos_bounds hx).2
    have h2 := (roundPos_bounds hy).1
    have h3 : (2 : ℚ) ^ (Int.log 2 x + 1) ≤ (2 : ℚ) ^ Int.log 2 y :=
      zpow_le_zpow_right₀ (by norm_num) (by omega)
    linarith
  · unfold roundPos
    rw [← heq]
    have hu := two_zpow_pos (Int.log 2 x - 52)
    have hd : x / (2 : ℚ) ^ (Int.log 2 x - 52) ≤ y / (2 : ℚ) ^ (Int.log 2 x - 52) :=
      div_le_div_of_nonneg_right h hu.le
    have hr := roundHalfEven_mono hd
    have hr2 : (roundHalfEven (x / (2 : ℚ) ^ (Int.log 2 x - 52)) : ℚ)
        ≤ (roundHalfEven (y / (2 : ℚ) ^ (Int.log 2 x - 52)) : ℚ) := by exact_mod_cast hr
    exact mul_le_mul_of_nonneg_right hr2 hu.le

theorem roundPos_pos {q : ℚ} (hq : 0 < q) : 0 < roundPos q :=
  lt_of_lt_of_le (two_zpow_pos _) (roundPos_bounds hq).1

theorem toDouble_nonneg {q : ℚ} (hq : 0 ≤ q) : 0 ≤ toDouble q := by
  unfold toDouble
  split_ifs with c1 c2
  · exact le_refl _
  · exact absurd hq (not_le.mpr c2)
  · exact (roundPos_pos (lt_of_le_of_ne hq (Ne.symm c1))).le

/-- Rounding of non-negative values to `double` is monotone. -/
theorem toDouble_mono {x y : ℚ} (hx : 0 ≤ x) (h : x ≤ y) : toDouble x ≤ toDouble y := by
  rcases hx.lt_or_eq with hpos | hzero
  · have hy : 0 < y := lt_of_lt_of_le hpos h
    unfold toDouble
    rw [if_neg hpos.ne', if_neg (not_lt.mpr hpos.le), if_neg hy.ne', if_neg (not_lt.mpr hy.le)]
    exact roundPos_mono hpos h
  · rw [← hzero]
    have : toDouble 0 = 0 := by simp [toDouble]
    rw [this]
    exact toDouble_nonneg (hzero ▸ h)

/-- A positive integer below `2^53` is a `double`: rounding leaves it unchanged. -/
theorem roundPos_natCast (n : Nat) (h0 : 0 < n) (h : n < 2 ^ 53) : roundPos (n : ℚ) = n := by
  have hq : (0 : ℚ) < n := by exact_mod_cast h0
  have hlog : Int.log 2 (n : ℚ) < 53 := by
    rw [← Int.lt_zpow_iff_log_lt (by norm_num) hq]
    exact_mod_cast h
  obtain ⟨k, hk⟩ : ∃ k : ℕ, Int.log 2 (n : ℚ) - 52 = -(k : ℤ) :=
    ⟨(52 - Int.log 2 (n : ℚ)).toNat, by omega⟩
  unfold roundPos
  rw [hk, zpow_neg, zpow_natCast, div_inv_eq_mul]
  have e : (n : ℚ) * (2 : ℚ) ^ k = (((n * 2 ^ k : ℕ) : ℤ) : ℚ) := by push_cast; ring
  rw [e, roundHalfEven_intCast]
  push_cast
  have hp : (2 : ℚ) ^ k ≠ 0 := pow_ne_zero _ (by norm_num)
  field_simp

theorem toDouble_natCast (n : Nat) (h : n < 2 ^ 53) : toDouble (n : ℚ) = n := by
  rcases Nat.eq_zero_or_pos n with h0 | h0
  · subst h0; simp [toDouble]
  · have hq : (0 : ℚ) < n := by exact_mod_cast h0
    unfold toDouble
    rw [if_neg hq.ne', if_neg (not_lt.mpr hq.le)]
    exact roundPos_natCast n h0 h

theorem fpsOf_nonneg (num den : Nat) : 0 ≤ fpsOf num den := by
  unfold fpsOf
  split_ifs
  · apply toDouble_nonneg
    exact div_nonneg (toDouble_nonneg (Nat.cast_nonneg _)) (toDouble_nonneg (Nat.cast_nonneg _))
  · exact le_refl _

/-- The time in ms is monotone in the number of frames, for a non-negative rate. -/
theorem msOf_mono {a b : Nat} (rate : ℚ) (hr : 0 ≤ rate) (h : a ≤ b) :
    msOf a rate ≤ msOf b rate := by
  unfold msOf
  have h1 : toDouble (a : ℚ) ≤ toDouble (b : ℚ) :=
    toDouble_mono (Nat.cast_nonneg _) (by exact_mod_cast h)
  have n1 : 0 ≤ toDouble (a : ℚ) := toDouble_nonneg (Nat.cast_nonneg _)
  have h2 : toDouble (a : ℚ) / rate ≤ toDouble (b : ℚ) / rate :=
    div_le_div_of_nonneg_right h1 hr
  have n2 : 0 ≤ toDouble (a : ℚ) / rate := div_nonneg n1 hr
  have h3 := toDouble_mono n2 h2
  have n3 : 0 ≤ toDouble (toDouble (a : ℚ) / rate) := toDouble_nonneg n2
  exact toDouble_mono (mul_nonneg n3 (by norm_num)) (mul_le_mul_of_nonneg_right h3 (by norm_num))

theorem msOf_zero (rate : ℚ) : msOf 0 rate = 0 := by
  simp [msOf, toDouble]

theorem floor_toNat_mono {x y : ℚ} (h : x ≤ y) : ⌊x⌋.toNat ≤ ⌊y⌋.toNat :=
  Int.toNat_le_toNat (Int.floor_mono h)

/-- Video time stamps are monotone in the frame index as long as they fit
`unsigned int`. -/
theorem videoPlayms_mono (fps : ℚ) (hf : 0 ≤ fps) {a b : Nat} (h : a ≤ b)
    (hb : ⌊msOf b fps⌋.toNat < UINT_MOD) : videoPlayms fps a ≤ videoPlayms fps b := by
  unfold videoPlayms
  split_ifs
  · exact le_refl _
  · have hab := floor_toNat_mono (msOf_mono fps hf h)
    rw [Nat.mod_eq_of_lt hb, Nat.mod_eq_of_lt (lt_of_le_of_lt hab hb)]
    exact hab

/-- Audio time stamps are monotone in the frame count as long as they fit
`unsigned long`. -/
theorem audioPlayms_mono (ulong : Nat) (rate : Int) (hr : 0 ≤ rate) {a b : Nat} (h : a ≤ b)
    (hb : ⌊msOf b (toDouble rate)⌋.toNat < ulong) :
    audioPlayms ulong rate a ≤ audioPlayms ulong rate b := by
  unfold audioPlayms
  have hrr : (0 : ℚ) ≤ toDouble rate := toDouble_nonneg (by exact_mod_cast hr)
  have hab := floor_toNat_mono (msOf_mono (toDouble rate) hrr h)
  rw [Nat.mod_eq_of_lt hb, Nat.mod_eq_of_lt (lt_of_le_of_lt hab hb)]
  exact hab

theorem fpsOf_one_one : fpsOf 1 1 = 1 := by
  have h1 : toDouble ((1 : ℕ) : ℚ) = ((1 : ℕ) : ℚ) := toDouble_natCast 1 (by norm_num)
  unfold fpsOf
  rw [if_pos (by decide), h1]
  simpa using h1

/-- At one frame per second the time of frame `n` is `n * 1000` ms exactly. -/
theorem msOf_one (n : Nat) (h : n * 1000 < 2 ^ 53) : msOf n 1 = ((n * 1000 : ℕ) : ℚ) := by
  have h1 : toDouble (n : ℚ) = n := toDouble_natCast n (by omega)
  have h2 : toDouble (((n * 1000 : ℕ)) : ℚ) = ((n * 1000 : ℕ) : ℚ) := toDouble_natCast _ h
  unfold msOf
  rw [div_one, h1, h1]
  have e : (n : ℚ) * 1000 = ((n * 1000 : ℕ) : ℚ) := by push_cast; ring
  rw [e, h2]

theorem videoPlayms_one (n : Nat) (h : n * 1000 < 2 ^ 32) :
    videoPlayms 1 n = n * 1000 := by
  unfold videoPlayms
  rw [if_neg one_ne_zero, msOf_one n (by omega), Int.floor_natCast, Int.toNat_natCast]
  exact Nat.mod_eq_of_lt h

/-- For a rate of at least one frame per second the time of frame `n` is at most
`n * 1000` ms. -/
theorem msOf_le (n : Nat) (rate : ℚ) (hr : 1 ≤ rate) (h : n * 1000 < 2 ^ 53) :
    msOf n rate ≤ ((n * 1000 : ℕ) : ℚ) := by
  have h1 : toDouble (n : ℚ) = n := toDouble_natCast n (by omega)
  have h2 : toDouble (((n * 1000 : ℕ)) : ℚ) = ((n * 1000 : ℕ) : ℚ) := toDouble_natCast _ h
  have hn : (0 : ℚ) ≤ n := Nat.cast_nonneg n
  have hpos : (0 : ℚ) < rate := lt_of_lt_of_le one_pos hr
  unfold msOf
  rw [h1]
  have a1 : (n : ℚ) / rate ≤ n := div_le_self hn hr
  have a2 : toDouble ((n : ℚ) / rate) ≤ n := by
    have := toDouble_mono (div_nonneg hn hpos.le) a1
    rwa [h1] at this
  have a3 : 0 ≤ toDouble ((n : ℚ) / rate) := toDouble_nonneg (div_nonneg hn hpos.le)
  have a4 : toDouble ((n : ℚ) / rate) * 1000 ≤ ((n * 1000 : ℕ) : ℚ) := by
    push_cast
    exact mul_le_mul_of_nonneg_right a2 (by norm_num)
  have := toDouble_mono (mul_nonneg a3 (by norm_num)) a4
  rwa [h2] at this

theorem toDouble_one_le (r : Int) (h : 0 < r) : (1 : ℚ) ≤ toDouble (r : ℚ) := by
  have h1 : toDouble ((1 : ℕ) : ℚ) = ((1 : ℕ) : ℚ) := toDouble_natCast 1 (by norm_num)
  have hr : ((1 : ℕ) : ℚ) ≤ (r : ℚ) := by
    have : (1 : ℤ) ≤ r := h
    exact_mod_cast this
  have := toDouble_mono (by norm_num) hr
  rw [h1] at this
  simpa using this

theorem videoPlayms_zero (fps : ℚ) : videoPlayms fps 0 = 0 := by
  unfold videoPlayms
  split_ifs
  · rfl
  · simp [msOf_zero]

theorem audioPlayms_zero (ulong : Nat) (rate : Int) : audioPlayms ulong rate 0 = 0 := by
  unfold audioPlayms
  simp [msOf_zero]

theorem fits_of_le (fps : ℚ) (hf : 0 ≤ fps) {a N M : Nat} (h : a ≤ N)
    (hN : ⌊msOf N fps⌋.toNat < M) : ⌊msOf a fps⌋.toNat < M :=
  lt_of_le_of_lt (floor_toNat_mono (msOf_mono fps hf h)) hN

/-- Along any sequence of packets the time stamps of the video units are non-decreasing
and bounded below by the stamp of the starting frame index, as long as neither the frame
index nor a stamp overflows; the first unit is stamped with the frame index it has. -/
theorem videoUnits_sorted (env : Env) (fps : ℚ) (hf : 0 ≤ fps) (N : Nat)
    (hN : N < env.ULONG_MOD) (hfit : ⌊msOf N fps⌋.toNat < UINT_MOD) :
    ∀ (packets : List Packet) (vf : Nat), vf + packets.length ≤ N →
      (∀ u ∈ videoUnits env fps vf packets, videoPlayms fps vf ≤ u.playms) ∧
      List.Pairwise (fun a b => a ≤ b) ((videoUnits env fps vf packets).map fun u => u.playms) ∧
      ∀ u, (videoUnits env fps vf packets).head? = some u →
        u.playms = videoPlayms fps (vf + skipped packets) := by
  intro packets
  induction packets with
  | nil =>
    intro vf _
    refine ⟨?_, ?_, ?_⟩ <;> simp [videoUnits]
  | cons p rest ih =>
    intro vf hvf
    simp only [List.length_cons] at hvf
    have hmod : (vf + 1) % env.ULONG_MOD = vf + 1 := Nat.mod_eq_of_lt (by omega)
    have hstep : videoPlayms fps vf ≤ videoPlayms fps (vf + 1) :=
      videoPlayms_mono fps hf (Nat.le_succ vf) (fits_of_le fps hf (by omega) hfit)
    obtain ⟨i1, i2, i3⟩ := ih (vf + 1) (by omega)
    obtain ⟨j1, j2, j3⟩ := ih vf (by omega)
    simp only [videoUnits, skipped, hmod]
    split_ifs with c1 c2 c3
    · exact ⟨fun u hu => le_trans hstep (i1 u hu), i2,
        fun u hu => by rw [i3 u hu]; congr 1; omega⟩
    · refine ⟨?_, ?_, ?_⟩
      · intro u hu
        rcases List.mem_cons.mp hu with e | e
        · rw [e]; exact le_refl _
        · exact le_trans hstep (i1 u e)
      · rw [List.map_cons]
        refine List.Pairwise.cons ?_ i2
        intro t ht
        obtain ⟨u, hu, rfl⟩ := List.mem_map.mp ht
        exact le_trans hstep (i1 u hu)
      · intro u hu
        simp only [List.head?_cons, Option.some.injEq] at hu
        rw [← hu]; rfl
    · exact ⟨fun u hu => le_trans hstep (i1 u hu), i2,
        fun u hu => by rw [i3 u hu]; congr 1; omega⟩
    · exact ⟨j1, j2, j3⟩

/-- Along any sequence of results of `vorbis_synthesis_pcmout` the time stamps of the
audio units are non-decreasing, as long as neither the frame counter nor a stamp
overflows; the first unit is stamped with the starting frame count. -/
theorem audioUnits_sorted (env : Env) (hr : 0 ≤ env.rate) (N : Nat) (hN : N < env.ULONG_MOD)
    (hfit : ⌊msOf N (toDouble env.rate)⌋.toNat < env.ULONG_MOD) :
    ∀ (blocks : List (Int × (Nat → Nat → Nat))) (af : Nat), af + totalFrames blocks ≤ N →
      (∀ u ∈ audioUnits env af blocks, audioPlayms env.ULONG_MOD env.rate af ≤ u.playms) ∧
      List.Pairwise (fun a b => a ≤ b) ((audioUnits env af blocks).map fun u => u.playms) ∧
      ∀ u, (audioUnits env af blocks).head? = some u →
        u.playms = audioPlayms env.ULONG_MOD env.rate af := by
  have hrr : (0 : ℚ) ≤ toDouble env.rate := toDouble_nonneg (by exact_mod_cast hr)
  intro blocks
  induction blocks with
  | nil =>
    intro af _
    refine ⟨?_, ?_, ?_⟩ <;> simp [audioUnits]
  | cons b rest ih =>
    intro af haf
    simp only [totalFrames] at haf
    simp only [audioUnits]
    split_ifs with c1
    · rw [if_pos c1] at haf
      have hmod : (af + b.1.toNat) % env.ULONG_MOD = af + b.1.toNat :=
        Nat.mod_eq_of_lt (by omega)
      rw [hmod]
      obtain ⟨i1, i2, -⟩ := ih (af + b.1.toNat) (by omega)
      have hstep : audioPlayms env.ULONG_MOD env.rate af
          ≤ audioPlayms env.ULONG_MOD env.rate (af + b.1.toNat) :=
        audioPlayms_mono env.ULONG_MOD env.rate hr (Nat.le_add_right _ _)
          (fits_of_le (toDouble env.rate) hrr (by omega) hfit)
      refine ⟨?_, ?_, ?_⟩
      · intro u hu
        rcases List.mem_cons.mp hu with e | e
        · rw [e]; exact le_refl _
        · exact le_trans hstep (i1 u e)
      · rw [List.map_cons]
        refine List.Pairwise.cons ?_ i2
        intro t ht
        obtain ⟨u, hu, rfl⟩ := List.mem_map.mp ht
        exact le_trans hstep (i1 u hu)
      · intro u hu
        simp only [List.head?_cons, Option.some.injEq] at hu
        rw [← hu]; rfl
    · rw [if_neg c1] at haf
      exact ih af (by omega)

theorem videoframesAfter_append (env : Env) :
    ∀ (ps qs : List Packet) (vf : Nat),
      videoframesAfter env vf (ps ++ qs) = videoframesAfter env (videoframesAfter env vf ps) qs := by
  intro ps
  induction ps with
  | nil => intro qs vf; rfl
  | cons p rest ih =>
    intro qs vf
    simp only [List.cons_append, videoframesAfter]
    split_ifs <;> exact ih _ _

theorem videoUnits_append (env : Env) (fps : ℚ) :
    ∀ (ps qs : List Packet) (vf : Nat),
      videoUnits env fps vf (ps ++ qs) =
        videoUnits env fps vf ps ++ videoUnits env fps (videoframesAfter env vf ps) qs := by
  intro ps
  induction ps with
  | nil => intro qs vf; rfl
  | cons p rest ih =>
    intro qs vf
    simp only [List.cons_append, videoUnits, videoframesAfter]
    split_ifs
    · exact ih _ _
    · exact congrArg (List.cons _) (ih _ _)
    · exact ih _ _
    · exact ih _ _

theorem audioframesAfter_append (env : Env) :
    ∀ (ps qs : List (Int × (Nat → Nat → Nat))) (af : Nat),
      audioframesAfter env af (ps ++ qs) = audioframesAfter env (audioframesAfter env af ps) qs := by
  intro ps
  induction ps with
  | nil => intro qs af; rfl
  | cons p rest ih =>
    intro qs af
    simp only [List.cons_append, audioframesAfter]
    split_ifs <;> exact ih _ _

theorem audioUnits_append (env : Env) :
    ∀ (ps qs : List (Int × (Nat → Nat → Nat))) (af : Nat),
      audioUnits env af (ps ++ qs) =
        audioUnits env af ps ++ audioUnits env (audioframesAfter env af ps) qs := by
  intro ps
  induction ps with
  | nil => intro qs af; rfl
  | cons p rest ih =>
    intro qs af
    simp only [List.cons_append, audioUnits, audioframesAfter]
    split_ifs
    · exact congrArg (List.cons _) (ih _ _)
    · exact ih _ _

theorem linkTail_vals {α : Type} (heap : List (Node α)) (head tail : Option Nat) (item : α) :
    (linkTail heap head tail item).1.map Node.val = heap.map Node.val ++ [item] := by
  unfold linkTail
  cases tail with
  | none => simp
  | some t => simp [map_val_setNext]

theorem unlinkHead_vals {α : Type} (heap : List (Node α)) (head tail : Option Nat) :
    (unlinkHead heap head tail).2.1.map Node.val = heap.map Node.val := by
  unfold unlinkHead
  cases head with
  | none => rfl
  | some r => simp [map_val_setNext]

theorem getVideo_vals (ctx : TheoraDecoder) :
    (THEORAPLAY_getVideo ctx).2.videoHeap.map Node.val = ctx.videoHeap.map Node.val ∧
    (THEORAPLAY_getVideo ctx).2.audioHeap = ctx.audioHeap := by
  unfold THEORAPLAY_getVideo
  simp only []
  split
  · exact ⟨rfl, rfl⟩
  · exact ⟨unlinkHead_vals _ _ _, rfl⟩

theorem getAudio_vals (ctx : TheoraDecoder) :
    (THEORAPLAY_getAudio ctx).2.audioHeap.map Node.val = ctx.audioHeap.map Node.val ∧
    (THEORAPLAY_getAudio ctx).2.videoHeap = ctx.videoHeap :=
  ⟨unlinkHead_vals _ _ _, rfl⟩

theorem StampInv.plain {env : Env} {n : Nat} {s : Sys} (h : StampInv env n s) (w : Worker)
    (hv : w.videoframes = s.w.videoframes) (ha : w.audioframes = s.w.audioframes)
    (hf : w.fps = s.w.fps) (hpc : w.pc.early = true → s.w.pc.early = true) :
    StampInv env (n + 1) { s with w := w } := by
  obtain ⟨ps, p1, p2, p3⟩ := h.video
  obtain ⟨bs, b1, b2⟩ := h.audio
  refine ⟨⟨ps, by omega, ?_, ?_⟩, ⟨bs, b1, ?_⟩, ?_, ?_⟩
  · show s.ctx.videoHeap.map Node.val = videoUnits env w.fps 0 ps
    rw [hf]; exact p2
  · show w.videoframes = _
    rw [hv]; exact p3
  · show w.audioframes = _
    rw [ha]; exact b2
  · intro he
    have := h.early (hpc he)
    exact ⟨this.1, hv.trans this.2⟩
  · show w.fps = 0 ∨ w.fps = _
    rw [hf]; exact h.fps

theorem stepDiscover_stamps (halt : Bool) (w : Worker) :
    (stepDiscover halt w).videoframes = w.videoframes ∧
    (stepDiscover halt w).audioframes = w.audioframes ∧
    (stepDiscover halt w).fps = w.fps := by
  unfold stepDiscover
  split_ifs <;> exact ⟨rfl, rfl, rfl⟩

theorem stepDiscoverPages_stamps (halt : Bool) (w : Worker) :
    (stepDiscoverPages halt w).videoframes = w.videoframes ∧
    (stepDiscoverPages halt w).audioframes = w.audioframes ∧
    (stepDiscoverPages halt w).fps = w.fps := by
  unfold stepDiscoverPages
  split_ifs
  · exact ⟨rfl, rfl, rfl⟩
  · split
    · exact ⟨rfl, rfl, rfl⟩
    · dsimp only
      split_ifs <;> exact ⟨rfl, rfl, rfl⟩

theorem stepDiscoverDone_stamps (halt : Bool) (w : Worker) :
    (stepDiscoverDone halt w).videoframes = w.videoframes ∧
    (stepDiscoverDone halt w).audioframes = w.audioframes ∧
    (stepDiscoverDone halt w).fps = w.fps := by
  unfold stepDiscoverDone
  split_ifs <;> exact ⟨rfl, rfl, rfl⟩

theorem stepHeaders_stamps (halt : Bool) (w : Worker) :
    (stepHeaders halt w).videoframes = w.videoframes ∧
    (stepHeaders halt w).audioframes = w.audioframes ∧
    (stepHeaders halt w).fps = w.fps := by
  unfold stepHeaders
  split_ifs <;> exact ⟨rfl, rfl, rfl⟩

theorem stepHeadersTheora_stamps (halt : Bool) (w : Worker) :
    (stepHeadersTheora halt w).videoframes = w.videoframes ∧
    (stepHeadersTheora halt w).audioframes = w.audioframes ∧
    (stepHeadersTheora halt w).fps = w.fps := by
  unfold stepHeadersTheora
  dsimp only
  split_ifs <;> exact ⟨rfl, rfl, rfl⟩

theorem stepHeadersVorbis_stamps (halt : Bool) (w : Worker) :
    (stepHeadersVorbis halt w).videoframes = w.videoframes ∧
    (stepHeadersVorbis halt w).audioframes = w.audioframes ∧
    (stepHeadersVorbis halt w).fps = w.fps := by
  unfold stepHeadersVorbis
  dsimp only
  split_ifs <;> exact ⟨rfl, rfl, rfl⟩

theorem stepHeadersPage_stamps (w : Worker) :
    (stepHeadersPage w).videoframes = w.videoframes ∧
    (stepHeadersPage w).audioframes = w.audioframes ∧
    (stepHeadersPage w).fps = w.fps := by
  unfold stepHeadersPage
  split
  · exact ⟨rfl, rfl, rfl⟩
  · split_ifs <;> exact ⟨rfl, rfl, rfl⟩

theorem stepSetupAudio_stamps (env : Env) (halt : Bool) (w : Worker) :
    (stepSetupAudio env halt w).videoframes = w.videoframes ∧
    (stepSetupAudio env halt w).audioframes = w.audioframes ∧
    (stepSetupAudio env halt w).fps = w.fps ∧
    (stepSetupAudio env halt w).pc.early = false := by
  unfold stepSetupAudio
  split_ifs <;> exact ⟨rfl, rfl, rfl, rfl⟩

theorem stepDecodeTop_stamps (halt : Bool) (w : Worker) :
    (stepDecodeTop halt w).videoframes = w.videoframes ∧
    (stepDecodeTop halt w).audioframes = w.audioframes ∧
    (stepDecodeTop halt w).fps = w.fps ∧
    (stepDecodeTop halt w).pc.early = false := by
  unfold stepDecodeTop
  split_ifs <;> exact ⟨rfl, rfl, rfl, rfl⟩

theorem stepRefill_stamps (halt : Bool) (w : Worker) :
    (stepRefill halt w).videoframes = w.videoframes ∧
    (stepRefill halt w).audioframes = w.audioframes ∧
    (stepRefill halt w).fps = w.fps ∧
    (stepRefill halt w).pc.early = false := by
  unfold stepRefill
  split_ifs <;> exact ⟨rfl, rfl, rfl, rfl⟩

theorem stepRefillPages_stamps (halt : Bool) (w : Worker) (hw : w.pc = PC.refillPages) :
    (stepRefillPages halt w).videoframes = w.videoframes ∧
    (stepRefillPages halt w).audioframes = w.audioframes ∧
    (stepRefillPages halt w).fps = w.fps ∧
    (stepRefillPages halt w).pc.early = false := by
  unfold stepRefillPages
  split_ifs
  · exact ⟨rfl, rfl, rfl, rfl⟩
  · split
    · refine ⟨rfl, rfl, rfl, ?_⟩
      show w.pc.early = false
      rw [hw]; rfl
    · exact ⟨rfl, rfl, rfl, rfl⟩

theorem stepThrottle_stamps (halt : Bool) (w : Worker) :
    (stepThrottle halt w).videoframes = w.videoframes ∧
    (stepThrottle halt w).audioframes = w.audioframes ∧
    (stepThrottle halt w).fps = w.fps ∧
    (stepThrottle halt w).pc.early = false := by
  unfold stepThrottle
  split_ifs <;> exact ⟨rfl, rfl, rfl, rfl⟩

theorem stepThrottleWait_stamps (ctx : TheoraDecoder) (w : Worker)
    (hw : w.pc = PC.throttleWait) :
    (stepThrottleWait ctx w).videoframes = w.videoframes ∧
    (stepThrottleWait ctx w).audioframes = w.audioframes ∧
    (stepThrottleWait ctx w).fps = w.fps ∧
    (stepThrottleWait ctx w).pc.early = false := by
  unfold stepThrottleWait
  split_ifs
  · refine ⟨rfl, rfl, rfl, ?_⟩
    rw [hw]; rfl
  · exact ⟨rfl, rfl, rfl, rfl⟩

theorem stepSetupVideo_stamps (env : Env) (halt : Bool) (w : Worker) :
    (stepSetupVideo env halt w).videoframes = w.videoframes ∧
    (stepSetupVideo env halt w).audioframes = w.audioframes ∧
    (stepSetupVideo env halt w).pc.early = false ∧
    ((stepSetupVideo env halt w).fps = w.fps ∨
      (stepSetupVideo env halt w).fps
        = fpsOf env.tinfo.fps_numerator env.tinfo.fps_denominator) := by
  unfold stepSetupVideo
  by_cases hd : env.tinfo.fps_denominator ≠ 0
  · simp only [if_pos hd]
    split_ifs
    · exact ⟨rfl, rfl, rfl, Or.inl rfl⟩
    · exact ⟨rfl, rfl, rfl, Or.inl rfl⟩
    · exact ⟨rfl, rfl, rfl, Or.inr rfl⟩
    · exact ⟨rfl, rfl, rfl, Or.inr rfl⟩
    · exact ⟨rfl, rfl, rfl, Or.inl rfl⟩
  · simp only [if_neg hd]
    split_ifs <;> exact ⟨rfl, rfl, rfl, Or.inl rfl⟩

theorem StampInv.worker_setupVideo {env : Env} {n : Nat} {s : Sys} (h : StampInv env n s)
    (hpc : s.w.pc = PC.setupVideo) :
    StampInv env (n + 1) { s with w := stepSetupVideo env s.ctx.halt s.w } := by
  obtain ⟨e1, e2, e3, e4⟩ := stepSetupVideo_stamps env s.ctx.halt s.w
  obtain ⟨hh, hv⟩ := h.early (by rw [hpc]; rfl)
  obtain ⟨bs, b1, b2⟩ := h.audio
  refine ⟨⟨[], Nat.zero_le _, ?_, ?_⟩, ⟨bs, b1, ?_⟩, ?_, ?_⟩
  · show s.ctx.videoHeap.map Node.val = _
    rw [hh]; rfl
  · show (stepSetupVideo env s.ctx.halt s.w).videoframes = _
    rw [e1, hv]; rfl
  · show (stepSetupVideo env s.ctx.halt s.w).audioframes = _
    rw [e2]; exact b2
  · intro he
    have he2 : (stepSetupVideo env s.ctx.halt s.w).pc.early = true := he
    rw [e3] at he2; cases he2
  · show (stepSetupVideo env s.ctx.halt s.w).fps = 0 ∨ _
    rcases e4 with e | e
    · rw [e]; exact h.fps
    · exact Or.inr e

theorem appendAudio_vals (ctx : TheoraDecoder) (item : PcmAudio) :
    (appendAudio ctx item).audioHeap.map Node.val = ctx.audioHeap.map Node.val ++ [item] ∧
    (appendAudio ctx item).videoHeap = ctx.videoHeap :=
  ⟨linkTail_vals _ _ _ _, rfl⟩

theorem appendVideo_vals (ctx : TheoraDecoder) (item : YuvVideo) :
    (appendVideo ctx item).videoHeap.map Node.val = ctx.videoHeap.map Node.val ++ [item] ∧
    (appendVideo ctx item).audioHeap = ctx.audioHeap :=
  ⟨linkTail_vals _ _ _ _, rfl⟩

theorem StampInv.worker_audioDrain (env : Env) (itemOk bufOk : Bool) {n : Nat} {s : Sys}
    (h : StampInv env n s) (hpc : s.w.pc = PC.audioDrain) :
    StampInv env (n + 1) (stepAudioDrain env itemOk bufOk s) := by
  have hlate : s.w.pc.early = true → False := by
    intro he; rw [hpc] at he; cases he
  unfold stepAudioDrain
  dsimp only
  split_ifs with c1 c2 c3 c4 c5
  · exact h.plain _ rfl rfl rfl (fun he => (by cases he))
  · obtain ⟨ps, p1, p2, p3⟩ := h.video
    obtain ⟨bs, b1, b2⟩ := h.audio
    refine ⟨⟨ps, by omega, p2, p3⟩, ⟨bs ++ [(s.w.pcm_frames, s.w.pcm)], ?_, ?_⟩, ?_, h.fps⟩
    · show (appendAudio s.ctx _).audioHeap.map Node.val = _
      rw [(appendAudio_vals _ _).1, audioUnits_append, ← b1, ← b2]
      simp only [audioUnits, if_pos c2]
    · show (s.w.audioframes + s.w.pcm_frames.toNat) % env.ULONG_MOD = _
      rw [audioframesAfter_append, ← b2]
      simp only [audioframesAfter, if_pos c2]
    · intro he
      exact (hlate he).elim
  · exact h.plain _ rfl rfl rfl (fun he => (by cases he))
  · exact h.plain _ rfl rfl rfl (fun he => he)
  · exact h.plain _ rfl rfl rfl (fun he => he)
  · exact h.plain _ rfl rfl rfl (fun he => (by cases he))

theorem StampInv.worker_videoStep (env : Env) (itemOk bufOk : Bool) {n : Nat} {s : Sys}
    (h : StampInv env n s) :
    StampInv env (n + 1) (stepVideo env itemOk bufOk s) := by
  obtain ⟨ps, p1, p2, p3⟩ := h.video
  obtain ⟨bs, b1, b2⟩ := h.audio
  unfold stepVideo
  dsimp only
  split_ifs with c1 c2 c3 c4 c5 c6
  · exact h.plain _ rfl rfl rfl (fun he => (by cases he))
  · refine ⟨⟨ps ++ [(ogg_stream_packetout s.w.tstream).2.1.getD s.w.packet], ?_, ?_, ?_⟩,
      ⟨bs, b1, b2⟩, fun he => (by cases he), h.fps⟩
    · rw [List.length_append]; simp only [List.length_singleton]; omega
    · show s.ctx.videoHeap.map Node.val = _
      rw [videoUnits_append, ← p2, ← p3]
      simp only [videoUnits, if_pos c3, List.append_nil]
    · show (s.w.videoframes + 1) % env.ULONG_MOD = _
      rw [videoframesAfter_append, ← p3]
      simp only [videoframesAfter, if_pos c3]
  · exact h.plain _ rfl rfl rfl (fun he => (by cases he))
  · refine ⟨⟨ps ++ [(ogg_stream_packetout s.w.tstream).2.1.getD s.w.packet], ?_, ?_, ?_⟩,
      ⟨bs, b1, b2⟩, fun he => (by cases he), h.fps⟩
    · rw [List.length_append]; simp only [List.length_singleton]; omega
    · show (appendVideo s.ctx _).videoHeap.map Node.val = _
      rw [(appendVideo_vals _ _).1, videoUnits_append, ← p2, ← p3]
      simp only [videoUnits, if_neg c3, if_pos c4, if_pos c5]
    · show (s.w.videoframes + 1) % env.ULONG_MOD = _
      rw [videoframesAfter_append, ← p3]
      simp only [videoframesAfter, if_neg c3, if_pos c4]
  · refine ⟨⟨ps ++ [(ogg_stream_packetout s.w.tstream).2.1.getD s.w.packet], ?_, ?_, ?_⟩,
      ⟨bs, b1, b2⟩, fun he => (by cases he), h.fps⟩
    · rw [List.length_append]; simp only [List.length_singleton]; omega
    · show s.ctx.videoHeap.map Node.val = _
      rw [videoUnits_append, ← p2, ← p3]
      simp only [videoUnits, if_neg c3, if_pos c4, if_neg c5, List.append_nil]
    · show (s.w.videoframes + 1) % env.ULONG_MOD = _
      rw [videoframesAfter_append, ← p3]
      simp only [videoframesAfter, if_neg c3, if_pos c4]
  · exact h.plain _ rfl rfl rfl (fun he => (by cases he))
  · exact h.plain _ rfl rfl rfl (fun he => (by cases he))

theorem StampInv.more {env : Env} {n : Nat} {s : Sys} (h : StampInv env n s) :
    StampInv env (n + 1) s := by
  obtain ⟨ps, p1, p2, p3⟩ := h.video
  exact ⟨⟨ps, by omega, p2, p3⟩, h.audio, h.early, h.fps⟩

/-- Every step of the worker thread keeps the units and the counters in step with a
sequence of decode results, one packet longer at most. -/
theorem StampInv.worker_stamp (env : Env) (itemOk bufOk : Bool) {n : Nat} {s : Sys}
    (h : StampInv env n s) : StampInv env (n + 1) (workerStep env itemOk bufOk s) := by
  cases hpc : s.w.pc with
  | discover =>
    have e : workerStep env itemOk bufOk s = { s with w := stepDiscover s.ctx.halt s.w } := by
      unfold workerStep; rw [hpc]
    rw [e]
    obtain ⟨a, b, c⟩ := stepDiscover_stamps s.ctx.halt s.w
    exact h.plain _ a b c (fun _ => by rw [hpc]; rfl)
  | discoverPages =>
    have e : workerStep env itemOk bufOk s =
        { s with w := stepDiscoverPages s.ctx.halt s.w } := by
      unfold workerStep; rw [hpc]
    rw [e]
    obtain ⟨a, b, c⟩ := stepDiscoverPages_stamps s.ctx.halt s.w
    exact h.plain _ a b c (fun _ => by rw [hpc]; rfl)
  | discoverDone =>
    have e : workerStep env itemOk bufOk s =
        { s with w := stepDiscoverDone s.ctx.halt s.w } := by
      unfold workerStep; rw [hpc]
    rw [e]
    obtain ⟨a, b, c⟩ := stepDiscoverDone_stamps s.ctx.halt s.w
    exact h.plain _ a b c (fun _ => by rw [hpc]; rfl)
  | headers =>
    have e : workerStep env itemOk bufOk s = { s with w := stepHeaders s.ctx.halt s.w } := by
      unfold workerStep; rw [hpc]
    rw [e]
    obtain ⟨a, b, c⟩ := stepHeaders_stamps s.ctx.halt s.w
    exact h.plain _ a b c (fun _ => by rw [hpc]; rfl)
  | headersTheora =>
    have e : workerStep env itemOk bufOk s =
        { s with w := stepHeadersTheora s.ctx.halt s.w } := by
      unfold workerStep; rw [hpc]
    rw [e]
    obtain ⟨a, b, c⟩ := stepHeadersTheora_stamps s.ctx.halt s.w
    exact h.plain _ a b c (fun _ => by rw [hpc]; rfl)
  | headersVorbis =>
    have e : workerStep env itemOk bufOk s =
        { s with w := stepHeadersVorbis s.ctx.halt s.w } := by
      unfold workerStep; rw [hpc]
    rw [e]
    obtain ⟨a, b, c⟩ := stepHeadersVorbis_stamps s.ctx.halt s.w
    exact h.plain _ a b c (fun _ => by rw [hpc]; rfl)
  | headersPage =>
    have e : workerStep env itemOk bufOk s = { s with w := stepHeadersPage s.w } := by
      unfold workerStep; rw [hpc]
    rw [e]
    obtain ⟨a, b, c⟩ := stepHeadersPage_stamps s.w
    exact h.plain _ a b c (fun _ => by rw [hpc]; rfl)
  | setupVideo =>
    have e : workerStep env itemOk bufOk s =
        { s with w := stepSetupVideo env s.ctx.halt s.w } := by
      unfold workerStep; rw [hpc]
    rw [e]
    exact h.worker_setupVideo hpc
  | setupAudio =>
    have e : workerStep env itemOk bufOk s =
        { s with w := stepSetupAudio env s.ctx.halt s.w } := by
      unfold workerStep; rw [hpc]
    rw [e]
    obtain ⟨a, b, c, d⟩ := stepSetupAudio_stamps env s.ctx.halt s.w
    exact h.plain _ a b c (fun he => by rw [d] at he; cases he)
  | decodeTop =>
    have e : workerStep env itemOk bufOk s = { s with w := stepDecodeTop s.ctx.halt s.w } := by
      unfold workerStep; rw [hpc]
    rw [e]
    obtain ⟨a, b, c, d⟩ := stepDecodeTop_stamps s.ctx.halt s.w
    exact h.plain _ a b c (fun he => by rw [d] at he; cases he)
  | audioDrain =>
    have e : workerStep env itemOk bufOk s = stepAudioDrain env itemOk bufOk s := by
      unfold workerStep; rw [hpc]
    rw [e]
    exact h.worker_audioDrain env itemOk bufOk hpc
  | videoStep =>
    have e : workerStep env itemOk bufOk s = stepVideo env itemOk bufOk s := by
      unfold workerStep; rw [hpc]
    rw [e]
    exact h.worker_videoStep env itemOk bufOk
  | refill =>
    have e : workerStep env itemOk bufOk s = { s with w := stepRefill s.ctx.halt s.w } := by
      unfold workerStep; rw [hpc]
    rw [e]
    obtain ⟨a, b, c, d⟩ := stepRefill_stamps s.ctx.halt s.w
    exact h.plain _ a b c (fun he => by rw [d] at he; cases he)
  | refillPages =>
    have e : workerStep env itemOk bufOk s =
        { s with w := stepRefillPages s.ctx.halt s.w } := by
      unfold workerStep; rw [hpc]
    rw [e]
    obtain ⟨a, b, c, d⟩ := stepRefillPages_stamps s.ctx.halt s.w hpc
    exact h.plain _ a b c (fun he => by rw [d] at he; cases he)
  | throttle =>
    have e : workerStep env itemOk bufOk s = { s with w := stepThrottle s.ctx.halt s.w } := by
      unfold workerStep; rw [hpc]
    rw [e]
    obtain ⟨a, b, c, d⟩ := stepThrottle_stamps s.ctx.halt s.w
    exact h.plain _ a b c (fun he => by rw [d] at he; cases he)
  | throttleWait =>
    have e : workerStep env itemOk bufOk s = { s with w := stepThrottleWait s.ctx s.w } := by
      unfold workerStep; rw [hpc]
    rw [e]
    obtain ⟨a, b, c, d⟩ := stepThrottleWait_stamps s.ctx s.w hpc
    exact h.plain _ a b c (fun he => by rw [d] at he; cases he)
  | cleanup =>
    have e : workerStep env itemOk bufOk s = stepCleanup s := by
      unfold workerStep; rw [hpc]
    rw [e]
    obtain ⟨ps, p1, p2, p3⟩ := h.video
    exact ⟨⟨ps, by omega, p2, p3⟩, h.audio, fun he => (by cases he), h.fps⟩
  | done =>
    have e : workerStep env itemOk bufOk s = s := by
      unfold workerStep; rw [hpc]
    rw [e]
    exact h.more

/-- A consumer call or a halt request changes neither the units nor the counters. -/
theorem StampInv.consumer (env : Env) {n : Nat} {s : Sys} (h : StampInv env n s) :
    StampInv env n (sysStep env s Event.getVideo) ∧
    StampInv env n (sysStep env s Event.getAudio) ∧
    StampInv env n (sysStep env s Event.stop) := by
  obtain ⟨ps, p1, p2, p3⟩ := h.video
  obtain ⟨bs, b1, b2⟩ := h.audio
  refine ⟨⟨⟨ps, p1, ?_, p3⟩, ⟨bs, ?_, b2⟩, ?_, h.fps⟩,
    ⟨⟨ps, p1, ?_, p3⟩, ⟨bs, ?_, b2⟩, ?_, h.fps⟩, ⟨⟨ps, p1, p2, p3⟩, ⟨bs, b1, b2⟩, h.early, h.fps⟩⟩
  · show (THEORAPLAY_getVideo s.ctx).2.videoHeap.map Node.val = _
    rw [(getVideo_vals s.ctx).1]; exact p2
  · show (THEORAPLAY_getVideo s.ctx).2.audioHeap.map Node.val = _
    rw [(getVideo_vals s.ctx).2]; exact b1
  · intro he
    obtain ⟨e1, e2⟩ := h.early he
    refine ⟨?_, e2⟩
    have hm := (getVideo_vals s.ctx).1
    rw [e1] at hm
    exact List.map_eq_nil_iff.mp hm
  · show (THEORAPLAY_getAudio s.ctx).2.videoHeap.map Node.val = _
    rw [(getAudio_vals s.ctx).2]; exact p2
  · show (THEORAPLAY_getAudio s.ctx).2.audioHeap.map Node.val = _
    rw [(getAudio_vals s.ctx).1]; exact b1
  · intro he
    obtain ⟨e1, e2⟩ := h.early he
    refine ⟨?_, e2⟩
    show (THEORAPLAY_getAudio s.ctx).2.videoHeap = []
    rw [(getAudio_vals s.ctx).2]; exact e1

theorem StampInv.at_stamp_start (env : Env) (maxframes : Nat) (fd : List ReadCall) :
    StampInv env 0 (initSys env maxframes fd) :=
  ⟨⟨[], Nat.le_refl _, rfl, rfl⟩, ⟨[], rfl, rfl⟩, fun _ => ⟨rfl, rfl⟩, Or.inl rfl⟩

/-- In every state the system reaches, the units on the two heaps and the two frame
counters are those of a sequence of decode results. -/
theorem StampInv.along_stamps (env : Env) (maxframes : Nat) (fd : List ReadCall)
    (evs : List Event) :
    StampInv env (workerSteps evs) (runSys env (initSys env maxframes fd) evs) := by
  induction evs using List.reverseRecOn with
  | nil => exact StampInv.at_stamp_start env maxframes fd
  | append_singleton evs ev ih =>
    rw [runSys_snoc, workerSteps_snoc]
    cases ev with
    | worker itemOk bufOk => exact ih.worker_stamp env itemOk bufOk
    | getVideo => exact (ih.consumer env).1
    | getAudio => exact (ih.consumer env).2.1
    | stop => exact (ih.consumer env).2.2

/-- C9, as stated, fails for the first video unit.  The first packet after the headers
is a duplicate frame (`th_decode_packetin` returns `TH_DUPFRAME`), which advances
`videoframes` to 1 without a unit; the next packet is a new frame.  At one frame per
second the first unit appended to the video list (address 0, the head of the list) has
`playms` 1000, not 0. -/
theorem timestamps_counterexample :
    (runSys slowEnv (initSys slowEnv 2 dupFirstFile) (workerRun 21)).ctx.videoHeap.length = 0 ∧
    (runSys slowEnv (initSys slowEnv 2 dupFirstFile) (workerRun 21)).w.videoframes = 1 ∧
    (runSys slowEnv (initSys slowEnv 2 dupFirstFile) (workerRun 22)).ctx.videolist = some 0 ∧
    ((runSys slowEnv (initSys slowEnv 2 dupFirstFile) (workerRun 22)).ctx.videoHeap.map
      fun u => u.val.playms) = [1000] ∧
    ¬ (∀ t, ((runSys slowEnv (initSys slowEnv 2 dupFirstFile) (workerRun 22)).ctx.videoHeap.map
      fun u => u.val.playms).head? = some t → t = 0) := by
  have e : ((runSys slowEnv (initSys slowEnv 2 dupFirstFile) (workerRun 22)).ctx.videoHeap.map
      fun u => u.val.playms) = [1000] := by
    have e1 : ((runSys slowEnv (initSys slowEnv 2 dupFirstFile) (workerRun 22)).ctx.videoHeap.map
        fun u => u.val.playms) = [videoPlayms (fpsOf 1 1) 1] := rfl
    rw [e1, fpsOf_one_one, videoPlayms_one 1 (by norm_num)]
  refine ⟨by decide, by decide, by decide, e, ?_⟩
  rw [e]
  intro h
  have := h 1000 rfl
  omega

/-- C9 (amended).  (1) In every state the system reaches, the units on the video heap
and on the audio heap -- all the units ever appended, in that order -- are those built
along a sequence of decode results: at most one packet per worker step for the video
list, a sequence of results of `vorbis_synthesis_pcmout` for the audio list; `fps` is
not negative.  (2) Along every sequence of video decode results (new frame, duplicate
frame, failed plane extraction, decode error) whose last frame index is in the range of
`unsigned long` and has a time stamp in the range of `unsigned int`, the `playms` values
are non-decreasing in append order, and the first unit has `playms`
`floor(k / fps * 1000)` (0 when `fps` is 0), where `k` is the number of duplicate frames
and failed plane extractions before it; so it is 0 when there is none.  (3) Along every
sequence of audio results, for a positive sample rate and a total number of frames whose
time stamp is in the range of `unsigned long`, the `playms` values are non-decreasing in
append order and the first unit has `playms` 0.  (4) So the `playms` values on the video
heap are non-decreasing in every state reached within a number of worker steps whose
time stamp is in range. -/
theorem timestamps :
    (∀ (env : Env) (K : Nat) (fd : List ReadCall) (evs : List Event),
      ∃ (packets : List Packet) (blocks : List (Int × (Nat → Nat → Nat))),
        packets.length ≤ workerSteps evs ∧
        0 ≤ (runSys env (initSys env K fd) evs).w.fps ∧
        (runSys env (initSys env K fd) evs).ctx.videoHeap.map Node.val =
          videoUnits env (runSys env (initSys env K fd) evs).w.fps 0 packets ∧
        (runSys env (initSys env K fd) evs).ctx.audioHeap.map Node.val =
          audioUnits env 0 blocks) ∧
    (∀ (env : Env) (fps : ℚ) (packets : List Packet), 0 ≤ fps →
      packets.length < env.ULONG_MOD → ⌊msOf packets.length fps⌋.toNat < UINT_MOD →
      List.Pairwise (fun a b => a ≤ b) ((videoUnits env fps 0 packets).map fun u => u.playms) ∧
      (∀ u, (videoUnits env fps 0 packets).head? = some u →
        u.playms = videoPlayms fps (skipped packets) ∧
        (skipped packets = 0 → u.playms = 0) ∧ (fps = 0 → u.playms = 0))) ∧
    (∀ (env : Env) (blocks : List (Int × (Nat → Nat → Nat))), 0 < env.rate →
      totalFrames blocks < env.ULONG_MOD →
      ⌊msOf (totalFrames blocks) (toDouble env.rate)⌋.toNat < env.ULONG_MOD →
      List.Pairwise (fun a b => a ≤ b) ((audioUnits env 0 blocks).map fun u => u.playms) ∧
      (∀ u, (audioUnits env 0 blocks).head? = some u → u.playms = 0)) ∧
    (∀ (env : Env) (K : Nat) (fd : List ReadCall) (evs : List Event),
      workerSteps evs < env.ULONG_MOD →
      ⌊msOf (workerSteps evs) (runSys env (initSys env K fd) evs).w.fps⌋.toNat < UINT_MOD →
      List.Pairwise (fun a b => a ≤ b)
        ((runSys env (initSys env K fd) evs).ctx.videoHeap.map fun u => u.val.playms)) := by
  have hfps : ∀ (env : Env) (K : Nat) (fd : List ReadCall) (evs : List Event),
      0 ≤ (runSys env (initSys env K fd) evs).w.fps := by
    intro env K fd evs
    rcases (StampInv.along_stamps env K fd evs).fps with e | e
    · rw [e]
    · rw [e]; exact fpsOf_nonneg _ _
  refine ⟨?_, ?_, ?_, ?_⟩
  · intro env K fd evs
    have h := StampInv.along_stamps env K fd evs
    obtain ⟨ps, p1, p2, -⟩ := h.video
    obtain ⟨bs, b1, -⟩ := h.audio
    exact ⟨ps, bs, p1, hfps env K fd evs, p2, b1⟩
  · intro env fps packets hf hlen hfit
    obtain ⟨-, s2, s3⟩ :=
      videoUnits_sorted env fps hf packets.length hlen hfit packets 0 (by omega)
    refine ⟨s2, fun u hu => ?_⟩
    have e := s3 u hu
    rw [Nat.zero_add] at e
    refine ⟨e, fun hk => ?_, fun h0 => ?_⟩
    · rw [e, hk, videoPlayms_zero]
    · rw [e, h0]; simp [videoPlayms]
  · intro env blocks hr hlen hfit
    obtain ⟨-, s2, s3⟩ :=
      audioUnits_sorted env hr.le (totalFrames blocks) hlen hfit blocks 0 (by omega)
    refine ⟨s2, fun u hu => ?_⟩
    rw [s3 u hu, audioPlayms_zero]
  · intro env K fd evs hlen hfit
    have h := StampInv.along_stamps env K fd evs
    obtain ⟨ps, p1, p2, -⟩ := h.video
    have hf := hfps env K fd evs
    obtain ⟨-, s2, -⟩ :=
      videoUnits_sorted env _ hf (workerSteps evs) hlen hfit ps 0 (by omega)
    have e : ((runSys env (initSys env K fd) evs).ctx.videoHeap.map fun u => u.val.playms)
        = ((runSys env (initSys env K fd) evs).ctx.videoHeap.map Node.val).map
            fun u => u.playms := by
      rw [List.map_map]; rfl
    rw [e, p2]
    exact s2

/-- C9 (amended) on concrete inputs: a duplicate frame followed by two new frames at one
frame per second, three results of `vorbis_synthesis_pcmout` at 44100 Hz, and the system
after 30 worker steps on `dupFirstFile`. -/
theorem timestamps_witness :
    List.Pairwise (fun a b => a ≤ b)
      ((videoUnits slowEnv 1 0 [dupPacket, mkPacket 0 (-1), mkPacket 0 (-1)]).map
        fun u => u.playms) ∧
    List.Pairwise (fun a b => a ≤ b)
      ((audioUnits demoEnv 0 [(4, fun c f => c + f), (0, fun _ _ => 0),
        (4, fun c f => c + f)]).map fun u => u.playms) ∧
    List.Pairwise (fun a b => a ≤ b)
      ((runSys slowEnv (initSys slowEnv 2 dupFirstFile) (workerRun 30)).ctx.videoHeap.map
        fun u => u.val.playms) := by
  refine ⟨?_, ?_, ?_⟩
  · refine (timestamps.2.1 slowEnv 1 [dupPacket, mkPacket 0 (-1), mkPacket 0 (-1)]
      (by norm_num) (by decide) ?_).1
    have e := msOf_one 3 (by norm_num)
    show ⌊msOf 3 1⌋.toNat < UINT_MOD
    rw [e, Int.floor_natCast, Int.toNat_natCast]
    decide
  · refine (timestamps.2.2.1 demoEnv [(4, fun c f => c + f), (0, fun _ _ => 0),
      (4, fun c f => c + f)] (by decide) (by decide) ?_).1
    have hb := msOf_le 8 (toDouble ((44100 : ℤ) : ℚ)) (toDouble_one_le 44100 (by decide))
      (by norm_num)
    have hfl : ⌊msOf 8 (toDouble ((44100 : ℤ) : ℚ))⌋.toNat ≤ 8 * 1000 := by
      have := floor_toNat_mono hb
      rwa [Int.floor_natCast, Int.toNat_natCast] at this
    show ⌊msOf 8 (toDouble ((44100 : ℤ) : ℚ))⌋.toNat < 2 ^ 64
    omega
  · refine timestamps.2.2.2 slowEnv 2 dupFirstFile (workerRun 30) (by decide) ?_
    have e1 : (runSys slowEnv (initSys slowEnv 2 dupFirstFile) (workerRun 30)).w.fps
        = fpsOf 1 1 := rfl
    have e2 : workerSteps (workerRun 30) = 30 := by decide
    rw [e1, e2, fpsOf_one_one, msOf_one 30 (by norm_num), Int.floor_natCast,
      Int.toNat_natCast]
    decide

end TheoraPlay
